import Mathlib

/-!
# mini-redis: storage engine, protocol codec and command dispatcher

A shallow embedding of `src/src/KVStore.cpp` and `src/src/CommandProcessor.cpp`.

* A `std::string` is a list of bytes; a byte is written as a `Char`.
* A `std::unordered_map<std::string, V>` is an association list with `find`,
  `assign` (the `m[k] = v` of the source) and `erase`.
* `std::chrono::steady_clock::now()` is an explicit argument `now : Int`.
* `int` values are `Int`, narrowed with `wrap32` where the source can overflow;
  `size_t` values are `Nat`, reduced modulo `2^64` where the source can wrap.
* An exception that leaves a function is an `Except.error`.
* A snapshot file is its content; `saveToDisk` yields the text written and
  `loadFromDisk` takes the text read, `none` standing for a file that cannot be opened.
-/

namespace MiniRedis

/-- A `std::string`: a sequence of bytes. -/
abbrev Str := List Char

/-- A `std::unordered_map<std::string, V>`; the list order is the iteration order. -/
abbrev UMap (V : Type) := List (Str × V)

namespace UMap

/-- Model of `m.find(k)`: the mapped value, `none` for `m.end()`. -/
def find {V : Type} : UMap V → Str → Option V
  | [], _ => none
  | (k', v) :: m, k => if k' = k then some v else find m k

/-- Model of `m[k] = v`: overwrite in place, or insert a new entry. -/
def assign {V : Type} : UMap V → Str → V → UMap V
  | [], k, v => [(k, v)]
  | (k', v') :: m, k, v => if k' = k then (k', v) :: m else (k', v') :: assign m k v

/-- Model of `m.erase(k)`. -/
def erase {V : Type} : UMap V → Str → UMap V
  | [], _ => []
  | (k', v') :: m, k => if k' = k then erase m k else (k', v') :: erase m k

/-- Model of `m.find(k) != m.end()`. -/
def contains {V : Type} (m : UMap V) (k : Str) : Bool := (find m k).isSome

/-- The keys in iteration order. -/
def keys {V : Type} (m : UMap V) : List Str := m.map Prod.fst

end UMap

/-- What can go wrong outside the reply channel: the two exceptions of `std::stoi`, and an
access past the end of a vector. -/
inductive Fault where
  | invalid_argument
  | out_of_range
  | out_of_bounds
deriving DecidableEq

/-- The four maps of `class KVStore`. -/
structure KVStore where
  stringData_ : UMap Str
  listData_ : UMap (List Str)
  hashData_ : UMap (UMap Str)
  expiryTimes_ : UMap Int
deriving DecidableEq

/-- The store a process starts with. -/
def KVStore.empty : KVStore := ⟨[], [], [], []⟩

/-- Two's-complement narrowing of an integer to `int`. -/
def wrap32 (x : Int) : Int := (x + 2147483648) % 4294967296 - 2147483648

/-- Reduction of a `size_t` computation modulo `2^64`. -/
def wrap64 (x : Int) : Nat := (x % 18446744073709551616).toNat

/-- Model of `std::to_string` of a non-negative value. -/
def natToString (n : Nat) : Str := Nat.toDigits 10 n

/-- Model of `std::to_string` of a signed value. -/
def to_string (x : Int) : Str :=
  if x < 0 then '-' :: natToString x.natAbs else natToString x.natAbs

/-- The bytes `\r\n`. -/
def crlf : Str := ['\r', '\n']

/-- Model of `KVStore::clearAll`. -/
def clearAll (_s : KVStore) : Bool × KVStore := (true, ⟨[], [], [], []⟩)

/-- The loop of `KVStore::cleanupExpired`: `todo` are the expiry entries the iterator has
not visited yet. -/
def cleanupLoop (currentTime : Int) : UMap Int → KVStore → KVStore
  | [], s => s
  | (k, t) :: todo, s =>
    if currentTime > t then
      cleanupLoop currentTime todo
        { stringData_ := UMap.erase s.stringData_ k
          listData_ := UMap.erase s.listData_ k
          hashData_ := UMap.erase s.hashData_ k
          expiryTimes_ := UMap.erase s.expiryTimes_ k }
    else cleanupLoop currentTime todo s

/-- Model of `KVStore::cleanupExpired`, run at clock reading `now`. -/
def cleanupExpired (now : Int) (s : KVStore) : KVStore :=
  cleanupLoop now s.expiryTimes_ s

/-- Model of `KVStore::setString`. -/
def setString (key val : Str) (s : KVStore) : KVStore :=
  { s with stringData_ := UMap.assign s.stringData_ key val }

/-- Model of `KVStore::getString`: the value found, if any, and the swept store. -/
def getString (now : Int) (key : Str) (s : KVStore) : Option Str × KVStore :=
  let s1 := cleanupExpired now s
  (UMap.find s1.stringData_ key, s1)

/-- Model of `KVStore::getAllKeys`. -/
def getAllKeys (now : Int) (s : KVStore) : List Str × KVStore :=
  let s1 := cleanupExpired now s
  (UMap.keys s1.stringData_ ++ UMap.keys s1.listData_ ++ UMap.keys s1.hashData_, s1)

/-- Model of `KVStore::getKeyType`. -/
def getKeyType (now : Int) (key : Str) (s : KVStore) : Str × KVStore :=
  let s1 := cleanupExpired now s
  (if UMap.contains s1.stringData_ key then "string".toList
   else if UMap.contains s1.listData_ key then "list".toList
   else if UMap.contains s1.hashData_ key then "hash".toList
   else "none".toList, s1)

/-- Model of `KVStore::removeKey`. -/
def removeKey (now : Int) (key : Str) (s : KVStore) : Bool × KVStore :=
  let s1 := cleanupExpired now s
  let removed := UMap.contains s1.stringData_ key || UMap.contains s1.listData_ key
    || UMap.contains s1.hashData_ key
  (removed,
    { stringData_ := UMap.erase s1.stringData_ key
      listData_ := UMap.erase s1.listData_ key
      hashData_ := UMap.erase s1.hashData_ key
      expiryTimes_ := UMap.erase s1.expiryTimes_ key })

/-- Ticks of `steady_clock` (nanoseconds) in one second. -/
def ticksPerSecond : Int := 1000000000

/-- Model of `KVStore::setExpiry`. -/
def setExpiry (now : Int) (key : Str) (ttlSeconds : Int) (s : KVStore) : Bool × KVStore :=
  let s1 := cleanupExpired now s
  let keyExists := UMap.contains s1.stringData_ key || UMap.contains s1.listData_ key
    || UMap.contains s1.hashData_ key
  let deadline := now + ttlSeconds * ticksPerSecond
  if !keyExists then (false, s1)
  else (true, { s1 with expiryTimes_ := UMap.assign s1.expiryTimes_ key deadline })

/-- One block of `KVStore::renameKey`: `m[newKey] = it->second; m.erase(it)` when
`oldKey` is found in `m`. -/
def renameIn {V : Type} (m : UMap V) (oldKey newKey : Str) : UMap V :=
  match UMap.find m oldKey with
  | some v => UMap.erase (UMap.assign m newKey v) oldKey
  | none => m

/-- Model of `KVStore::renameKey`. -/
def renameKey (now : Int) (oldKey newKey : Str) (s : KVStore) : Bool × KVStore :=
  let s1 := cleanupExpired now s
  let found := UMap.contains s1.stringData_ oldKey || UMap.contains s1.listData_ oldKey
    || UMap.contains s1.hashData_ oldKey
  (found,
    { stringData_ := renameIn s1.stringData_ oldKey newKey
      listData_ := renameIn s1.listData_ oldKey newKey
      hashData_ := renameIn s1.hashData_ oldKey newKey
      expiryTimes_ := renameIn s1.expiryTimes_ oldKey newKey })

/-- Model of `KVStore::getList`. -/
def getList (key : Str) (s : KVStore) : List Str :=
  match UMap.find s.listData_ key with
  | some items => items
  | none => []

/-- Model of `KVStore::listSize`. -/
def listSize (key : Str) (s : KVStore) : Int :=
  match UMap.find s.listData_ key with
  | some items => items.length
  | none => 0

/-- Model of `KVStore::listPushFront`: `listData_[key]` creates an empty list for a new key. -/
def listPushFront (key val : Str) (s : KVStore) : KVStore :=
  { s with listData_ := UMap.assign s.listData_ key (val :: (UMap.find s.listData_ key).getD []) }

/-- Model of `KVStore::listPushBack`. -/
def listPushBack (key val : Str) (s : KVStore) : KVStore :=
  { s with listData_ := UMap.assign s.listData_ key ((UMap.find s.listData_ key).getD [] ++ [val]) }

/-- Model of `KVStore::listPopFront`. -/
def listPopFront (key : Str) (s : KVStore) : Option Str × KVStore :=
  match UMap.find s.listData_ key with
  | some (x :: rest) => (some x, { s with listData_ := UMap.assign s.listData_ key rest })
  | _ => (none, s)

/-- Model of `KVStore::listPopBack`. -/
def listPopBack (key : Str) (s : KVStore) : Option Str × KVStore :=
  match UMap.find s.listData_ key with
  | some (x :: rest) =>
    (some ((x :: rest).getLast (List.cons_ne_nil x rest)),
      { s with listData_ := UMap.assign s.listData_ key (x :: rest).dropLast })
  | _ => (none, s)

/-- The head-to-tail loop of `KVStore::listRemove` (`count > 0`). The iterator `iter`
stands between `done`, the elements it has passed, and the elements still ahead;
`items.erase(iter)` drops the element ahead without moving the iterator. -/
def removeForward (val : Str) (count : Int) : List Str → List Str → Int → List Str × Int
  | done, [], removedCount => (done, removedCount)
  | done, x :: ahead, removedCount =>
    if removedCount < count then
      if x = val then removeForward val count done ahead (removedCount + 1)
      else removeForward val count (done ++ [x]) ahead removedCount
    else (done ++ x :: ahead, removedCount)

/-- The tail-to-head loop of `KVStore::listRemove` (`count < 0`), `limit` being the value
of `-count`. The reverse iterator `rit` stands between the elements still ahead of it
(towards the head, given here last-first) and `done`, the elements it has passed. -/
def removeBackward (val : Str) (limit : Int) : List Str → List Str → Int → List Str × Int
  | [], done, removedCount => (done, removedCount)
  | x :: aheadRev, done, removedCount =>
    if removedCount < limit then
      if x = val then removeBackward val limit aheadRev done (removedCount + 1)
      else removeBackward val limit aheadRev (x :: done) removedCount
    else ((x :: aheadRev).reverse ++ done, removedCount)

/-- The three branches of `KVStore::listRemove` on the list found at the key: the new
list and `removedCount`. `std::distance` is narrowed to `int`, and `-count` is an `int`
negation. -/
def removeItems (count : Int) (val : Str) (items : List Str) : List Str × Int :=
  if count = 0 then
    let kept := items.filter (fun x => x ≠ val)
    (kept, wrap32 ((items.length : Int) - kept.length))
  else if count > 0 then removeForward val count [] items 0
  else removeBackward val (wrap32 (-count)) items.reverse [] 0

/-- Model of `KVStore::listRemove`. -/
def listRemove (key : Str) (count : Int) (val : Str) (s : KVStore) : Int × KVStore :=
  match UMap.find s.listData_ key with
  | none => (0, s)
  | some items =>
    let r := removeItems count val items
    (r.2, { s with listData_ := UMap.assign s.listData_ key r.1 })

/-- The index arithmetic shared by `listGetAt` and `listSetAt`: the wrapped index when
it passes the range test. `items.size() + idx` is computed in `size_t` and narrowed to
`int`, and the size is narrowed by `static_cast<int>`. -/
def resolveIndex (size : Nat) (idx : Int) : Option Int :=
  let idx1 := if idx < 0 then wrap32 (wrap64 ((size : Int) + idx)) else idx
  if idx1 < 0 || idx1 ≥ wrap32 size then none else some idx1

/-- Model of `KVStore::listGetAt`: `items[idx]` is an unchecked access. -/
def listGetAt (key : Str) (idx : Int) (s : KVStore) : Except Fault (Option Str) :=
  match UMap.find s.listData_ key with
  | none => .ok none
  | some items =>
    match resolveIndex items.length idx with
    | none => .ok none
    | some i =>
      match items.get? i.toNat with
      | some v => .ok (some v)
      | none => .error .out_of_bounds

/-- Model of `KVStore::listSetAt`. -/
def listSetAt (key : Str) (idx : Int) (val : Str) (s : KVStore) : Except Fault (Bool × KVStore) :=
  match UMap.find s.listData_ key with
  | none => .ok (false, s)
  | some items =>
    match resolveIndex items.length idx with
    | none => .ok (false, s)
    | some i =>
      if i.toNat < items.length then
        .ok (true, { s with listData_ := UMap.assign s.listData_ key (items.set i.toNat val) })
      else .error .out_of_bounds

/-- Model of `KVStore::hashSet`: `hashData_[key]` creates an empty hash for a new key. -/
def hashSet (key field val : Str) (s : KVStore) : Bool × KVStore :=
  let fields := UMap.assign ((UMap.find s.hashData_ key).getD []) field val
  (true, { s with hashData_ := UMap.assign s.hashData_ key fields })

/-- Model of `KVStore::hashGet`. -/
def hashGet (key field : Str) (s : KVStore) : Option Str :=
  match UMap.find s.hashData_ key with
  | some h => UMap.find h field
  | none => none

/-- Model of `KVStore::hashFieldExists`. -/
def hashFieldExists (key field : Str) (s : KVStore) : Bool :=
  match UMap.find s.hashData_ key with
  | some h => UMap.contains h field
  | none => false

/-- Model of `KVStore::hashDeleteField`. -/
def hashDeleteField (key field : Str) (s : KVStore) : Bool × KVStore :=
  match UMap.find s.hashData_ key with
  | some h =>
    (UMap.contains h field, { s with hashData_ := UMap.assign s.hashData_ key (UMap.erase h field) })
  | none => (false, s)

/-- Model of `KVStore::hashGetAll`. -/
def hashGetAll (key : Str) (s : KVStore) : UMap Str :=
  match UMap.find s.hashData_ key with
  | some h => h
  | none => []

/-- Model of `KVStore::hashGetFields`. -/
def hashGetFields (key : Str) (s : KVStore) : List Str :=
  match UMap.find s.hashData_ key with
  | some h => h.map Prod.fst
  | none => []

/-- Model of `KVStore::hashGetValues`. -/
def hashGetValues (key : Str) (s : KVStore) : List Str :=
  match UMap.find s.hashData_ key with
  | some h => h.map Prod.snd
  | none => []

/-- Model of `KVStore::hashSize`. -/
def hashSize (key : Str) (s : KVStore) : Int :=
  match UMap.find s.hashData_ key with
  | some h => h.length
  | none => 0

/-- Model of `KVStore::hashSetMultiple`: one `hashData_[key][p.first] = p.second` per pair. -/
def hashSetMultiple (key : Str) : List (Str × Str) → KVStore → KVStore
  | [], s => s
  | p :: pairs, s => hashSetMultiple key pairs (hashSet key p.1 p.2 s).2

/-- Model of `isspace` in the "C" locale. -/
def isspace (c : Char) : Bool :=
  c = ' ' || c = '\t' || c = '\n' || c = '\x0b' || c = '\x0c' || c = '\r'

/-- Model of `isdigit`. -/
def isdigit (c : Char) : Bool := 48 ≤ c.toNat && c.toNat ≤ 57

/-- Model of `::toupper` in the "C" locale. -/
def toupper (c : Char) : Char :=
  if 97 ≤ c.toNat ∧ c.toNat ≤ 122 then Char.ofNat (c.toNat - 32) else c

/-- The value of a run of decimal digits, most significant first. -/
def digitsValue (ds : List Char) : Nat := ds.foldl (fun acc c => 10 * acc + (c.toNat - 48)) 0

/-- Model of `std::stoi(str)`: skip leading white space, read an optional sign and the longest run
of digits, ignore what follows; `invalid_argument` without a digit, `out_of_range` when
the value does not fit an `int`. -/
def stoi (str : Str) : Except Fault Int :=
  let s1 := str.dropWhile isspace
  let neg := s1.head? = some '-'
  let s2 := if s1.head? = some '-' ∨ s1.head? = some '+' then s1.tail else s1
  let ds := s2.takeWhile isdigit
  if ds = [] then .error .invalid_argument
  else
    let x : Int := if neg then -(digitsValue ds : Int) else (digitsValue ds : Int)
    if x < -2147483648 ∨ x > 2147483647 then .error .out_of_range else .ok x

/-- Offset of the first `\r\n` in `s`. -/
def findCrlf : Str → Option Nat
  | [] => none
  | c :: rest =>
    if c = '\r' ∧ rest.head? = some '\n' then some 0 else (findCrlf rest).map (· + 1)

/-- Model of `input.find("\r\n", pos)`, `none` for `npos`. -/
def findFrom (input : Str) (pos : Nat) : Option Nat :=
  (findCrlf (input.drop pos)).map (· + pos)

/-- Model of `input.substr(pos, n)`: throws when `pos` is past the end. -/
def substr (input : Str) (pos n : Nat) : Except Fault Str :=
  if pos > input.length then .error .out_of_range else .ok ((input.drop pos).take n)

/-- One `stream >> token` on the unread part of a stream: the token, if one could be
read, and what is left unread. A failed read leaves nothing to read. -/
def extract (s : Str) : Option Str × Str :=
  let s1 := s.dropWhile isspace
  let tok := s1.takeWhile (fun c => !isspace c)
  if tok = [] then (none, []) else (some tok, s1.dropWhile (fun c => !isspace c))

/-- Model of `while (stream >> token) tokens.push_back(token)`, with one unit of fuel per
iteration. -/
def extractAll : Nat → Str → List Str
  | 0, _ => []
  | fuel + 1, s =>
    match extract s with
    | (some tok, rest) => tok :: extractAll fuel rest
    | (none, _) => []

/-- The successive results of `std::getline`: `line` holds the bytes read since the last
newline. A last line without a newline is returned when it is not empty. -/
def getlines : Str → Str → List Str
  | [], line => if line = [] then [] else [line]
  | c :: rest, line => if c = '\n' then line :: getlines rest [] else getlines rest (line ++ [c])

/-- The text `KVStore::saveToDisk` writes once the file is open: an `S` line per string,
an `L` line per list, an `H` line per hash, in iteration order. -/
def saveToDisk (s : KVStore) : Str :=
  (s.stringData_.map (fun e => 'S' :: ' ' :: e.1 ++ ' ' :: e.2 ++ ['\n'])).flatten
  ++ (s.listData_.map (fun e =>
        'L' :: ' ' :: e.1 ++ (e.2.map (fun item => ' ' :: item)).flatten ++ ['\n'])).flatten
  ++ (s.hashData_.map (fun e =>
        'H' :: ' ' :: e.1 ++ (e.2.map (fun fv => ' ' :: fv.1 ++ ':' :: fv.2)).flatten
          ++ ['\n'])).flatten

/-- One `field:value` token of an `H` line: `fields[field] = val` when the token has a
colon, split at the first one; a token without a colon is dropped. -/
def addPair (fields : UMap Str) (pair : Str) : UMap Str :=
  if ':' ∈ pair then
    UMap.assign fields (pair.takeWhile (fun c => c ≠ ':')) (pair.dropWhile (fun c => c ≠ ':')).tail
  else fields

/-- The body of the `while (std::getline(inFile, line))` loop of `KVStore::loadFromDisk`.
`uninit` is the value the uninitialised `recordType` has when `iss >> recordType` reads
nothing. A key or value that cannot be read stays the empty string. -/
def loadLine (uninit : Char) (line : Str) (s : KVStore) : KVStore :=
  let body := line.dropWhile isspace
  let recordType := body.head?.getD uninit
  let afterType := body.tail
  if recordType = 'S' then
    let k := extract afterType
    let v := extract k.2
    { s with stringData_ := UMap.assign s.stringData_ (k.1.getD []) (v.1.getD []) }
  else if recordType = 'L' then
    let k := extract afterType
    let items := extractAll k.2.length k.2
    { s with listData_ := UMap.assign s.listData_ (k.1.getD []) items }
  else if recordType = 'H' then
    let k := extract afterType
    let fields := (extractAll k.2.length k.2).foldl addPair []
    { s with hashData_ := UMap.assign s.hashData_ (k.1.getD []) fields }
  else s

/-- Model of `KVStore::loadFromDisk` on the content of the file, `none` when the file cannot be
opened. The three value maps are cleared, the expiry map is not. -/
def loadFromDisk (uninit : Char) (file : Option Str) (s : KVStore) : Bool × KVStore :=
  match file with
  | none => (false, s)
  | some text =>
    (true, (getlines text []).foldl (fun st line => loadLine uninit line st)
      { stringData_ := [], listData_ := [], hashData_ := [], expiryTimes_ := s.expiryTimes_ })

/-- The `for` loop of `parseProtocol`: `todo` iterations remain, `pos` is the read
position and `tokens` the tokens pushed so far. -/
def parseElements (input : Str) : Nat → Nat → List Str → Except Fault (List Str)
  | 0, _, tokens => .ok tokens
  | todo + 1, pos, tokens =>
    if pos ≥ input.length ∨ input.get? pos ≠ some '$' then .ok tokens
    else
      match findFrom input (pos + 1) with
      | none => .ok tokens
      | some crlfPos =>
        match substr input (pos + 1) (crlfPos - (pos + 1)) with
        | .error e => .error e
        | .ok lenText =>
          match stoi lenText with
          | .error e => .error e
          | .ok strLen =>
            let pos2 := crlfPos + 2
            if wrap64 ((pos2 : Int) + strLen) > input.length then .ok tokens
            else
              match substr input pos2 (wrap64 strLen) with
              | .error e => .error e
              | .ok token =>
                parseElements input todo (wrap64 ((pos2 : Int) + wrap32 (strLen + 2)))
                  (tokens ++ [token])

/-- Model of `parseProtocol`. -/
def parseProtocol (input : Str) : Except Fault (List Str) :=
  if input = [] then .ok []
  else if input.head? ≠ some '*' then .ok (extractAll input.length input)
  else
    match findFrom input 1 with
    | none => .ok []
    | some crlfPos =>
      match substr input 1 (crlfPos - 1) with
      | .error e => .error e
      | .ok countText =>
        match stoi countText with
        | .error e => .error e
        | .ok elementCount => parseElements input elementCount.toNat (crlfPos + 2) []

/-- A bulk-string reply: `"$" + std::to_string(val.size()) + "\r\n" + val + "\r\n"`. -/
def bulk (val : Str) : Str := '$' :: natToString val.length ++ crlf ++ val ++ crlf

/-- The nil reply `$-1\r\n`. -/
def nilReply : Str := "$-1\r\n".toList

/-- An integer reply: `":" + std::to_string(n) + "\r\n"`. -/
def intReply (n : Int) : Str := ':' :: to_string n ++ crlf

/-- An array-of-bulk reply: `"*" << items.size() << "\r\n"`, then every item as a bulk. -/
def arrayReply (items : List Str) : Str :=
  '*' :: natToString items.length ++ crlf ++ (items.map bulk).flatten

/-- The reply `+OK\r\n`. -/
def okReply : Str := "+OK\r\n".toList

/-- Model of `cmdPing`. -/
def cmdPing (_args : List Str) (s : KVStore) : Str × KVStore := ("+PONG\r\n".toList, s)

/-- Model of `cmdEcho`. -/
def cmdEcho (args : List Str) (s : KVStore) : Str × KVStore :=
  match args with
  | _ :: msg :: _ => ('+' :: msg ++ crlf, s)
  | _ => ("-ERR ECHO requires a message\r\n".toList, s)

/-- Model of `cmdFlushAll`. -/
def cmdFlushAll (_args : List Str) (s : KVStore) : Str × KVStore := (okReply, (clearAll s).2)

/-- Model of `cmdSet`. -/
def cmdSet (args : List Str) (s : KVStore) : Str × KVStore :=
  match args with
  | _ :: key :: val :: _ => (okReply, setString key val s)
  | _ => ("-ERR SET requires key and value\r\n".toList, s)

/-- Model of `cmdGet`. -/
def cmdGet (now : Int) (args : List Str) (s : KVStore) : Str × KVStore :=
  match args with
  | _ :: key :: _ =>
    match getString now key s with
    | (some val, s1) => (bulk val, s1)
    | (none, s1) => (nilReply, s1)
  | _ => ("-ERR GET requires key\r\n".toList, s)

/-- Model of `cmdKeys`. -/
def cmdKeys (now : Int) (_args : List Str) (s : KVStore) : Str × KVStore :=
  let r := getAllKeys now s
  (arrayReply r.1, r.2)

/-- Model of `cmdType`. -/
def cmdType (now : Int) (args : List Str) (s : KVStore) : Str × KVStore :=
  match args with
  | _ :: key :: _ =>
    let r := getKeyType now key s
    ('+' :: r.1 ++ crlf, r.2)
  | _ => ("-ERR TYPE requires key\r\n".toList, s)

/-- Model of `cmdDel`. -/
def cmdDel (now : Int) (args : List Str) (s : KVStore) : Str × KVStore :=
  match args with
  | _ :: key :: _ =>
    let r := removeKey now key s
    (intReply (if r.1 then 1 else 0), r.2)
  | _ => ("-ERR DEL requires key\r\n".toList, s)

/-- Model of `cmdExpire`: the `catch` turns both exceptions of `std::stoi` into an error reply. -/
def cmdExpire (now : Int) (args : List Str) (s : KVStore) : Str × KVStore :=
  match args with
  | _ :: key :: secs :: _ =>
    match stoi secs with
    | .ok ttl =>
      let r := setExpiry now key ttl s
      if r.1 then (okReply, r.2) else ("-ERR Key not found\r\n".toList, r.2)
    | .error _ => ("-ERR Invalid expiration time\r\n".toList, s)
  | _ => ("-ERR EXPIRE requires key and seconds\r\n".toList, s)

/-- Model of `cmdRename`. -/
def cmdRename (now : Int) (args : List Str) (s : KVStore) : Str × KVStore :=
  match args with
  | _ :: oldKey :: newKey :: _ =>
    let r := renameKey now oldKey newKey s
    if r.1 then (okReply, r.2) else ("-ERR Key not found or rename failed\r\n".toList, r.2)
  | _ => ("-ERR RENAME requires old key and new key\r\n".toList, s)

/-- Model of `cmdLget`. -/
def cmdLget (args : List Str) (s : KVStore) : Str × KVStore :=
  match args with
  | _ :: key :: _ => (arrayReply (getList key s), s)
  | _ => ("-ERR LGET requires a key\r\n".toList, s)

/-- Model of `cmdLlen`. -/
def cmdLlen (args : List Str) (s : KVStore) : Str × KVStore :=
  match args with
  | _ :: key :: _ => (intReply (listSize key s), s)
  | _ => ("-ERR LLEN requires key\r\n".toList, s)

/-- Model of `cmdLpush`: one `listPushFront` per value, then `listSize`. -/
def cmdLpush (args : List Str) (s : KVStore) : Str × KVStore :=
  match args with
  | _ :: key :: v :: vs =>
    let s1 := (v :: vs).foldl (fun st x => listPushFront key x st) s
    (intReply (listSize key s1), s1)
  | _ => ("-ERR LPUSH requires key and value\r\n".toList, s)

/-- Model of `cmdRpush`: one `listPushBack` per value, then `listSize`. -/
def cmdRpush (args : List Str) (s : KVStore) : Str × KVStore :=
  match args with
  | _ :: key :: v :: vs =>
    let s1 := (v :: vs).foldl (fun st x => listPushBack key x st) s
    (intReply (listSize key s1), s1)
  | _ => ("-ERR RPUSH requires key and value\r\n".toList, s)

/-- Model of `cmdLpop`. -/
def cmdLpop (args : List Str) (s : KVStore) : Str × KVStore :=
  match args with
  | _ :: key :: _ =>
    match listPopFront key s with
    | (some val, s1) => (bulk val, s1)
    | (none, s1) => (nilReply, s1)
  | _ => ("-ERR LPOP requires key\r\n".toList, s)

/-- Model of `cmdRpop`. -/
def cmdRpop (args : List Str) (s : KVStore) : Str × KVStore :=
  match args with
  | _ :: key :: _ =>
    match listPopBack key s with
    | (some val, s1) => (bulk val, s1)
    | (none, s1) => (nilReply, s1)
  | _ => ("-ERR RPOP requires key\r\n".toList, s)

/-- Model of `cmdLrem`. -/
def cmdLrem (args : List Str) (s : KVStore) : Str × KVStore :=
  match args with
  | _ :: key :: cnt :: val :: _ =>
    match stoi cnt with
    | .ok count =>
      let r := listRemove key count val s
      (intReply r.1, r.2)
    | .error _ => ("-ERR Invalid count\r\n".toList, s)
  | _ => ("-ERR LREM requires key, count and value\r\n".toList, s)

/-- Model of `cmdLindex`: the `catch` is for `std::exception`; an access past the end of the
vector is not one. -/
def cmdLindex (args : List Str) (s : KVStore) : Except Fault (Str × KVStore) :=
  match args with
  | _ :: key :: index :: _ =>
    match stoi index with
    | .ok idx =>
      match listGetAt key idx s with
      | .ok (some val) => .ok (bulk val, s)
      | .ok none => .ok (nilReply, s)
      | .error e => .error e
    | .error _ => .ok ("-ERR Invalid index\r\n".toList, s)
  | _ => .ok ("-ERR LINDEX requires key and index\r\n".toList, s)

/-- Model of `cmdLset`. -/
def cmdLset (args : List Str) (s : KVStore) : Except Fault (Str × KVStore) :=
  match args with
  | _ :: key :: index :: val :: _ =>
    match stoi index with
    | .ok idx =>
      match listSetAt key idx val s with
      | .ok (true, s1) => .ok (okReply, s1)
      | .ok (false, s1) => .ok ("-ERR Index out of range\r\n".toList, s1)
      | .error e => .error e
    | .error _ => .ok ("-ERR Invalid index\r\n".toList, s)
  | _ => .ok ("-ERR LSET requires key, index and value\r\n".toList, s)

/-- Model of `cmdHset`. -/
def cmdHset (args : List Str) (s : KVStore) : Str × KVStore :=
  match args with
  | _ :: key :: field :: val :: _ => (":1\r\n".toList, (hashSet key field val s).2)
  | _ => ("-ERR HSET requires key, field and value\r\n".toList, s)

/-- Model of `cmdHget`. -/
def cmdHget (args : List Str) (s : KVStore) : Str × KVStore :=
  match args with
  | _ :: key :: field :: _ =>
    match hashGet key field s with
    | some val => (bulk val, s)
    | none => (nilReply, s)
  | _ => ("-ERR HGET requires key and field\r\n".toList, s)

/-- Model of `cmdHexists`. -/
def cmdHexists (args : List Str) (s : KVStore) : Str × KVStore :=
  match args with
  | _ :: key :: field :: _ => (intReply (if hashFieldExists key field s then 1 else 0), s)
  | _ => ("-ERR HEXISTS requires key and field\r\n".toList, s)

/-- Model of `cmdHdel`. -/
def cmdHdel (args : List Str) (s : KVStore) : Str × KVStore :=
  match args with
  | _ :: key :: field :: _ =>
    let r := hashDeleteField key field s
    (intReply (if r.1 then 1 else 0), r.2)
  | _ => ("-ERR HDEL requires key and field\r\n".toList, s)

/-- Model of `cmdHgetall`: the count is `fields.size() * 2`, then field and value of every entry. -/
def cmdHgetall (args : List Str) (s : KVStore) : Str × KVStore :=
  match args with
  | _ :: key :: _ =>
    let fields := hashGetAll key s
    ('*' :: natToString (fields.length * 2) ++ crlf
      ++ (fields.map (fun e => bulk e.1 ++ bulk e.2)).flatten, s)
  | _ => ("-ERR HGETALL requires key\r\n".toList, s)

/-- Model of `cmdHkeys`. -/
def cmdHkeys (args : List Str) (s : KVStore) : Str × KVStore :=
  match args with
  | _ :: key :: _ => (arrayReply (hashGetFields key s), s)
  | _ => ("-ERR HKEYS requires key\r\n".toList, s)

/-- Model of `cmdHvals`. -/
def cmdHvals (args : List Str) (s : KVStore) : Str × KVStore :=
  match args with
  | _ :: key :: _ => (arrayReply (hashGetValues key s), s)
  | _ => ("-ERR HVALS requires key\r\n".toList, s)

/-- Model of `cmdHlen`. -/
def cmdHlen (args : List Str) (s : KVStore) : Str × KVStore :=
  match args with
  | _ :: key :: _ => (intReply (hashSize key s), s)
  | _ => ("-ERR HLEN requires key\r\n".toList, s)

/-- The pairs `(args[i], args[i + 1])` that `cmdHmset` collects from the tokens after
the key. -/
def pairUp : List Str → List (Str × Str)
  | f :: v :: rest => (f, v) :: pairUp rest
  | _ => []

/-- Model of `cmdHmset`. -/
def cmdHmset (args : List Str) (s : KVStore) : Str × KVStore :=
  if args.length < 4 ∨ args.length % 2 = 1 then
    ("-ERR HMSET requires key followed by field value pairs\r\n".toList, s)
  else
    match args with
    | _ :: key :: rest => (okReply, hashSetMultiple key (pairUp rest) s)
    | _ => ("-ERR HMSET requires key followed by field value pairs\r\n".toList, s)

/-- The dispatch of `CommandProcessor::execute` on the decoded tokens. -/
def dispatch (now : Int) (args : List Str) (s : KVStore) : Except Fault (Str × KVStore) :=
  match args with
  | [] => .ok ("-ERR Empty command\r\n".toList, s)
  | name :: _ =>
    let cmd := name.map toupper
    if cmd = "PING".toList then .ok (cmdPing args s)
    else if cmd = "ECHO".toList then .ok (cmdEcho args s)
    else if cmd = "FLUSHALL".toList then .ok (cmdFlushAll args s)
    else if cmd = "SET".toList then .ok (cmdSet args s)
    else if cmd = "GET".toList then .ok (cmdGet now args s)
    else if cmd = "KEYS".toList then .ok (cmdKeys now args s)
    else if cmd = "TYPE".toList then .ok (cmdType now args s)
    else if cmd = "DEL".toList ∨ cmd = "UNLINK".toList then .ok (cmdDel now args s)
    else if cmd = "EXPIRE".toList then .ok (cmdExpire now args s)
    else if cmd = "RENAME".toList then .ok (cmdRename now args s)
    else if cmd = "LGET".toList then .ok (cmdLget args s)
    else if cmd = "LLEN".toList then .ok (cmdLlen args s)
    else if cmd = "LPUSH".toList then .ok (cmdLpush args s)
    else if cmd = "RPUSH".toList then .ok (cmdRpush args s)
    else if cmd = "LPOP".toList then .ok (cmdLpop args s)
    else if cmd = "RPOP".toList then .ok (cmdRpop args s)
    else if cmd = "LREM".toList then .ok (cmdLrem args s)
    else if cmd = "LINDEX".toList then cmdLindex args s
    else if cmd = "LSET".toList then cmdLset args s
    else if cmd = "HSET".toList then .ok (cmdHset args s)
    else if cmd = "HGET".toList then .ok (cmdHget args s)
    else if cmd = "HEXISTS".toList then .ok (cmdHexists args s)
    else if cmd = "HDEL".toList then .ok (cmdHdel args s)
    else if cmd = "HGETALL".toList then .ok (cmdHgetall args s)
    else if cmd = "HKEYS".toList then .ok (cmdHkeys args s)
    else if cmd = "HVALS".toList then .ok (cmdHvals args s)
    else if cmd = "HLEN".toList then .ok (cmdHlen args s)
    else if cmd = "HMSET".toList then .ok (cmdHmset args s)
    else .ok ("-ERR Unknown command\r\n".toList, s)

/-- Model of `CommandProcessor::execute` at clock reading `now`: the reply and the next store, or
the exception that leaves it. -/
def execute (now : Int) (rawInput : Str) (s : KVStore) : Except Fault (Str × KVStore) :=
  match parseProtocol rawInput with
  | .error e => .error e
  | .ok args => dispatch now args s

/-- Whether the sweep at `currentTime` meets an entry of `todo` for `k` that has passed. -/
def expiredIn (currentTime : Int) (todo : UMap Int) (k : Str) : Bool :=
  todo.any (fun e => decide (e.1 = k) && decide (currentTime > e.2))

/-- The list `l` without the first `m` occurrences of `v` (head to tail), in the words of
the specification: the first occurrence is removed `m` times. -/
def withoutFirst (v : Str) (m : Nat) (l : List Str) : List Str :=
  (fun r => r.erase v)^[m] l

/-- The list `l` without the last `m` occurrences of `v` (tail to head), in the words of
the specification. -/
def withoutLast (v : Str) (m : Nat) (l : List Str) : List Str :=
  (withoutFirst v m l.reverse).reverse

/-- The request of the specification for the tokens `ts`: the header `*N\r\n`, then for
each token `$`, its decimal length, `\r\n`, its bytes and `\r\n`. -/
def encodeArray (ts : List Str) : Str :=
  '*' :: natToString ts.length ++ ['\r', '\n']
    ++ (ts.map (fun t => '$' :: natToString t.length ++ ['\r', '\n'] ++ t ++ ['\r', '\n'])).flatten

/-- A byte string the snapshot format is meant for: no white space and no `:`. -/
def plain (t : Str) : Prop := ∀ c ∈ t, isspace c = false ∧ c ≠ ':'

/-- A store whose maps have unique keys (as every `std::unordered_map` has), whose keys,
values, elements and fields are `plain`, and whose keys and list elements are not empty. -/
structure SnapshotSafe (s : KVStore) : Prop where
  stringKeys : (UMap.keys s.stringData_).Nodup
  listKeys : (UMap.keys s.listData_).Nodup
  hashKeys : (UMap.keys s.hashData_).Nodup
  fieldNames : ∀ e ∈ s.hashData_, (UMap.keys e.2).Nodup
  strings : ∀ e ∈ s.stringData_, e.1 ≠ [] ∧ plain e.1 ∧ plain e.2
  lists : ∀ e ∈ s.listData_, e.1 ≠ [] ∧ plain e.1 ∧ ∀ x ∈ e.2, x ≠ [] ∧ plain x
  hashes : ∀ e ∈ s.hashData_, e.1 ≠ [] ∧ plain e.1 ∧ ∀ fv ∈ e.2, plain fv.1 ∧ plain fv.2

/-- The store after `listPushBack(key, v)` for each `v` of `vs` in order. -/
def pushBackAll (key : Str) (vs : List Str) (s : KVStore) : KVStore :=
  vs.foldl (fun st v => listPushBack key v st) s

/-- The store after `listPushFront(key, v)` for each `v` of `vs` in order. -/
def pushFrontAll (key : Str) (vs : List Str) (s : KVStore) : KVStore :=
  vs.foldl (fun st v => listPushFront key v st) s

/-- The results of `n` successive `listPopBack(key)` calls, and the store they leave. -/
def popBackTimes (key : Str) : Nat → KVStore → List (Option Str) × KVStore
  | 0, s => ([], s)
  | n + 1, s =>
    let r := listPopBack key s
    let rest := popBackTimes key n r.2
    (r.1 :: rest.1, rest.2)

/-- The results of `n` successive `listPopFront(key)` calls, and the store they leave. -/
def popFrontTimes (key : Str) : Nat → KVStore → List (Option Str) × KVStore
  | 0, s => ([], s)
  | n + 1, s =>
    let r := listPopFront key s
    let rest := popFrontTimes key n r.2
    (r.1 :: rest.1, rest.2)

/-- The least number of tokens (command name included) of a request, for each command of
section 6 of the specification; `none` for a name that is not a command. -/
def minTokens (cmd : Str) : Option Nat :=
  if cmd ∈ ["PING".toList, "FLUSHALL".toList, "KEYS".toList] then some 1
  else if cmd ∈
    ["ECHO".toList, "GET".toList, "TYPE".toList, "DEL".toList, "UNLINK".toList, "LGET".toList,
      "LLEN".toList, "LPOP".toList, "RPOP".toList, "HGETALL".toList, "HKEYS".toList,
      "HVALS".toList, "HLEN".toList] then some 2
  else if cmd ∈
    ["SET".toList, "EXPIRE".toList, "RENAME".toList, "LPUSH".toList, "RPUSH".toList,
      "LINDEX".toList, "HGET".toList, "HEXISTS".toList, "HDEL".toList] then some 3
  else if cmd ∈
    ["LREM".toList, "LSET".toList, "HSET".toList, "HMSET".toList] then some 4
  else none

/-- The command name an arity error carries: that of the handler, which for the alias
`UNLINK` is `DEL`. -/
def errorName (cmd : Str) : Str := if cmd = "UNLINK".toList then "DEL".toList else cmd

/-- How one command can change the store: the engine call the handler of `args` makes at
clock reading `now`, or none. The constructors that add a key to a value map carry the
command name that leads to them. -/
inductive CommandEffect (now : Int) (args : List Str) (s : KVStore) : KVStore → Prop where
  | same : CommandEffect now args s s
  | sweep : CommandEffect now args s (cleanupExpired now s)
  | clear : CommandEffect now args s (clearAll s).2
  | set (name k v : Str) (rest : List Str) : args = name :: k :: v :: rest →
      name.map toupper = "SET".toList → CommandEffect now args s (setString k v s)
  | del (k : Str) : CommandEffect now args s (removeKey now k s).2
  | expire (k : Str) (ttl : Int) : CommandEffect now args s (setExpiry now k ttl s).2
  | rename (name o n : Str) (rest : List Str) : args = name :: o :: n :: rest →
      name.map toupper = "RENAME".toList → CommandEffect now args s (renameKey now o n s).2
  | lpush (name k : Str) (vs : List Str) : args = name :: k :: vs →
      name.map toupper = "LPUSH".toList → CommandEffect now args s (pushFrontAll k vs s)
  | rpush (name k : Str) (vs : List Str) : args = name :: k :: vs →
      name.map toupper = "RPUSH".toList → CommandEffect now args s (pushBackAll k vs s)
  | lpop (k : Str) : CommandEffect now args s (listPopFront k s).2
  | rpop (k : Str) : CommandEffect now args s (listPopBack k s).2
  | lrem (k : Str) (count : Int) (v : Str) : CommandEffect now args s (listRemove k count v s).2
  | lset (k : Str) (i : Int) (v : Str) (b : Bool) (s' : KVStore) :
      listSetAt k i v s = .ok (b, s') → CommandEffect now args s s'
  | hset (name k f v : Str) (rest : List Str) : args = name :: k :: f :: v :: rest →
      name.map toupper = "HSET".toList → CommandEffect now args s (hashSet k f v s).2
  | hdel (k f : Str) : CommandEffect now args s (hashDeleteField k f s).2
  | hmset (name k : Str) (rest : List Str) : args = name :: k :: rest →
      name.map toupper = "HMSET".toList →
      CommandEffect now args s (hashSetMultiple k (pairUp rest) s)

/-- No key is present in more than one of the three value maps. -/
def OneKind (s : KVStore) : Prop :=
  ∀ k, ¬ (UMap.contains s.stringData_ k = true ∧ UMap.contains s.listData_ k = true)
    ∧ ¬ (UMap.contains s.stringData_ k = true ∧ UMap.contains s.hashData_ k = true)
    ∧ ¬ (UMap.contains s.listData_ k = true ∧ UMap.contains s.hashData_ k = true)

/-- Whether `RENAME old new` would put `new` in a value map while it is in another one:
`old` is in one map and `new` in a different one. -/
def renameConflict (s : KVStore) (old new : Str) : Bool :=
  (UMap.contains s.stringData_ old
      && (UMap.contains s.listData_ new || UMap.contains s.hashData_ new))
  || (UMap.contains s.listData_ old
      && (UMap.contains s.stringData_ new || UMap.contains s.hashData_ new))
  || (UMap.contains s.hashData_ old
      && (UMap.contains s.stringData_ new || UMap.contains s.listData_ new))

/-- Whether the request `args` writes a value of one kind to a key that is in the map of
another kind: `SET` on a key in the list or hash map, `LPUSH`/`RPUSH` on a key in the
string or hash map, `HSET`/`HMSET` on a key in the string or list map, and `RENAME`
(after its sweep at `now`) from a key of one kind onto a key of another. -/
def writesOtherKind (now : Int) (args : List Str) (s : KVStore) : Bool :=
  match args with
  | name :: key :: rest =>
    (decide (name.map toupper = "SET".toList)
        && (UMap.contains s.listData_ key || UMap.contains s.hashData_ key))
    || (decide (name.map toupper = "LPUSH".toList ∨ name.map toupper = "RPUSH".toList)
        && (UMap.contains s.stringData_ key || UMap.contains s.hashData_ key))
    || (decide (name.map toupper = "HSET".toList ∨ name.map toupper = "HMSET".toList)
        && (UMap.contains s.stringData_ key || UMap.contains s.listData_ key))
    || (decide (name.map toupper = "RENAME".toList)
        && match rest with
          | newKey :: _ => renameConflict (cleanupExpired now s) key newKey
          | [] => false)
  | _ => false

/-- The store after a sequence of requests, each a clock reading and a token list. -/
def runCommands : List (Int × List Str) → KVStore → Except Fault KVStore
  | [], s => .ok s
  | (now, args) :: rest, s =>
    match dispatch now args s with
    | .ok (_, s') => runCommands rest s'
    | .error e => .error e

/-- Whether no request of the sequence, run from `s`, writes a value of one kind to a
key that is in the map of another kind. -/
def keepsKinds : List (Int × List Str) → KVStore → Bool
  | [], _ => true
  | (now, args) :: rest, s =>
    !writesOtherKind now args s
      && match dispatch now args s with
        | .ok (_, s') => keepsKinds rest s'
        | .error _ => true

/-- Every key that has an expiry entry is present in at least one value map. -/
def ExpiryRef (s : KVStore) : Prop :=
  ∀ k, UMap.contains s.expiryTimes_ k = true →
    UMap.contains s.stringData_ k = true ∨ UMap.contains s.listData_ k = true
      ∨ UMap.contains s.hashData_ k = true

/-- The tokens `f1 v1 ... fn vn` a request carries for the pairs `(f1, v1), ..., (fn, vn)`. -/
def fieldValueTokens : List (Str × Str) → List Str
  | [] => []
  | p :: pairs => p.1 :: p.2 :: fieldValueTokens pairs

/-- The last value paired with the field `f` in a sequence of pairs, if `f` is named at
all. -/
def lastValue (pairs : List (Str × Str)) (f : Str) : Option Str :=
  ((pairs.filter (fun p => decide (p.1 = f))).getLast?).map Prod.snd

/-- The requests `HSET k f1 v1`, ..., `HSET k fn vn`, each with the clock reading it is
executed at. -/
def hsetRequests (k : Str) (tp : List (Int × Str × Str)) : List (Int × List Str) :=
  tp.map (fun t => (t.1, ["HSET".toList, k, t.2.1, t.2.2]))

/-- Each value map holds a key at most once, as every `std::unordered_map` does. -/
def UniqueKeys (s : KVStore) : Prop :=
  (UMap.keys s.stringData_).Nodup ∧ (UMap.keys s.listData_).Nodup
    ∧ (UMap.keys s.hashData_).Nodup

/-- The plain-text tokens of the specification: the input split at every white-space
byte, the empty pieces dropped; what is left are the maximal runs of bytes that are not
white space, in order. -/
def splitWhitespace (input : Str) : List Str :=
  (input.splitOnP isspace).filter (fun t => !t.isEmpty)

/-- The record-type character of a snapshot line: its first byte that is not white
space. -/
def recordTypeOf (line : Str) : Option Char := (line.dropWhile isspace).head?

/-- The key token of a snapshot line: the first run of bytes that are not white space
after the record-type character. -/
def keyTokenOf (line : Str) : Option Str := (extract (line.dropWhile isspace).tail).1

/-- The bulk strings `parseProtocol` reads from position `pos` of `input`, each with the
header `$<L>\r\n` before it: `$` at the read position, the first `\r\n` after it at
`crlfPos`, and `L` the integer `std::stoi` reads between the two. For `0 ≤ L` the token is
the `L` bytes after the header, all of them inside the input; for `L < 0` it is all that
follows the header. The next header is looked for where the loop moves the read
position. -/
inductive BulkFrames (input : Str) : Nat → List Str → Prop where
  | done (pos : Nat) : BulkFrames input pos []
  | bulk (pos crlfPos : Nat) (L : Int) (rest : List Str) :
      input.get? pos = some '$' → findFrom input (pos + 1) = some crlfPos →
      stoi ((input.drop (pos + 1)).take (crlfPos - (pos + 1))) = .ok L →
      0 ≤ L → crlfPos + 2 + L.toNat ≤ input.length →
      ((input.drop (crlfPos + 2)).take L.toNat).length = L.toNat →
      BulkFrames input (wrap64 (((crlfPos + 2 : Nat) : Int) + wrap32 (L + 2))) rest →
      BulkFrames input pos ((input.drop (crlfPos + 2)).take L.toNat :: rest)
  | negative (pos crlfPos : Nat) (L : Int) (rest : List Str) :
      input.get? pos = some '$' → findFrom input (pos + 1) = some crlfPos →
      stoi ((input.drop (pos + 1)).take (crlfPos - (pos + 1))) = .ok L →
      L < 0 →
      BulkFrames input (wrap64 (((crlfPos + 2 : Nat) : Int) + wrap32 (L + 2))) rest →
      BulkFrames input pos (input.drop (crlfPos + 2) :: rest)

/-! ## The maps -/

namespace UMap

theorem find_assign_self {V : Type} (m : UMap V) (k : Str) (v : V) :
    find (assign m k v) k = some v := by
  induction m with
  | nil => simp [assign, find]
  | cons e m ih =>
    obtain ⟨k', v'⟩ := e
    by_cases h : k' = k
    · simp [assign, find, h]
    · simp [assign, find, h, ih]

theorem find_assign_ne {V : Type} (m : UMap V) (k k' : Str) (v : V) (h : k ≠ k') :
    find (assign m k v) k' = find m k' := by
  induction m with
  | nil => simp [assign, find, h]
  | cons e m ih =>
    obtain ⟨k0, v0⟩ := e
    by_cases h0 : k0 = k
    · subst h0
      simp [assign, find, h]
    · simp only [assign, h0, if_false, find, ih]

theorem find_erase_self {V : Type} (m : UMap V) (k : Str) : find (erase m k) k = none := by
  induction m with
  | nil => simp [erase, find]
  | cons e m ih =>
    obtain ⟨k0, v0⟩ := e
    by_cases h0 : k0 = k
    · simp [erase, h0, ih]
    · simp [erase, find, h0, ih]

theorem find_erase_ne {V : Type} (m : UMap V) (k k' : Str) (h : k ≠ k') :
    find (erase m k) k' = find m k' := by
  induction m with
  | nil => simp [erase, find]
  | cons e m ih =>
    obtain ⟨k0, v0⟩ := e
    by_cases h0 : k0 = k
    · subst h0
      simp [erase, find, h, ih]
    · simp only [erase, h0, if_false, find, ih]

theorem find_erase {V : Type} (m : UMap V) (k k' : Str) :
    find (erase m k) k' = if k = k' then none else find m k' := by
  by_cases h : k = k'
  · subst h
    simp [find_erase_self]
  · simp [h, find_erase_ne m k k' h]

end UMap

/-! ## The expiry sweep -/

theorem cleanupLoop_find (now : Int) (k : Str) (todo : UMap Int) (s : KVStore) :
    UMap.find (cleanupLoop now todo s).stringData_ k
        = (if expiredIn now todo k then none else UMap.find s.stringData_ k)
    ∧ UMap.find (cleanupLoop now todo s).listData_ k
        = (if expiredIn now todo k then none else UMap.find s.listData_ k)
    ∧ UMap.find (cleanupLoop now todo s).hashData_ k
        = (if expiredIn now todo k then none else UMap.find s.hashData_ k)
    ∧ UMap.find (cleanupLoop now todo s).expiryTimes_ k
        = (if expiredIn now todo k then none else UMap.find s.expiryTimes_ k) := by
  induction todo generalizing s with
  | nil => simp [cleanupLoop, expiredIn]
  | cons e todo ih =>
    obtain ⟨k0, t0⟩ := e
    by_cases ht : now > t0
    · have h := ih
        { stringData_ := UMap.erase s.stringData_ k0
          listData_ := UMap.erase s.listData_ k0
          hashData_ := UMap.erase s.hashData_ k0
          expiryTimes_ := UMap.erase s.expiryTimes_ k0 }
      simp only [cleanupLoop, ht, if_true]
      simp only [UMap.find_erase] at h
      obtain ⟨h1, h2, h3, h4⟩ := h
      rw [h1, h2, h3, h4]
      by_cases hk : k0 = k
      · simp [expiredIn, hk, ht]
      · have he : expiredIn now ((k0, t0) :: todo) k = expiredIn now todo k := by
          simp [expiredIn, hk]
        simp [he, hk]
    · have he : expiredIn now ((k0, t0) :: todo) k = expiredIn now todo k := by
        simp [expiredIn, ht]
      simp only [cleanupLoop, ht, if_false, he]
      exact ih s

theorem cleanupExpired_find (now : Int) (k : Str) (s : KVStore) :
    UMap.find (cleanupExpired now s).stringData_ k
        = (if expiredIn now s.expiryTimes_ k then none else UMap.find s.stringData_ k)
    ∧ UMap.find (cleanupExpired now s).listData_ k
        = (if expiredIn now s.expiryTimes_ k then none else UMap.find s.listData_ k)
    ∧ UMap.find (cleanupExpired now s).hashData_ k
        = (if expiredIn now s.expiryTimes_ k then none else UMap.find s.hashData_ k)
    ∧ UMap.find (cleanupExpired now s).expiryTimes_ k
        = (if expiredIn now s.expiryTimes_ k then none else UMap.find s.expiryTimes_ k) :=
  cleanupLoop_find now k s.expiryTimes_ s

theorem expiredIn_eq_false (now : Int) (todo : UMap Int) (k : Str)
    (h : ∀ t, (k, t) ∈ todo → now ≤ t) : expiredIn now todo k = false := by
  simp only [expiredIn, List.any_eq_false]
  rintro ⟨k0, t0⟩ hmem
  by_cases hk : k0 = k
  · subst hk
    have := h t0 hmem
    simp
    omega
  · simp [hk]

/-! ## Dispatch of single commands -/

theorem dispatch_set (now : Int) (k v : Str) (s : KVStore) :
    dispatch now ["SET".toList, k, v] s = .ok (okReply, setString k v s) := rfl

theorem dispatch_get (now : Int) (k : Str) (s : KVStore) :
    dispatch now ["GET".toList, k] s = .ok (cmdGet now ["GET".toList, k] s) := rfl

/-! ## C1: SET then GET -/

theorem end_to_end_set_get :
    execute 0 "*3\r\n$3\r\nSET\r\n$3\r\nfoo\r\n$3\r\nbar\r\n".toList KVStore.empty
      = .ok ("+OK\r\n".toList, ⟨[("foo".toList, "bar".toList)], [], [], []⟩)
    ∧ execute 7 "*2\r\n$3\r\nGET\r\n$3\r\nfoo\r\n".toList
        ⟨[("foo".toList, "bar".toList)], [], [], []⟩
      = .ok ("$3\r\nbar\r\n".toList, ⟨[("foo".toList, "bar".toList)], [], [], []⟩) :=
  ⟨rfl, rfl⟩

/-- C1 (amended): when `k` has no expiry entry earlier than the clock reading `t2` of the
`GET`, `SET k v` (at any clock reading `t1`) replies `+OK\r\n` and the `GET k` that
follows it replies the bulk encoding of `v`. -/
theorem C1_set_then_get (s : KVStore) (k v : Str) (t1 t2 : Int)
    (h : ∀ t, (k, t) ∈ s.expiryTimes_ → t2 ≤ t) :
    dispatch t1 ["SET".toList, k, v] s = .ok ("+OK\r\n".toList, setString k v s)
    ∧ dispatch t2 ["GET".toList, k] (setString k v s)
        = .ok ('$' :: natToString v.length ++ "\r\n".toList ++ v ++ "\r\n".toList,
            cleanupExpired t2 (setString k v s)) := by
  refine ⟨rfl, ?_⟩
  rw [dispatch_get]
  have hx : expiredIn t2 (setString k v s).expiryTimes_ k = false :=
    expiredIn_eq_false t2 _ k h
  have hf := (cleanupExpired_find t2 k (setString k v s)).1
  rw [hx] at hf
  simp only [setString, UMap.find_assign_self] at hf
  simp only [cmdGet, getString, setString, hf]
  rfl

/-- C1, witness: `foo` expires at 25, `SET foo bar` at 10 and `GET foo` at 20. -/
theorem C1_set_then_get_witness :
    (∀ t, ("foo".toList, t) ∈ (⟨[], [], [], [("foo".toList, 25)]⟩ : KVStore).expiryTimes_
        → (20 : Int) ≤ t)
    ∧ dispatch 20 ["GET".toList, "foo".toList]
        (setString "foo".toList "bar".toList ⟨[], [], [], [("foo".toList, 25)]⟩)
        = .ok ("$3\r\nbar\r\n".toList,
            ⟨[("foo".toList, "bar".toList)], [], [], [("foo".toList, 25)]⟩) :=
  ⟨by simp,
    (C1_set_then_get ⟨[], [], [], [("foo".toList, 25)]⟩ "foo".toList "bar".toList 10 20
      (by simp)).2⟩

/-- C1, counterexample: `foo` carries an expiry at 15; `SET foo bar` at 10 replies
`+OK\r\n` and keeps the expiry entry, and `GET foo` at 20 replies nil, not `$3\r\nbar\r\n`. -/
theorem C1_counterexample :
    dispatch 10 ["SET".toList, "foo".toList, "bar".toList]
        ⟨[("foo".toList, "old".toList)], [], [], [("foo".toList, 15)]⟩
      = .ok ("+OK\r\n".toList, ⟨[("foo".toList, "bar".toList)], [], [], [("foo".toList, 15)]⟩)
    ∧ dispatch 20 ["GET".toList, "foo".toList]
        ⟨[("foo".toList, "bar".toList)], [], [], [("foo".toList, 15)]⟩
      = .ok ("$-1\r\n".toList, ⟨[], [], [], []⟩) := ⟨rfl, rfl⟩

/-! ## C3: decoding a malformed frame -/

theorem execute_of_no_tokens (now : Int) (raw : Str) (s : KVStore)
    (h : parseProtocol raw = .ok []) :
    execute now raw s = .ok ("-ERR Empty command\r\n".toList, s) := by
  simp [execute, h, dispatch]

/-- C3, failing input: on `*abc\r\n` (an element count that is not an integer) and on
`*1\r\n$x\r\nfoo\r\n` (a bulk length that is not an integer) `std::stoi` throws
`invalid_argument`, on `*1\r\n$99999999999\r\nfoo\r\n` it throws `out_of_range`; the
exception leaves `parseProtocol` and `execute`, no token list is returned and no
`-ERR Empty command\r\n` reply is produced. -/
theorem C3_parse_raises :
    parseProtocol "*abc\r\n".toList = .error .invalid_argument
    ∧ execute 0 "*abc\r\n".toList KVStore.empty = .error .invalid_argument
    ∧ parseProtocol "*1\r\n$x\r\nfoo\r\n".toList = .error .invalid_argument
    ∧ parseProtocol "*1\r\n$99999999999\r\nfoo\r\n".toList = .error .out_of_range
    ∧ execute 0 "*1\r\n$x\r\nfoo\r\n".toList KVStore.empty = .error .invalid_argument :=
  ⟨rfl, rfl, rfl, rfl, rfl⟩

/-! ## C4: reads of an expired key -/

/-- C4, failing input: the list `k` and the hash `h` both expired at 5. At clock reading
10 the list and hash reads do not sweep: `LLEN k` replies 1, `LGET k` the element,
`LINDEX k 0` the element, `HGET h f` the value, `HEXISTS h f` 1, `HLEN h` 1 and
`HGETALL h` the pair, and the store is left as it was; `TYPE k` does sweep and replies
`none`. -/
theorem C4_expired_list_and_hash_reads :
    dispatch 10 ["LLEN".toList, "k".toList]
        ⟨[], [("k".toList, ["a".toList])], [("h".toList, [("f".toList, "v".toList)])],
          [("k".toList, 5), ("h".toList, 5)]⟩
      = .ok (":1\r\n".toList,
        ⟨[], [("k".toList, ["a".toList])], [("h".toList, [("f".toList, "v".toList)])],
          [("k".toList, 5), ("h".toList, 5)]⟩)
    ∧ (dispatch 10 ["LGET".toList, "k".toList]
        ⟨[], [("k".toList, ["a".toList])], [("h".toList, [("f".toList, "v".toList)])],
          [("k".toList, 5), ("h".toList, 5)]⟩).map Prod.fst
      = .ok "*1\r\n$1\r\na\r\n".toList
    ∧ (dispatch 10 ["LINDEX".toList, "k".toList, "0".toList]
        ⟨[], [("k".toList, ["a".toList])], [("h".toList, [("f".toList, "v".toList)])],
          [("k".toList, 5), ("h".toList, 5)]⟩).map Prod.fst
      = .ok "$1\r\na\r\n".toList
    ∧ (dispatch 10 ["HGET".toList, "h".toList, "f".toList]
        ⟨[], [("k".toList, ["a".toList])], [("h".toList, [("f".toList, "v".toList)])],
          [("k".toList, 5), ("h".toList, 5)]⟩).map Prod.fst
      = .ok "$1\r\nv\r\n".toList
    ∧ (dispatch 10 ["HEXISTS".toList, "h".toList, "f".toList]
        ⟨[], [("k".toList, ["a".toList])], [("h".toList, [("f".toList, "v".toList)])],
          [("k".toList, 5), ("h".toList, 5)]⟩).map Prod.fst
      = .ok ":1\r\n".toList
    ∧ (dispatch 10 ["HLEN".toList, "h".toList]
        ⟨[], [("k".toList, ["a".toList])], [("h".toList, [("f".toList, "v".toList)])],
          [("k".toList, 5), ("h".toList, 5)]⟩).map Prod.fst
      = .ok ":1\r\n".toList
    ∧ (dispatch 10 ["HGETALL".toList, "h".toList]
        ⟨[], [("k".toList, ["a".toList])], [("h".toList, [("f".toList, "v".toList)])],
          [("k".toList, 5), ("h".toList, 5)]⟩).map Prod.fst
      = .ok "*2\r\n$1\r\nf\r\n$1\r\nv\r\n".toList
    ∧ dispatch 10 ["TYPE".toList, "k".toList]
        ⟨[], [("k".toList, ["a".toList])], [("h".toList, [("f".toList, "v".toList)])],
          [("k".toList, 5), ("h".toList, 5)]⟩
      = .ok ("+none\r\n".toList, ⟨[], [], [], []⟩) :=
  ⟨rfl, rfl, rfl, rfl, rfl, rfl, rfl, rfl⟩

/-! ## C5, C6: rename -/

theorem contains_eq_false_iff {V : Type} (m : UMap V) (k : Str) :
    UMap.contains m k = false ↔ UMap.find m k = none := by
  unfold UMap.contains
  cases UMap.find m k <;> simp

theorem renameIn_of_absent {V : Type} (m : UMap V) (old new : Str)
    (h : UMap.find m old = none) : renameIn m old new = m := by
  simp [renameIn, h]

theorem renameIn_find_new {V : Type} (m : UMap V) (old new : Str) (v : V)
    (hne : old ≠ new) (h : UMap.find m old = some v) :
    UMap.find (renameIn m old new) new = some v := by
  simp only [renameIn, h]
  rw [UMap.find_erase_ne _ _ _ hne, UMap.find_assign_self]

theorem renameIn_find_old {V : Type} (m : UMap V) (old new : Str) (v : V)
    (h : UMap.find m old = some v) : UMap.find (renameIn m old new) old = none := by
  simp only [renameIn, h]
  exact UMap.find_erase_self _ _

/-- What `renameKey` does for distinct keys `old` and `new`: it returns true exactly
when `old` is in at least one value map after the expiry sweep; whatever `old` held in a
map, `new` holds in the same map afterwards; and when it returns false the three value
maps are those left by the sweep, and so is the expiry map when `old` has no expiry
entry. -/
theorem rename_distinct (now : Int) (old new : Str) (s : KVStore) (hne : old ≠ new) :
    ((renameKey now old new s).1 = true ↔
      (UMap.find (cleanupExpired now s).stringData_ old ≠ none
        ∨ UMap.find (cleanupExpired now s).listData_ old ≠ none
        ∨ UMap.find (cleanupExpired now s).hashData_ old ≠ none))
    ∧ (∀ v, UMap.find (cleanupExpired now s).stringData_ old = some v →
        UMap.find (renameKey now old new s).2.stringData_ new = some v)
    ∧ (∀ l, UMap.find (cleanupExpired now s).listData_ old = some l →
        UMap.find (renameKey now old new s).2.listData_ new = some l)
    ∧ (∀ h, UMap.find (cleanupExpired now s).hashData_ old = some h →
        UMap.find (renameKey now old new s).2.hashData_ new = some h)
    ∧ ((renameKey now old new s).1 = false →
        (renameKey now old new s).2.stringData_ = (cleanupExpired now s).stringData_
        ∧ (renameKey now old new s).2.listData_ = (cleanupExpired now s).listData_
        ∧ (renameKey now old new s).2.hashData_ = (cleanupExpired now s).hashData_
        ∧ (UMap.find (cleanupExpired now s).expiryTimes_ old = none →
            (renameKey now old new s).2.expiryTimes_ = (cleanupExpired now s).expiryTimes_)) := by
  refine ⟨?_, ?_, ?_, ?_, ?_⟩
  · simp only [renameKey, UMap.contains, Bool.or_eq_true, Option.isSome_iff_ne_none, or_assoc]
  · intro v hv
    exact renameIn_find_new _ old new v hne hv
  · intro l hl
    exact renameIn_find_new _ old new l hne hl
  · intro h hh
    exact renameIn_find_new _ old new h hne hh
  · intro hf
    simp only [renameKey, Bool.or_eq_false_iff, contains_eq_false_iff] at hf
    obtain ⟨⟨h1, h2⟩, h3⟩ := hf
    refine ⟨renameIn_of_absent _ old new h1, renameIn_of_absent _ old new h2,
      renameIn_of_absent _ old new h3, fun h4 => renameIn_of_absent _ old new h4⟩

/-- Renaming the string `a` to `b`. -/
theorem rename_distinct_example :
    "a".toList ≠ "b".toList
    ∧ (∀ v, UMap.find (cleanupExpired 0 ⟨[("a".toList, "1".toList)], [], [], []⟩).stringData_
          "a".toList = some v →
        UMap.find (renameKey 0 "a".toList "b".toList
          ⟨[("a".toList, "1".toList)], [], [], []⟩).2.stringData_ "b".toList = some v) :=
  ⟨by decide,
    (rename_distinct 0 "a".toList "b".toList ⟨[("a".toList, "1".toList)], [], [], []⟩
      (by decide)).2.1⟩

/-- C5, failing input: `SET a 1` and then `RENAME a a`. The key `a` holds a value, and
`renameKey(a, a)` returns true, so `RENAME` replies `+OK\r\n`; the block
`stringData_[newKey] = strIt->second; stringData_.erase(strIt)` assigns the entry to itself
and then erases it, so afterwards `a` holds no value and `GET a` replies `$-1\r\n`. The
same happens to a list and to a hash. Furthermore the expiry block does not depend on
`found`: for `a` absent from the three value maps and carrying an expiry entry,
`renameKey(a, b)` returns false and moves the entry to `b`. -/
theorem C5_rename_self :
    renameKey 0 "a".toList "a".toList ⟨[("a".toList, "1".toList)], [], [], []⟩
      = (true, ⟨[], [], [], []⟩)
    ∧ runCommands
        [(0, ["SET".toList, "a".toList, "1".toList]),
          (1, ["RENAME".toList, "a".toList, "a".toList])] KVStore.empty
      = .ok ⟨[], [], [], []⟩
    ∧ dispatch 1 ["RENAME".toList, "a".toList, "a".toList]
        ⟨[("a".toList, "1".toList)], [], [], []⟩
      = .ok ("+OK\r\n".toList, ⟨[], [], [], []⟩)
    ∧ dispatch 2 ["GET".toList, "a".toList] ⟨[], [], [], []⟩
      = .ok ("$-1\r\n".toList, ⟨[], [], [], []⟩)
    ∧ renameKey 0 "l".toList "l".toList ⟨[], [("l".toList, ["x".toList])], [], []⟩
      = (true, ⟨[], [], [], []⟩)
    ∧ renameKey 0 "h".toList "h".toList
        ⟨[], [], [("h".toList, [("f".toList, "v".toList)])], []⟩
      = (true, ⟨[], [], [], []⟩)
    ∧ renameKey 0 "a".toList "b".toList ⟨[], [], [], [("a".toList, 100)]⟩
      = (false, ⟨[], [], [], [("b".toList, 100)]⟩) :=
  ⟨rfl, rfl, rfl, rfl, rfl, rfl, rfl⟩

/-- C6 (amended): `renameKey` leaves unchanged every value map in which `old` is absent
after the sweep, so a value `new` held in a kind other than that of `old` stays: when
`old` is a string and not a list and `new` is the list `l`, afterwards `new` is in the
string map and still in the list map, `LLEN new` replies the length of `l` and
`LGET new` replies the array of `l`. -/
theorem C6_rename_keeps_other_kind (now t : Int) (old new : Str) (s : KVStore) :
    (UMap.find (cleanupExpired now s).stringData_ old = none →
      (renameKey now old new s).2.stringData_ = (cleanupExpired now s).stringData_)
    ∧ (UMap.find (cleanupExpired now s).listData_ old = none →
      (renameKey now old new s).2.listData_ = (cleanupExpired now s).listData_)
    ∧ (UMap.find (cleanupExpired now s).hashData_ old = none →
      (renameKey now old new s).2.hashData_ = (cleanupExpired now s).hashData_)
    ∧ (∀ v l, old ≠ new →
        UMap.find (cleanupExpired now s).stringData_ old = some v →
        UMap.find (cleanupExpired now s).listData_ old = none →
        UMap.find (cleanupExpired now s).listData_ new = some l →
        UMap.find (renameKey now old new s).2.stringData_ new = some v
        ∧ UMap.find (renameKey now old new s).2.listData_ new = some l
        ∧ dispatch t ["LLEN".toList, new] (renameKey now old new s).2
            = .ok (':' :: natToString l.length ++ "\r\n".toList, (renameKey now old new s).2)
        ∧ dispatch t ["LGET".toList, new] (renameKey now old new s).2
            = .ok (arrayReply l, (renameKey now old new s).2)) := by
  refine ⟨fun h => renameIn_of_absent _ old new h, fun h => renameIn_of_absent _ old new h,
    fun h => renameIn_of_absent _ old new h, ?_⟩
  intro v l hne hv hl hnew
  have h1 : UMap.find (renameKey now old new s).2.stringData_ new = some v :=
    renameIn_find_new _ old new v hne hv
  have h2 : UMap.find (renameKey now old new s).2.listData_ new = some l := by
    have : (renameKey now old new s).2.listData_ = (cleanupExpired now s).listData_ :=
      renameIn_of_absent _ old new hl
    rw [this, hnew]
  refine ⟨h1, h2, ?_, ?_⟩
  · show Except.ok (cmdLlen ["LLEN".toList, new] (renameKey now old new s).2) = _
    simp [cmdLlen, listSize, h2, intReply, to_string, crlf]
  · show Except.ok (cmdLget ["LGET".toList, new] (renameKey now old new s).2) = _
    simp [cmdLget, getList, h2]

/-- C6, witness: the string `a` renamed to `b`, which is the list `[x]`. -/
theorem C6_rename_keeps_other_kind_witness :
    UMap.find (cleanupExpired 0
        ⟨[("a".toList, "1".toList)], [("b".toList, ["x".toList])], [], []⟩).listData_
        "a".toList = none
    ∧ (renameKey 0 "a".toList "b".toList
        ⟨[("a".toList, "1".toList)], [("b".toList, ["x".toList])], [], []⟩).2.listData_
      = (cleanupExpired 0
        ⟨[("a".toList, "1".toList)], [("b".toList, ["x".toList])], [], []⟩).listData_ :=
  ⟨rfl,
    (C6_rename_keeps_other_kind 0 0 "a".toList "b".toList
      ⟨[("a".toList, "1".toList)], [("b".toList, ["x".toList])], [], []⟩).2.1 rfl⟩

/-- C6, counterexample: `a` is a string and `b` a list of one element; after
`renameKey(a, b)` the key `b` is in the string map and in the list map, and `LLEN b`
replies 1 and `LGET b` the element. -/
theorem C6_counterexample :
    renameKey 0 "a".toList "b".toList
        ⟨[("a".toList, "1".toList)], [("b".toList, ["x".toList])], [], []⟩
      = (true, ⟨[("b".toList, "1".toList)], [("b".toList, ["x".toList])], [], []⟩)
    ∧ dispatch 0 ["LLEN".toList, "b".toList]
        ⟨[("b".toList, "1".toList)], [("b".toList, ["x".toList])], [], []⟩
      = .ok (":1\r\n".toList,
          ⟨[("b".toList, "1".toList)], [("b".toList, ["x".toList])], [], []⟩)
    ∧ dispatch 0 ["LGET".toList, "b".toList]
        ⟨[("b".toList, "1".toList)], [("b".toList, ["x".toList])], [], []⟩
      = .ok ("*1\r\n$1\r\nx\r\n".toList,
          ⟨[("b".toList, "1".toList)], [("b".toList, ["x".toList])], [], []⟩) :=
  ⟨rfl, rfl, rfl⟩

/-! ## C8, C9, C10: LREM -/

theorem withoutFirst_nil (v : Str) (m : Nat) : withoutFirst v m [] = [] := by
  induction m with
  | zero => rfl
  | succ m ih =>
    simp only [withoutFirst, Function.iterate_succ, Function.comp, List.erase_nil] at ih ⊢
    exact ih

theorem withoutFirst_cons_self (v : Str) (m : Nat) (l : List Str) :
    withoutFirst v (m + 1) (v :: l) = withoutFirst v m l := by
  simp [withoutFirst, Function.iterate_succ]

theorem withoutFirst_cons_ne (v x : Str) (m : Nat) (l : List Str) (h : x ≠ v) :
    withoutFirst v m (x :: l) = x :: withoutFirst v m l := by
  induction m generalizing l with
  | zero => rfl
  | succ m ih =>
    have hb : (x == v) = false := by simpa using h
    simp only [withoutFirst, Function.iterate_succ, Function.comp, List.erase_cons, hb] at ih ⊢
    simpa using ih (l.erase v)

theorem removeForward_eq (val : Str) (count : Int) (ahead done : List Str) (r : Int)
    (hr : r ≤ count) :
    removeForward val count done ahead r
      = (done ++ withoutFirst val (count - r).toNat ahead,
          r + min (count - r) (ahead.count val)) := by
  induction ahead generalizing done r with
  | nil =>
    have : min (count - r) 0 = 0 := by omega
    simp [removeForward, withoutFirst_nil, this]
  | cons x ahead ih =>
    by_cases hlt : r < count
    · by_cases hx : x = val
      · subst hx
        have hb : (count - r).toNat = (count - (r + 1)).toNat + 1 := by omega
        rw [removeForward, if_pos hlt, if_pos rfl, ih done (r + 1) (by omega), hb,
          withoutFirst_cons_self]
        simp only [List.count_cons_self, Prod.mk.injEq, true_and]
        push_cast
        omega
      · rw [removeForward, if_pos hlt, if_neg hx, ih (done ++ [x]) r hr,
          withoutFirst_cons_ne val x _ _ hx]
        have hc : List.count val (x :: ahead) = List.count val ahead := by
          rw [List.count_cons_of_ne]
          exact fun h => hx h.symm
        simp [hc]
    · have h0 : (count - r).toNat = 0 := by omega
      have hm : min (count - r) ((List.count val (x :: ahead) : Nat) : Int) = 0 := by omega
      rw [removeForward, if_neg hlt, h0, hm]
      simp [withoutFirst]

theorem removeBackward_eq (val : Str) (limit : Int) (aheadRev done : List Str) (r : Int)
    (hr : r ≤ limit) :
    removeBackward val limit aheadRev done r
      = ((withoutFirst val (limit - r).toNat aheadRev).reverse ++ done,
          r + min (limit - r) (aheadRev.count val)) := by
  induction aheadRev generalizing done r with
  | nil =>
    have : min (limit - r) 0 = 0 := by omega
    simp [removeBackward, withoutFirst_nil, this]
  | cons x aheadRev ih =>
    by_cases hlt : r < limit
    · by_cases hx : x = val
      · subst hx
        have hb : (limit - r).toNat = (limit - (r + 1)).toNat + 1 := by omega
        rw [removeBackward, if_pos hlt, if_pos rfl, ih done (r + 1) (by omega), hb,
          withoutFirst_cons_self]
        simp only [List.count_cons_self, Prod.mk.injEq, true_and]
        push_cast
        omega
      · rw [removeBackward, if_pos hlt, if_neg hx, ih (x :: done) r hr,
          withoutFirst_cons_ne val x _ _ hx]
        have hc : List.count val (x :: aheadRev) = List.count val aheadRev := by
          rw [List.count_cons_of_ne]
          exact fun h => hx h.symm
        simp [hc]
    · have h0 : (limit - r).toNat = 0 := by omega
      have hm : min (limit - r) ((List.count val (x :: aheadRev) : Nat) : Int) = 0 := by
        omega
      rw [removeBackward, if_neg hlt, h0, hm]
      simp [withoutFirst]

theorem withoutFirst_of_count_le (v : Str) (l : List Str) (m : Nat) (h : l.count v ≤ m) :
    withoutFirst v m l = withoutFirst v (l.count v) l := by
  induction l generalizing m with
  | nil => simp [withoutFirst_nil]
  | cons x l ih =>
    by_cases hx : x = v
    · subst hx
      rw [List.count_cons_self] at h ⊢
      obtain ⟨m', rfl⟩ : ∃ m', m = m' + 1 := ⟨m - 1, by omega⟩
      rw [withoutFirst_cons_self, withoutFirst_cons_self]
      exact ih m' (by omega)
    · have hc : List.count v (x :: l) = List.count v l := by
        rw [List.count_cons_of_ne]
        exact fun h => hx h.symm
      rw [hc] at h ⊢
      rw [withoutFirst_cons_ne v x _ _ hx, withoutFirst_cons_ne v x _ _ hx, ih m h]

theorem withoutFirst_min (v : Str) (l : List Str) (m : Nat) :
    withoutFirst v m l = withoutFirst v (min m (l.count v)) l := by
  by_cases h : l.count v ≤ m
  · rw [Nat.min_eq_right h]
    exact withoutFirst_of_count_le v l m h
  · rw [Nat.min_eq_left (by omega)]

theorem wrap32_of_lt (n : Int) (h0 : -2147483648 ≤ n) (h1 : n < 2147483648) : wrap32 n = n := by
  unfold wrap32
  omega

theorem length_sub_filter_ne (v : Str) (l : List Str) :
    ((l.length : Int) - (l.filter (fun x => x ≠ v)).length) = l.count v := by
  induction l with
  | nil => simp
  | cons x l ih =>
    by_cases hx : x = v
    · subst hx
      simp only [List.length_cons, List.count_cons_self, ne_eq, not_true_eq_false,
        decide_False, Bool.false_eq_true, not_false_eq_true, List.filter_cons_of_neg]
      push_cast
      simp only [ne_eq] at ih
      omega
    · have hc : List.count v (x :: l) = List.count v l := by
        rw [List.count_cons_of_ne]
        exact fun h => hx h.symm
      have hf : List.filter (fun x => decide (x ≠ v)) (x :: l)
          = x :: List.filter (fun x => decide (x ≠ v)) l := by
        simp [List.filter_cons, hx]
      rw [hc, hf]
      simp only [List.length_cons]
      push_cast
      omega

theorem listRemove_absent (s : KVStore) (k v : Str) (c : Int)
    (h : UMap.find s.listData_ k = none) : listRemove k c v s = (0, s) := by
  simp [listRemove, h]

/-- C8 (amended): when the list `l` at `k` holds fewer than `2^31` elements equal to `v`,
`listRemove(k, 0, v)` returns the number of elements of `l` equal to `v` and leaves at
`k` the elements of `l` different from `v`, in their original order; on a key without
a list it returns 0 and leaves the store as it is. -/
theorem C8_listRemove_all (s : KVStore) (k v : Str) :
    (∀ l, UMap.find s.listData_ k = some l → l.count v < 2147483648 →
      listRemove k 0 v s
        = ((l.count v : Int),
            { s with listData_ := UMap.assign s.listData_ k (l.filter (fun x => x ≠ v)) })
      ∧ UMap.find (listRemove k 0 v s).2.listData_ k = some (l.filter (fun x => x ≠ v)))
    ∧ (UMap.find s.listData_ k = none → listRemove k 0 v s = (0, s)) := by
  refine ⟨?_, listRemove_absent s k v 0⟩
  intro l hl hc
  have h1 : listRemove k 0 v s
      = ((l.count v : Int),
          { s with listData_ := UMap.assign s.listData_ k (l.filter (fun x => x ≠ v)) }) := by
    simp only [listRemove, hl, removeItems, if_true, length_sub_filter_ne]
    rw [wrap32_of_lt _ (by omega) (by omega)]
  refine ⟨h1, ?_⟩
  rw [h1]
  exact UMap.find_assign_self _ _ _

/-- C8, witness: removing every `a` from `[a, b, a]`. -/
theorem C8_listRemove_all_witness :
    UMap.find (⟨[], [("k".toList, ["a".toList, "b".toList, "a".toList])], [], []⟩
        : KVStore).listData_ "k".toList = some ["a".toList, "b".toList, "a".toList]
    ∧ List.count "a".toList ["a".toList, "b".toList, "a".toList] < 2147483648
    ∧ listRemove "k".toList 0 "a".toList
        ⟨[], [("k".toList, ["a".toList, "b".toList, "a".toList])], [], []⟩
      = (2, ⟨[], [("k".toList, ["b".toList])], [], []⟩) :=
  ⟨rfl, by decide,
    ((C8_listRemove_all ⟨[], [("k".toList, ["a".toList, "b".toList, "a".toList])], [], []⟩
      "k".toList "a".toList).1 ["a".toList, "b".toList, "a".toList] rfl (by decide)).1⟩

/-- C8, counterexample: on a list of `2^31` copies of `a`, `listRemove(k, 0, a)` empties
the list and returns `-2^31` (the `int` the distance `2^31` narrows to), not the `2^31`
elements removed. -/
theorem C8_counterexample :
    List.count "a".toList (List.replicate 2147483648 "a".toList) = 2147483648
    ∧ listRemove "k".toList 0 "a".toList
        ⟨[], [("k".toList, List.replicate 2147483648 "a".toList)], [], []⟩
      = (-2147483648, ⟨[], [("k".toList, [])], [], []⟩) := by
  refine ⟨List.count_replicate_self _ _, ?_⟩
  have hf : List.filter (fun x => decide (x ≠ "a".toList))
      (List.replicate 2147483648 "a".toList) = [] := by
    rw [List.filter_eq_nil_iff]
    intro x hx
    simp [List.eq_of_mem_replicate hx]
  simp only [listRemove, UMap.find, if_true, removeItems, hf, UMap.assign,
    List.length_replicate, List.length_nil]
  rfl

/-- C9: for the list `l` at `k` and a count `c > 0`, `listRemove(k, c, v)` returns
`m = min(c, number of occurrences of v in l)` and leaves at `k` the list `l` without its
first `m` occurrences of `v`. -/
theorem C9_listRemove_first (s : KVStore) (k v : Str) (l : List Str) (c : Int)
    (hl : UMap.find s.listData_ k = some l) (hc : 0 < c) :
    listRemove k c v s
      = (min c (l.count v),
          { s with listData_ :=
              UMap.assign s.listData_ k (withoutFirst v (min c (l.count v)).toNat l) })
    ∧ UMap.find (listRemove k c v s).2.listData_ k
      = some (withoutFirst v (min c (l.count v)).toNat l) := by
  have hm : (min c ((l.count v : Nat) : Int)).toNat = min c.toNat (l.count v) := by omega
  have h1 : listRemove k c v s
      = (min c (l.count v),
          { s with listData_ :=
              UMap.assign s.listData_ k (withoutFirst v (min c (l.count v)).toNat l) }) := by
    have hne : ¬ c = 0 := by omega
    simp only [listRemove, hl, removeItems, hne, if_false, gt_iff_lt, hc, if_true]
    rw [removeForward_eq v c l [] 0 (by omega), hm, ← withoutFirst_min]
    simp
  refine ⟨h1, ?_⟩
  rw [h1]
  exact UMap.find_assign_self _ _ _

/-- C9, witness: `LREM k 2 a` on `[a, b, a, a]` leaves `[b, a]`. -/
theorem C9_listRemove_first_witness :
    UMap.find (⟨[], [("k".toList, ["a".toList, "b".toList, "a".toList, "a".toList])], [], []⟩
        : KVStore).listData_ "k".toList
      = some ["a".toList, "b".toList, "a".toList, "a".toList]
    ∧ (0 : Int) < 2
    ∧ listRemove "k".toList 2 "a".toList
        ⟨[], [("k".toList, ["a".toList, "b".toList, "a".toList, "a".toList])], [], []⟩
      = (2, ⟨[], [("k".toList, ["b".toList, "a".toList])], [], []⟩) :=
  ⟨rfl, by decide,
    (C9_listRemove_first
      ⟨[], [("k".toList, ["a".toList, "b".toList, "a".toList, "a".toList])], [], []⟩
      "k".toList "a".toList ["a".toList, "b".toList, "a".toList, "a".toList] 2 rfl
      (by decide)).1⟩

theorem listRemove_last (s : KVStore) (k v : Str) (l : List Str) (c : Int)
    (hl : UMap.find s.listData_ k = some l) (hc : c < 0) (hmin : -2147483648 < c) :
    listRemove k c v s
      = (min (-c) (l.count v),
          { s with listData_ :=
              UMap.assign s.listData_ k (withoutLast v (min (-c) (l.count v)).toNat l) }) := by
  have hm : (min (-c) ((l.count v : Nat) : Int)).toNat = min (-c).toNat (l.reverse.count v) := by
    rw [List.count_reverse]
    omega
  have hne : ¬ c = 0 := by omega
  have hnp : ¬ c > 0 := by omega
  simp only [listRemove, hl, removeItems, hne, hnp, if_false]
  rw [wrap32_of_lt (-c) (by omega) (by omega),
    removeBackward_eq v (-c) l.reverse [] 0 (by omega), withoutLast, hm, ← withoutFirst_min]
  simp

/-- C10, failing input: `LREM k -2147483648 a` on the list `[b, a]`. The count parses,
its negation is again `-2147483648`, the loop condition `removedCount < -count` is false
at once: the reply is `:0\r\n` and the list is unchanged, where the claim has one
occurrence removed and the reply `:1\r\n`. With the count `-2147483647` the occurrence
is removed. -/
theorem C10_lrem_int_min :
    stoi "-2147483648".toList = .ok (-2147483648)
    ∧ dispatch 0 ["LREM".toList, "k".toList, "-2147483648".toList, "a".toList]
        ⟨[], [("k".toList, ["b".toList, "a".toList])], [], []⟩
      = .ok (":0\r\n".toList, ⟨[], [("k".toList, ["b".toList, "a".toList])], [], []⟩)
    ∧ dispatch 0 ["LREM".toList, "k".toList, "-2147483647".toList, "a".toList]
        ⟨[], [("k".toList, ["b".toList, "a".toList])], [], []⟩
      = .ok (":1\r\n".toList, ⟨[], [("k".toList, ["b".toList])], [], []⟩) :=
  ⟨rfl, rfl, rfl⟩

/-! ## C2: decoding an encoded array -/

theorem digitChar_spec (d : Nat) (h : d < 10) :
    isdigit (Nat.digitChar d) = true ∧ (Nat.digitChar d).toNat - 48 = d := by
  interval_cases d <;> exact ⟨rfl, rfl⟩

theorem digitsValue_append (ds : Str) (d : Char) :
    digitsValue (ds ++ [d]) = 10 * digitsValue ds + (d.toNat - 48) := by
  simp [digitsValue, List.foldl_append]

theorem toDigitsCore_spec (fuel n : Nat) (acc : Str) (h : n < fuel) :
    ∃ ds, Nat.toDigitsCore 10 fuel n acc = ds ++ acc ∧ ds ≠ []
      ∧ (∀ c ∈ ds, isdigit c = true) ∧ digitsValue ds = n ∧ ds.length ≤ fuel := by
  induction fuel generalizing n acc with
  | zero => omega
  | succ fuel ih =>
    have hd := digitChar_spec (n % 10) (Nat.mod_lt _ (by decide))
    by_cases h0 : n / 10 = 0
    · refine ⟨[Nat.digitChar (n % 10)], ?_, by simp, ?_, ?_, by simp⟩
      · simp [Nat.toDigitsCore, h0]
      · intro c hc
        simp only [List.mem_singleton] at hc
        rw [hc]
        exact hd.1
      · have : digitsValue [Nat.digitChar (n % 10)] = (Nat.digitChar (n % 10)).toNat - 48 := by
          simp [digitsValue]
        rw [this, hd.2]
        omega
    · obtain ⟨ds, h1, _, h3, h4, h5⟩ := ih (n / 10) (Nat.digitChar (n % 10) :: acc) (by omega)
      refine ⟨ds ++ [Nat.digitChar (n % 10)], ?_, by simp, ?_, ?_, ?_⟩
      · simp [Nat.toDigitsCore, h0, h1]
      · intro c hc
        rcases List.mem_append.1 hc with hc | hc
        · exact h3 c hc
        · simp only [List.mem_singleton] at hc
          rw [hc]
          exact hd.1
      · rw [digitsValue_append, h4, hd.2]
        omega
      · simp only [List.length_append, List.length_singleton]
        omega

theorem natToString_spec (n : Nat) :
    natToString n ≠ [] ∧ (∀ c ∈ natToString n, isdigit c = true)
      ∧ digitsValue (natToString n) = n ∧ (natToString n).length ≤ n + 1 := by
  obtain ⟨ds, h1, h2, h3, h4, h5⟩ := toDigitsCore_spec (n + 1) n [] (by omega)
  have : natToString n = ds := by
    simp [natToString, Nat.toDigits, h1]
  rw [this]
  exact ⟨h2, h3, h4, h5⟩

theorem isdigit_not_special (c : Char) (h : isdigit c = true) :
    isspace c = false ∧ c ≠ '-' ∧ c ≠ '+' ∧ c ≠ '\r' := by
  refine ⟨?_, ?_, ?_, ?_⟩
  · simp only [isspace, Bool.or_eq_false_iff, decide_eq_false_iff_not]
    refine ⟨⟨⟨⟨⟨?_, ?_⟩, ?_⟩, ?_⟩, ?_⟩, ?_⟩ <;>
    · rintro rfl
      revert h
      decide
  all_goals
    rintro rfl
    revert h
    decide

theorem stoi_digits (ds : Str) (hne : ds ≠ []) (hd : ∀ c ∈ ds, isdigit c = true) :
    stoi ds = if (digitsValue ds : Int) > 2147483647 then .error .out_of_range
      else .ok (digitsValue ds) := by
  obtain ⟨c, cs, rfl⟩ := List.exists_cons_of_ne_nil hne
  have hc := isdigit_not_special c (hd c (List.mem_cons_self _ _))
  have h1 : List.dropWhile isspace (c :: cs) = c :: cs := by
    simp [List.dropWhile_cons, hc.1]
  have h2 : List.takeWhile isdigit (c :: cs) = c :: cs := by
    rw [List.takeWhile_eq_self_iff]
    exact hd
  simp only [stoi, h1, List.head?_cons, Option.some.injEq, hc.2.1, hc.2.2.1, or_self, if_false,
    h2, decide_False, Bool.false_eq_true]
  have hnn : ¬ ((digitsValue (c :: cs) : Int) < -2147483648) := by omega
  simp [hnn]

theorem stoi_natToString (n : Nat) :
    stoi (natToString n) = if n > 2147483647 then .error .out_of_range else .ok (n : Int) := by
  obtain ⟨h1, h2, h3, _⟩ := natToString_spec n
  rw [stoi_digits _ h1 h2, h3]
  by_cases h : n > 2147483647
  · have : (n : Int) > 2147483647 := by omega
    simp [h, this]
  · have : ¬ (n : Int) > 2147483647 := by omega
    simp [h, this]

theorem findCrlf_digits (ds rest : Str) (hd : ∀ c ∈ ds, isdigit c = true) :
    findCrlf (ds ++ '\r' :: '\n' :: rest) = some ds.length := by
  induction ds with
  | nil => simp [findCrlf]
  | cons c ds ih =>
    have hc := isdigit_not_special c (hd c (List.mem_cons_self _ _))
    have := ih (fun x hx => hd x (List.mem_cons_of_mem _ hx))
    simp [findCrlf, hc.2.2.2, this]

theorem wrap64_of_lt (n : Int) (h0 : 0 ≤ n) (h1 : n < 18446744073709551616) :
    wrap64 n = n.toNat := by
  unfold wrap64
  rw [Int.emod_eq_of_lt h0 h1]

theorem parseElements_step (pre ds t rest : Str) (todo : Nat) (acc : List Str)
    (hne : ds ≠ []) (hd : ∀ c ∈ ds, isdigit c = true) (hv : digitsValue ds = t.length)
    (ht : t.length + 2 < 2147483648)
    (htot : (pre ++ '$' :: ds ++ '\r' :: '\n' :: t ++ '\r' :: '\n' :: rest).length
      < 18446744073709551616) :
    parseElements (pre ++ '$' :: ds ++ '\r' :: '\n' :: t ++ '\r' :: '\n' :: rest) (todo + 1)
        pre.length acc
      = parseElements (pre ++ '$' :: ds ++ '\r' :: '\n' :: t ++ '\r' :: '\n' :: rest) todo
          (pre ++ '$' :: ds ++ '\r' :: '\n' :: t ++ ['\r', '\n']).length (acc ++ [t]) := by
  generalize hin : pre ++ '$' :: ds ++ '\r' :: '\n' :: t ++ '\r' :: '\n' :: rest = input at htot ⊢
  have hlen : input.length = pre.length + 1 + ds.length + 2 + t.length + 2 + rest.length := by
    rw [← hin]
    simp only [List.length_append, List.length_cons]
    omega
  have hget : input.get? pre.length = some '$' := by
    have : input = pre ++ ('$' :: (ds ++ '\r' :: '\n' :: (t ++ '\r' :: '\n' :: rest))) := by
      rw [← hin]
      simp
    rw [this, List.get?_eq_getElem?, List.getElem?_append_right (le_refl _)]
    simp
  have hdrop1 : input.drop (pre.length + 1) = ds ++ '\r' :: '\n' :: (t ++ '\r' :: '\n' :: rest) := by
    have : input = (pre ++ ['$']) ++ (ds ++ '\r' :: '\n' :: (t ++ '\r' :: '\n' :: rest)) := by
      rw [← hin]
      simp
    rw [this]
    exact List.drop_left' (by simp)
  have hfind : findFrom input (pre.length + 1) = some (pre.length + 1 + ds.length) := by
    simp only [findFrom, hdrop1, findCrlf_digits ds _ hd, Option.map_some']
    congr 1
    omega
  have hsub1 : substr input (pre.length + 1) (pre.length + 1 + ds.length - (pre.length + 1))
      = .ok ds := by
    have h1 : ¬ pre.length + 1 > input.length := by omega
    have h2 : pre.length + 1 + ds.length - (pre.length + 1) = ds.length := by omega
    simp only [substr, h1, if_false, hdrop1, h2]
    rw [List.take_left']
    rfl
  have hstoi : stoi ds = .ok (t.length : Int) := by
    rw [stoi_digits ds hne hd, hv]
    have : ¬ (t.length : Int) > 2147483647 := by omega
    simp [this]
  have hdrop2 : input.drop (pre.length + 1 + ds.length + 2) = t ++ '\r' :: '\n' :: rest := by
    have : input = (pre ++ '$' :: ds ++ ['\r', '\n']) ++ (t ++ '\r' :: '\n' :: rest) := by
      rw [← hin]
      simp
    rw [this]
    exact List.drop_left' (by simp; omega)
  have hw1 : wrap64 (((pre.length + 1 + ds.length + 2 : Nat) : Int) + (t.length : Int))
      = pre.length + 1 + ds.length + 2 + t.length := by
    rw [wrap64_of_lt _ (by omega) (by omega)]
    omega
  have hw2 : wrap64 (t.length : Int) = t.length := by
    rw [wrap64_of_lt _ (by omega) (by omega)]
    omega
  have hsub2 : substr input (pre.length + 1 + ds.length + 2) t.length = .ok t := by
    have h1 : ¬ pre.length + 1 + ds.length + 2 > input.length := by omega
    simp only [substr, h1, if_false, hdrop2]
    rw [List.take_left']
    rfl
  have hw3 : wrap64 (((pre.length + 1 + ds.length + 2 : Nat) : Int)
      + wrap32 ((t.length : Int) + 2))
      = (pre ++ '$' :: ds ++ '\r' :: '\n' :: t ++ ['\r', '\n']).length := by
    rw [wrap32_of_lt _ (by omega) (by omega), wrap64_of_lt _ (by omega) (by omega)]
    simp only [List.length_append, List.length_cons, List.length_nil]
    omega
  have hcond : ¬ (pre.length ≥ input.length ∨ input.get? pre.length ≠ some '$') := by
    rw [hget]
    simp
    omega
  have hle : ¬ pre.length + 1 + ds.length + 2 + t.length > input.length := by omega
  rw [parseElements, if_neg hcond]
  simp only [hfind, hsub1, hstoi, hw1, hle, if_false, hw2, hsub2, hw3]

theorem encoded_length_le (ts : List Str) (ht : ∀ t ∈ ts, t.length + 2 < 2147483648) :
    ((ts.map (fun t => '$' :: natToString t.length ++ ['\r', '\n'] ++ t
      ++ ['\r', '\n'])).flatten).length ≤ ts.length * 4294967296 := by
  induction ts with
  | nil => simp
  | cons t ts ih =>
    have h1 := ih (fun x hx => ht x (List.mem_cons_of_mem _ hx))
    have h2 := ht t (List.mem_cons_self _ _)
    have h3 := (natToString_spec t.length).2.2.2
    simp only [List.map_cons, List.flatten_cons, List.length_append, List.length_cons,
      List.length_nil] at h1 ⊢
    omega

theorem parseElements_encoded (pre : Str) (ts acc : List Str)
    (ht : ∀ t ∈ ts, t.length + 2 < 2147483648)
    (htot : (pre ++ (ts.map (fun t => '$' :: natToString t.length ++ ['\r', '\n'] ++ t
      ++ ['\r', '\n'])).flatten).length < 18446744073709551616) :
    parseElements (pre ++ (ts.map (fun t => '$' :: natToString t.length ++ ['\r', '\n'] ++ t
      ++ ['\r', '\n'])).flatten) ts.length pre.length acc = .ok (acc ++ ts) := by
  induction ts generalizing pre acc with
  | nil => simp [parseElements]
  | cons t ts ih =>
    obtain ⟨h1, h2, h3, _⟩ := natToString_spec t.length
    have hshape : pre ++ ((t :: ts).map (fun t => '$' :: natToString t.length ++ ['\r', '\n']
          ++ t ++ ['\r', '\n'])).flatten
        = pre ++ '$' :: natToString t.length ++ '\r' :: '\n' :: t ++ '\r' :: '\n'
            :: (ts.map (fun t => '$' :: natToString t.length ++ ['\r', '\n'] ++ t
              ++ ['\r', '\n'])).flatten := by
      simp
    have hshape2 : pre ++ '$' :: natToString t.length ++ '\r' :: '\n' :: t ++ '\r' :: '\n'
            :: (ts.map (fun t => '$' :: natToString t.length ++ ['\r', '\n'] ++ t
              ++ ['\r', '\n'])).flatten
        = (pre ++ '$' :: natToString t.length ++ '\r' :: '\n' :: t ++ ['\r', '\n'])
            ++ (ts.map (fun t => '$' :: natToString t.length ++ ['\r', '\n'] ++ t
              ++ ['\r', '\n'])).flatten := by
      simp
    rw [hshape] at htot ⊢
    rw [List.length_cons,
      parseElements_step pre (natToString t.length) t _ ts.length acc h1 h2 h3
        (ht t (List.mem_cons_self _ _)) htot]
    rw [hshape2] at htot ⊢
    rw [ih _ (acc ++ [t]) (fun x hx => ht x (List.mem_cons_of_mem _ hx)) htot]
    simp

theorem parseProtocol_header (ds body : Str) (hd : ∀ c ∈ ds, isdigit c = true) :
    parseProtocol ('*' :: ds ++ '\r' :: '\n' :: body)
      = match stoi ds with
        | .error e => .error e
        | .ok elementCount =>
          parseElements ('*' :: ds ++ '\r' :: '\n' :: body) elementCount.toNat
            (['*'] ++ ds ++ ['\r', '\n']).length [] := by
  have hfind : findFrom ('*' :: ds ++ '\r' :: '\n' :: body) 1 = some (ds.length + 1) := by
    simp [findFrom, findCrlf_digits ds body hd]
  have hsub : substr ('*' :: ds ++ '\r' :: '\n' :: body) 1 (ds.length + 1 - 1) = .ok ds := by
    simp [substr]
  have hlen : (['*'] ++ ds ++ ['\r', '\n']).length = ds.length + 1 + 2 := by
    simp
  simp only [parseProtocol, hfind, hsub, hlen]
  simp

/-- C2 (amended): for every list of fewer than `2^31` byte strings, each of at most
`2^31 - 3` bytes, `parseProtocol` applied to the array-of-bulk-strings encoding of the
list returns exactly the list. -/
theorem C2_decode_encoded (ts : List Str) (hN : ts.length < 2147483648)
    (ht : ∀ t ∈ ts, t.length + 2 < 2147483648) :
    parseProtocol (encodeArray ts) = .ok ts := by
  obtain ⟨_, h2, _, h4⟩ := natToString_spec ts.length
  have hlen := encoded_length_le ts ht
  have hstoi : stoi (natToString ts.length) = .ok (ts.length : Int) := by
    rw [stoi_natToString]
    have : ¬ ts.length > 2147483647 := by omega
    simp [this]
  have hshape : encodeArray ts
      = '*' :: natToString ts.length ++ '\r' :: '\n'
          :: (ts.map (fun t => '$' :: natToString t.length ++ ['\r', '\n'] ++ t
            ++ ['\r', '\n'])).flatten := by
    simp [encodeArray]
  have hshape2 : '*' :: natToString ts.length ++ '\r' :: '\n'
          :: (ts.map (fun t => '$' :: natToString t.length ++ ['\r', '\n'] ++ t
            ++ ['\r', '\n'])).flatten
      = (['*'] ++ natToString ts.length ++ ['\r', '\n'])
          ++ (ts.map (fun t => '$' :: natToString t.length ++ ['\r', '\n'] ++ t
            ++ ['\r', '\n'])).flatten := by
    simp
  rw [hshape, parseProtocol_header _ _ h2, hstoi]
  simp only [Int.toNat_ofNat]
  rw [hshape2, parseElements_encoded _ ts [] ht]
  · simp
  · simp only [List.length_append, List.length_cons, List.length_nil]
    omega

/-- C2, witness: the request `SET foo bar`. -/
theorem C2_decode_encoded_witness :
    ["SET".toList, "foo".toList, "bar".toList].length < 2147483648
    ∧ (∀ t ∈ ["SET".toList, "foo".toList, "bar".toList], t.length + 2 < 2147483648)
    ∧ parseProtocol "*3\r\n$3\r\nSET\r\n$3\r\nfoo\r\n$3\r\nbar\r\n".toList
      = .ok ["SET".toList, "foo".toList, "bar".toList] :=
  ⟨by decide, by decide,
    C2_decode_encoded ["SET".toList, "foo".toList, "bar".toList] (by decide) (by decide)⟩


theorem parseProtocol_too_many (ts : List Str) (h : ts.length > 2147483647) :
    parseProtocol (encodeArray ts) = .error .out_of_range := by
  have hshape : encodeArray ts
      = '*' :: natToString ts.length ++ '\r' :: '\n'
          :: (ts.map (fun t => '$' :: natToString t.length ++ ['\r', '\n'] ++ t
            ++ ['\r', '\n'])).flatten := by
    simp [encodeArray]
  rw [hshape, parseProtocol_header _ _ (natToString_spec _).2.1, stoi_natToString]
  simp [h]

/-- C2, counterexample: for the list of `2^31` empty strings the header is
`*2147483648\r\n`; the count does not fit an `int`, `std::stoi` throws `out_of_range`
and `parseProtocol` returns no list. -/
theorem C2_counterexample :
    (∀ t ∈ List.replicate 2147483648 ([] : Str), t.length < 2147483648)
    ∧ parseProtocol (encodeArray (List.replicate 2147483648 [])) = .error .out_of_range := by
  constructor
  · intro t ht
    rw [List.eq_of_mem_replicate ht]
    decide
  · apply parseProtocol_too_many
    rw [List.length_replicate]
    decide

/-! ## C7: snapshot round trip -/

theorem getlines_line (l rest line : Str) (h : '\n' ∉ l) :
    getlines (l ++ '\n' :: rest) line = (line ++ l) :: getlines rest [] := by
  induction l generalizing line with
  | nil => simp [getlines]
  | cons c l ih =>
    have hc : c ≠ '\n' := fun e => h (by simp [e])
    have hl : '\n' ∉ l := fun e => h (List.mem_cons_of_mem _ e)
    have hstep : getlines (c :: l ++ '\n' :: rest) line
        = getlines (l ++ '\n' :: rest) (line ++ [c]) := by
      simp [getlines, hc]
    rw [hstep, ih _ hl]
    simp

theorem getlines_lines (ls : List Str) (h : ∀ l ∈ ls, '\n' ∉ l) :
    getlines ((ls.map (fun l => l ++ ['\n'])).flatten) [] = ls := by
  induction ls with
  | nil => simp [getlines]
  | cons l ls ih =>
    simp only [List.map_cons, List.flatten_cons, List.append_assoc, List.singleton_append]
    rw [getlines_line l _ [] (h l (List.mem_cons_self _ _)),
      ih (fun x hx => h x (List.mem_cons_of_mem _ hx))]
    simp

theorem takeWhile_dropWhile_append (p : Char → Bool) (a b : Str) (ha : ∀ c ∈ a, p c = true)
    (hb : b = [] ∨ ∃ c r, b = c :: r ∧ p c = false) :
    (a ++ b).takeWhile p = a ∧ (a ++ b).dropWhile p = b := by
  induction a with
  | nil =>
    rcases hb with rfl | ⟨c, r, rfl, hc⟩
    · simp
    · simp [List.takeWhile_cons, List.dropWhile_cons, hc]
  | cons x a ih =>
    have hx := ha x (List.mem_cons_self _ _)
    have := ih (fun c hc => ha c (List.mem_cons_of_mem _ hc))
    simp [List.takeWhile_cons, List.dropWhile_cons, hx, this]

theorem extract_token (tok rest : Str) (hne : tok ≠ []) (htok : ∀ c ∈ tok, isspace c = false)
    (hrest : rest = [] ∨ ∃ c r, rest = c :: r ∧ isspace c = true) :
    extract (' ' :: tok ++ rest) = (some tok, rest) := by
  obtain ⟨x, xs, rfl⟩ := List.exists_cons_of_ne_nil hne
  have hx := htok x (List.mem_cons_self _ _)
  have h1 : List.dropWhile isspace (' ' :: (x :: xs) ++ rest) = (x :: xs) ++ rest := by
    have hsp : isspace ' ' = true := rfl
    simp [List.dropWhile_cons, hsp, hx]
  have h2 := takeWhile_dropWhile_append (fun c => !isspace c) (x :: xs) rest
    (fun c hc => by simp [htok c hc])
    (by
      rcases hrest with rfl | ⟨c, r, rfl, hc⟩
      · exact Or.inl rfl
      · exact Or.inr ⟨c, r, rfl, by simp [hc]⟩)
  simp only [extract, h1, h2.1, h2.2]
  simp

theorem extract_value (v : Str) (hv : ∀ c ∈ v, isspace c = false) :
    (extract (' ' :: v)).1.getD [] = v := by
  by_cases h : v = []
  · subst h
    rfl
  · have := extract_token v [] h hv (Or.inl rfl)
    simp only [List.append_nil] at this
    rw [this]
    rfl

theorem extractAll_items (items : List Str) (fuel : Nat) (hf : items.length ≤ fuel)
    (h : ∀ x ∈ items, x ≠ [] ∧ ∀ c ∈ x, isspace c = false) :
    extractAll fuel ((items.map (fun item => ' ' :: item)).flatten) = items := by
  induction items generalizing fuel with
  | nil =>
    cases fuel with
    | zero => rfl
    | succ fuel => rfl
  | cons x items ih =>
    obtain ⟨fuel, rfl⟩ : ∃ f, fuel = f + 1 := ⟨fuel - 1, by simp at hf; omega⟩
    have hx := h x (List.mem_cons_self _ _)
    have hrest : (items.map (fun item => ' ' :: item)).flatten = []
        ∨ ∃ c r, (items.map (fun item => ' ' :: item)).flatten = c :: r ∧ isspace c = true := by
      cases items with
      | nil => exact Or.inl rfl
      | cons y ys => exact Or.inr ⟨' ', _, rfl, rfl⟩
    have he := extract_token x _ hx.1 hx.2 hrest
    simp only [List.map_cons, List.flatten_cons, extractAll]
    rw [he]
    simp only
    rw [ih fuel (by simp at hf; omega) (fun y hy => h y (List.mem_cons_of_mem _ hy))]

theorem assign_of_not_mem {V : Type} (m : UMap V) (k : Str) (v : V) (h : k ∉ UMap.keys m) :
    UMap.assign m k v = m ++ [(k, v)] := by
  induction m with
  | nil => rfl
  | cons e m ih =>
    obtain ⟨k0, v0⟩ := e
    have h0 : k0 ≠ k := by
      rintro rfl
      exact h (List.mem_cons_self _ _)
    have h1 : k ∉ UMap.keys m := fun hm => h (List.mem_cons_of_mem _ hm)
    simp [UMap.assign, h0, ih h1]

theorem foldl_assign_nodup {V : Type} (m acc : UMap V) (h : (UMap.keys (acc ++ m)).Nodup) :
    m.foldl (fun a e => UMap.assign a e.1 e.2) acc = acc ++ m := by
  induction m generalizing acc with
  | nil => simp
  | cons e m ih =>
    have hk : e.1 ∉ UMap.keys acc := by
      simp only [UMap.keys, List.map_append, List.map_cons] at h
      intro hmem
      have hd : e.1 ∉ e.1 :: List.map Prod.fst m :=
        List.disjoint_left.1 (List.nodup_append.1 h).2.2 hmem
      exact hd (List.mem_cons_self _ _)
    have h2 : (UMap.keys ((acc ++ [e]) ++ m)).Nodup := by
      simpa using h
    rw [List.foldl_cons, assign_of_not_mem acc e.1 e.2 hk, ih (acc ++ [e]) h2]
    simp

theorem loadLine_S (uninit : Char) (k v : Str) (st : KVStore) (hk : k ≠ [])
    (hkw : ∀ c ∈ k, isspace c = false) (hvw : ∀ c ∈ v, isspace c = false) :
    loadLine uninit ('S' :: ' ' :: k ++ ' ' :: v) st
      = { st with stringData_ := UMap.assign st.stringData_ k v } := by
  have hbody : List.dropWhile isspace ('S' :: ' ' :: k ++ ' ' :: v)
      = 'S' :: (' ' :: k ++ ' ' :: v) := by
    have : isspace 'S' = false := rfl
    simp [List.dropWhile_cons, this]
  have hk1 := extract_token k (' ' :: v) hk hkw (Or.inr ⟨' ', v, rfl, rfl⟩)
  have hv1 := extract_value v hvw
  simp only [loadLine, hbody, List.head?_cons, Option.getD_some, List.tail_cons, if_true, hk1,
    hv1]

theorem length_le_joined (items : List Str) :
    items.length ≤ ((items.map (fun item => ' ' :: item)).flatten).length := by
  induction items with
  | nil => simp
  | cons x items ih =>
    simp only [List.map_cons, List.flatten_cons, List.length_append, List.length_cons]
    omega

theorem joined_head (items : List Str) :
    (items.map (fun item => ' ' :: item)).flatten = []
      ∨ ∃ c r, (items.map (fun item => ' ' :: item)).flatten = c :: r ∧ isspace c = true := by
  cases items with
  | nil => exact Or.inl rfl
  | cons y ys => exact Or.inr ⟨' ', _, rfl, rfl⟩

theorem loadLine_L (uninit : Char) (k : Str) (items : List Str) (st : KVStore) (hk : k ≠ [])
    (hkw : ∀ c ∈ k, isspace c = false)
    (hi : ∀ x ∈ items, x ≠ [] ∧ ∀ c ∈ x, isspace c = false) :
    loadLine uninit ('L' :: ' ' :: k ++ (items.map (fun item => ' ' :: item)).flatten) st
      = { st with listData_ := UMap.assign st.listData_ k items } := by
  have hbody : List.dropWhile isspace
      ('L' :: ' ' :: k ++ (items.map (fun item => ' ' :: item)).flatten)
      = 'L' :: (' ' :: k ++ (items.map (fun item => ' ' :: item)).flatten) := by
    have : isspace 'L' = false := rfl
    simp [List.dropWhile_cons, this]
  have hk1 := extract_token k _ hk hkw (joined_head items)
  have hne : ('L' = 'S') = False := by decide
  simp only [loadLine, hbody, List.head?_cons, Option.getD_some, List.tail_cons, hne, if_false,
    if_true, hk1, extractAll_items items _ (length_le_joined items) hi]

theorem addPair_pair (m : UMap Str) (f v : Str) (hf : ':' ∉ f) :
    addPair m (f ++ ':' :: v) = UMap.assign m f v := by
  have h := takeWhile_dropWhile_append (fun c => decide (c ≠ ':')) f (':' :: v)
    (fun c hc => by
      have : c ≠ ':' := fun e => hf (e ▸ hc)
      simp [this])
    (Or.inr ⟨':', v, rfl, by simp⟩)
  simp only [addPair, List.mem_append, List.mem_cons, true_or, or_true, if_true, h.1, h.2,
    List.tail_cons]

theorem foldl_addPair (h m : UMap Str) (hf : ∀ fv ∈ h, ':' ∉ fv.1) :
    (h.map (fun fv => fv.1 ++ ':' :: fv.2)).foldl addPair m
      = h.foldl (fun a e => UMap.assign a e.1 e.2) m := by
  induction h generalizing m with
  | nil => rfl
  | cons e h ih =>
    simp only [List.map_cons, List.foldl_cons]
    rw [addPair_pair m e.1 e.2 (hf e (List.mem_cons_self _ _)),
      ih _ (fun x hx => hf x (List.mem_cons_of_mem _ hx))]

theorem loadLine_H (uninit : Char) (k : Str) (h : UMap Str) (st : KVStore) (hk : k ≠ [])
    (hkw : ∀ c ∈ k, isspace c = false) (hn : (UMap.keys h).Nodup)
    (hp : ∀ fv ∈ h, plain fv.1 ∧ plain fv.2) :
    loadLine uninit
        ('H' :: ' ' :: k ++ (h.map (fun fv => ' ' :: fv.1 ++ ':' :: fv.2)).flatten) st
      = { st with hashData_ := UMap.assign st.hashData_ k h } := by
  have hshape : (h.map (fun fv => ' ' :: fv.1 ++ ':' :: fv.2)).flatten
      = ((h.map (fun fv => fv.1 ++ ':' :: fv.2)).map (fun item => ' ' :: item)).flatten := by
    rw [List.map_map]
    rfl
  have hbody : List.dropWhile isspace
      ('H' :: ' ' :: k
        ++ ((h.map (fun fv => fv.1 ++ ':' :: fv.2)).map (fun item => ' ' :: item)).flatten)
      = 'H' :: (' ' :: k
        ++ ((h.map (fun fv => fv.1 ++ ':' :: fv.2)).map (fun item => ' ' :: item)).flatten) := by
    have : isspace 'H' = false := rfl
    simp [List.dropWhile_cons, this]
  have hk1 := extract_token k _ hk hkw (joined_head (h.map (fun fv => fv.1 ++ ':' :: fv.2)))
  have hitems : ∀ x ∈ h.map (fun fv => fv.1 ++ ':' :: fv.2),
      x ≠ [] ∧ ∀ c ∈ x, isspace c = false := by
    intro x hx
    obtain ⟨fv, hfv, rfl⟩ := List.mem_map.1 hx
    refine ⟨by simp, ?_⟩
    intro c hc
    rcases List.mem_append.1 hc with hc | hc
    · exact ((hp fv hfv).1 c hc).1
    · rcases List.mem_cons.1 hc with rfl | hc
      · rfl
      · exact ((hp fv hfv).2 c hc).1
  have hne1 : ('H' = 'S') = False := by decide
  have hne2 : ('H' = 'L') = False := by decide
  rw [hshape]
  simp only [loadLine, hbody, List.head?_cons, Option.getD_some, List.tail_cons, hne1, hne2,
    if_false, if_true, hk1,
    extractAll_items _ _ (length_le_joined (h.map (fun fv => fv.1 ++ ':' :: fv.2))) hitems]
  rw [foldl_addPair h [] (fun fv hfv hc => ((hp fv hfv).1 _ hc).2 rfl),
    foldl_assign_nodup h [] (by simpa using hn)]
  simp

theorem plain_no_space (t : Str) (h : plain t) : ∀ c ∈ t, isspace c = false :=
  fun c hc => (h c hc).1

theorem plain_no_newline (t : Str) (h : plain t) : '\n' ∉ t := by
  intro hc
  have := (h _ hc).1
  revert this
  decide

theorem load_strings (uninit : Char) (strs : UMap Str) (st : KVStore)
    (h : ∀ e ∈ strs, e.1 ≠ [] ∧ plain e.1 ∧ plain e.2) :
    (strs.map (fun e => 'S' :: ' ' :: e.1 ++ ' ' :: e.2)).foldl
        (fun a line => loadLine uninit line a) st
      = { st with stringData_ := strs.foldl (fun a e => UMap.assign a e.1 e.2) st.stringData_ } := by
  induction strs generalizing st with
  | nil => rfl
  | cons e strs ih =>
    have he := h e (List.mem_cons_self _ _)
    simp only [List.map_cons, List.foldl_cons]
    rw [loadLine_S uninit e.1 e.2 st he.1 (plain_no_space _ he.2.1) (plain_no_space _ he.2.2),
      ih _ (fun x hx => h x (List.mem_cons_of_mem _ hx))]

theorem load_lists (uninit : Char) (lsts : UMap (List Str)) (st : KVStore)
    (h : ∀ e ∈ lsts, e.1 ≠ [] ∧ plain e.1 ∧ ∀ x ∈ e.2, x ≠ [] ∧ plain x) :
    (lsts.map (fun e => 'L' :: ' ' :: e.1 ++ (e.2.map (fun item => ' ' :: item)).flatten)).foldl
        (fun a line => loadLine uninit line a) st
      = { st with listData_ := lsts.foldl (fun a e => UMap.assign a e.1 e.2) st.listData_ } := by
  induction lsts generalizing st with
  | nil => rfl
  | cons e lsts ih =>
    have he := h e (List.mem_cons_self _ _)
    simp only [List.map_cons, List.foldl_cons]
    rw [loadLine_L uninit e.1 e.2 st he.1 (plain_no_space _ he.2.1)
        (fun x hx => ⟨(he.2.2 x hx).1, plain_no_space _ (he.2.2 x hx).2⟩),
      ih _ (fun x hx => h x (List.mem_cons_of_mem _ hx))]

theorem load_hashes (uninit : Char) (hs : UMap (UMap Str)) (st : KVStore)
    (hn : ∀ e ∈ hs, (UMap.keys e.2).Nodup)
    (h : ∀ e ∈ hs, e.1 ≠ [] ∧ plain e.1 ∧ ∀ fv ∈ e.2, plain fv.1 ∧ plain fv.2) :
    (hs.map (fun e =>
        'H' :: ' ' :: e.1 ++ (e.2.map (fun fv => ' ' :: fv.1 ++ ':' :: fv.2)).flatten)).foldl
        (fun a line => loadLine uninit line a) st
      = { st with hashData_ := hs.foldl (fun a e => UMap.assign a e.1 e.2) st.hashData_ } := by
  induction hs generalizing st with
  | nil => rfl
  | cons e hs ih =>
    have he := h e (List.mem_cons_self _ _)
    simp only [List.map_cons, List.foldl_cons]
    rw [loadLine_H uninit e.1 e.2 st he.1 (plain_no_space _ he.2.1)
        (hn e (List.mem_cons_self _ _)) he.2.2,
      ih _ (fun x hx => hn x (List.mem_cons_of_mem _ hx))
        (fun x hx => h x (List.mem_cons_of_mem _ hx))]

theorem joined_no_newline (items : List Str) (h : ∀ x ∈ items, '\n' ∉ x) :
    '\n' ∉ (items.map (fun item => ' ' :: item)).flatten := by
  induction items with
  | nil => simp
  | cons x items ih =>
    simp only [List.map_cons, List.flatten_cons, List.mem_append, List.mem_cons, not_or]
    exact ⟨⟨by decide, h x (List.mem_cons_self _ _)⟩,
      ih (fun y hy => h y (List.mem_cons_of_mem _ hy))⟩

theorem saveToDisk_lines (s : KVStore) :
    saveToDisk s
      = (((s.stringData_.map (fun e => 'S' :: ' ' :: e.1 ++ ' ' :: e.2))
          ++ (s.listData_.map (fun e =>
                'L' :: ' ' :: e.1 ++ (e.2.map (fun item => ' ' :: item)).flatten))
          ++ (s.hashData_.map (fun e =>
                'H' :: ' ' :: e.1
                  ++ (e.2.map (fun fv => ' ' :: fv.1 ++ ':' :: fv.2)).flatten))).map
          (fun l => l ++ ['\n'])).flatten := by
  unfold saveToDisk
  rw [List.map_append, List.map_append, List.flatten_append, List.flatten_append,
    List.map_map, List.map_map, List.map_map]
  rfl

/-- C7 (amended): for every store whose keys, string values, list elements, hash field
names and hash values contain no white space and no `:`, and whose keys and list
elements are not empty, loading the text written by `saveToDisk`, after `clearAll`,
yields the string, list and hash maps that were saved, and an empty expiry map. -/
theorem C7_snapshot_round_trip (uninit : Char) (s : KVStore) (h : SnapshotSafe s) :
    loadFromDisk uninit (some (saveToDisk s)) (clearAll s).2
      = (true, { stringData_ := s.stringData_, listData_ := s.listData_,
                 hashData_ := s.hashData_, expiryTimes_ := [] }) := by
  have hlines : ∀ l ∈ (s.stringData_.map (fun e => 'S' :: ' ' :: e.1 ++ ' ' :: e.2))
          ++ (s.listData_.map (fun e =>
                'L' :: ' ' :: e.1 ++ (e.2.map (fun item => ' ' :: item)).flatten))
          ++ (s.hashData_.map (fun e =>
                'H' :: ' ' :: e.1
                  ++ (e.2.map (fun fv => ' ' :: fv.1 ++ ':' :: fv.2)).flatten)),
      '\n' ∉ l := by
    intro l hl
    rcases List.mem_append.1 hl with hl | hl
    · rcases List.mem_append.1 hl with hl | hl
      · obtain ⟨e, he, rfl⟩ := List.mem_map.1 hl
        have hp := h.strings e he
        simp only [List.mem_append, List.mem_cons, not_or]
        exact ⟨⟨by decide, by decide, plain_no_newline _ hp.2.1⟩, by decide,
          plain_no_newline _ hp.2.2⟩
      · obtain ⟨e, he, rfl⟩ := List.mem_map.1 hl
        have hp := h.lists e he
        simp only [List.mem_append, List.mem_cons, not_or]
        exact ⟨⟨by decide, by decide, plain_no_newline _ hp.2.1⟩,
          joined_no_newline _ (fun x hx => plain_no_newline _ (hp.2.2 x hx).2)⟩
    · obtain ⟨e, he, rfl⟩ := List.mem_map.1 hl
      have hp := h.hashes e he
      have hj : '\n' ∉ (e.2.map (fun fv => ' ' :: fv.1 ++ ':' :: fv.2)).flatten := by
        have hshape : (e.2.map (fun fv => ' ' :: fv.1 ++ ':' :: fv.2)).flatten
            = ((e.2.map (fun fv => fv.1 ++ ':' :: fv.2)).map
                (fun item => ' ' :: item)).flatten := by
          rw [List.map_map]
          rfl
        rw [hshape]
        apply joined_no_newline
        intro x hx
        obtain ⟨fv, hfv, rfl⟩ := List.mem_map.1 hx
        simp only [List.mem_append, List.mem_cons, not_or]
        exact ⟨plain_no_newline _ (hp.2.2 fv hfv).1, by decide,
          plain_no_newline _ (hp.2.2 fv hfv).2⟩
      simp only [List.mem_append, List.mem_cons, not_or]
      exact ⟨⟨by decide, by decide, plain_no_newline _ hp.2.1⟩, hj⟩
  simp only [loadFromDisk, clearAll]
  rw [saveToDisk_lines, getlines_lines _ hlines, List.foldl_append, List.foldl_append,
    load_strings uninit _ _ h.strings, load_lists uninit _ _ h.lists,
    load_hashes uninit _ _ h.fieldNames h.hashes]
  simp only
  rw [foldl_assign_nodup _ [] (by simpa using h.stringKeys),
    foldl_assign_nodup _ [] (by simpa using h.listKeys),
    foldl_assign_nodup _ [] (by simpa using h.hashKeys)]
  simp

/-- C7, witness: a store with two strings (one empty), a list and a hash. -/
theorem C7_snapshot_round_trip_witness :
    SnapshotSafe ⟨[("a".toList, "1".toList), ("b".toList, [])],
        [("l".toList, ["x".toList, "y".toList])],
        [("h".toList, [("f".toList, "v".toList)])], [("a".toList, 5)]⟩
    ∧ loadFromDisk 'x' (some "S a 1\nS b \nL l x y\nH h f:v\n".toList) ⟨[], [], [], []⟩
      = (true, ⟨[("a".toList, "1".toList), ("b".toList, [])],
          [("l".toList, ["x".toList, "y".toList])],
          [("h".toList, [("f".toList, "v".toList)])], []⟩) :=
  have hsafe : SnapshotSafe ⟨[("a".toList, "1".toList), ("b".toList, [])],
        [("l".toList, ["x".toList, "y".toList])],
        [("h".toList, [("f".toList, "v".toList)])], [("a".toList, 5)]⟩ :=
    { stringKeys := by decide
      listKeys := by decide
      hashKeys := by decide
      fieldNames := by decide
      strings := by simp [plain, isspace]
      lists := by simp [plain, isspace]
      hashes := by simp [plain, isspace] }
  ⟨hsafe, C7_snapshot_round_trip 'x' _ hsafe⟩

/-- C7, counterexample: the list `k` holds an empty element and `a`; no key or element
contains white space or `:`. The snapshot line is `L k  a`, and loading it yields the
list `[a]`: the empty element is lost. -/
theorem C7_counterexample :
    plain "k".toList ∧ (∀ x ∈ [[], "a".toList], plain x)
    ∧ saveToDisk ⟨[], [("k".toList, [[], "a".toList])], [], []⟩ = "L k  a\n".toList
    ∧ loadFromDisk 'x' (some (saveToDisk ⟨[], [("k".toList, [[], "a".toList])], [], []⟩))
        (clearAll ⟨[], [("k".toList, [[], "a".toList])], [], []⟩).2
      = (true, ⟨[], [("k".toList, ["a".toList])], [], []⟩) :=
  ⟨by simp [plain, isspace], by simp [plain, isspace], rfl, rfl⟩

/-! ## C11, C12: LINDEX and LSET -/

theorem resolveIndex_spec (n : Nat) (i : Int) (hn : n < 2147483648)
    (h0 : -2147483648 ≤ i) (h1 : i < 2147483648) :
    resolveIndex n i
      = if 0 ≤ i ∧ i < n then some i
        else if -(n : Int) ≤ i ∧ i < 0 then some ((n : Int) + i) else none := by
  have hw : wrap32 (n : Int) = n := wrap32_of_lt _ (by omega) (by omega)
  by_cases hneg : i < 0
  · have hw2 : wrap32 ((wrap64 ((n : Int) + i) : Nat) : Int) = (n : Int) + i := by
      unfold wrap32 wrap64
      omega
    have hnot : ¬ (0 ≤ i ∧ i < (n : Int)) := by omega
    simp only [resolveIndex, hneg, if_true, hw, hw2, hnot, if_false]
    by_cases hr : -(n : Int) ≤ i
    · have : ¬ ((n : Int) + i < 0 ∨ (n : Int) + i ≥ n) := by omega
      simp [hr, this]
      omega
    · have : (n : Int) + i < 0 := by omega
      simp [hr, this]
  · have hnot : ¬ (-(n : Int) ≤ i ∧ i < 0) := by omega
    simp only [resolveIndex, hneg, if_false, hw, hnot]
    by_cases hr : i < (n : Int)
    · have : ¬ i ≥ (n : Int) := by omega
      have h0' : 0 ≤ i := by omega
      simp [hr, this, h0']
    · have : i ≥ (n : Int) := by omega
      simp [hr, this]

theorem resolveIndex_lt (n : Nat) (i p : Int) (h : resolveIndex n i = some p) :
    0 ≤ p ∧ p.toNat < n := by
  simp only [resolveIndex] at h
  generalize (if i < 0 then wrap32 ((wrap64 ((n : Int) + i) : Nat) : Int) else i) = q at h
  by_cases hc : (q < 0 || q ≥ wrap32 (n : Int)) = true
  · simp [hc] at h
  · rw [if_neg hc] at h
    cases h
    simp only [Bool.or_eq_true, decide_eq_true_eq, not_or, not_lt, ge_iff_le, not_le] at hc
    obtain ⟨hc1, hc2⟩ := hc
    refine ⟨hc1, ?_⟩
    unfold wrap32 at hc2
    omega

theorem listGetAt_eq (s : KVStore) (k : Str) (l : List Str) (i : Int)
    (hl : UMap.find s.listData_ k = some l) :
    listGetAt k i s
      = match resolveIndex l.length i with
        | none => .ok none
        | some p => .ok (l.get? p.toNat) := by
  simp only [listGetAt, hl]
  cases hr : resolveIndex l.length i with
  | none => rfl
  | some p =>
    have hp := (resolveIndex_lt _ _ _ hr).2
    simp only []
    rw [List.get?_eq_get hp]

theorem listSetAt_eq (s : KVStore) (k v : Str) (l : List Str) (i : Int)
    (hl : UMap.find s.listData_ k = some l) :
    listSetAt k i v s
      = match resolveIndex l.length i with
        | none => .ok (false, s)
        | some p =>
          .ok (true, { s with listData_ := UMap.assign s.listData_ k (l.set p.toNat v) }) := by
  simp only [listSetAt, hl]
  cases hr : resolveIndex l.length i with
  | none => rfl
  | some p =>
    have hp := (resolveIndex_lt _ _ _ hr).2
    simp only [hp, if_true]

theorem stoi_range (text : Str) (i : Int) (h : stoi text = .ok i) :
    -2147483648 ≤ i ∧ i < 2147483648 := by
  simp only [stoi] at h
  split_ifs at h <;> first | (cases h; done) | (injection h with h; omega)

/-- C11: for a list `l` of length `n < 2^31` at `k` and a 32-bit index `i`,
`listGetAt(k, i)` returns `l[i]` when `0 ≤ i < n`, `l[n + i]` when `-n ≤ i < 0`, and
not-found for every other index; it returns not-found on an absent key; no access is
out of bounds (the result is never a fault); and `LINDEX` replies `$-1\r\n` whenever
`listGetAt` returns not-found. -/
theorem C11_listGetAt (s : KVStore) (k : Str) (i : Int)
    (h0 : -2147483648 ≤ i) (h1 : i < 2147483648) :
    (∀ l, UMap.find s.listData_ k = some l → l.length < 2147483648 →
      (∀ h : 0 ≤ i ∧ i < l.length,
        listGetAt k i s = .ok (some (l.get ⟨i.toNat, by omega⟩)))
      ∧ (∀ h : -(l.length : Int) ≤ i ∧ i < 0,
        listGetAt k i s = .ok (some (l.get ⟨((l.length : Int) + i).toNat, by omega⟩)))
      ∧ (¬ (0 ≤ i ∧ i < l.length) → ¬ (-(l.length : Int) ≤ i ∧ i < 0) →
        listGetAt k i s = .ok none))
    ∧ (UMap.find s.listData_ k = none → listGetAt k i s = .ok none)
    ∧ (∀ now text, stoi text = .ok i → listGetAt k i s = .ok none →
        dispatch now ["LINDEX".toList, k, text] s = .ok ("$-1\r\n".toList, s)) := by
  refine ⟨?_, ?_, ?_⟩
  · intro l hl hn
    rw [listGetAt_eq s k l i hl, resolveIndex_spec l.length i hn h0 h1]
    refine ⟨?_, ?_, ?_⟩
    · intro h
      simp only [h, and_self, if_true]
      rw [List.get?_eq_get]
    · intro h
      have hnot : ¬ (0 ≤ i ∧ i < (l.length : Int)) := by omega
      simp only [hnot, if_false, h, and_self, if_true]
      rw [List.get?_eq_get]
    · intro ha hb
      simp only [ha, hb, if_false]
  · intro hl
    simp [listGetAt, hl]
  · intro now text ht hg
    show cmdLindex ["LINDEX".toList, k, text] s = _
    simp only [cmdLindex, ht, hg]
    rfl

/-- C11, witness: index `-1` on the list `[a, b]` gives `b`. -/
theorem C11_listGetAt_witness :
    (-2147483648 : Int) ≤ -1 ∧ (-1 : Int) < 2147483648
    ∧ listGetAt "k".toList (-1) ⟨[], [("k".toList, ["a".toList, "b".toList])], [], []⟩
      = .ok (some "b".toList) :=
  ⟨by decide, by decide,
    ((C11_listGetAt ⟨[], [("k".toList, ["a".toList, "b".toList])], [], []⟩ "k".toList (-1)
      (by decide) (by decide)).1 ["a".toList, "b".toList] rfl (by decide)).2.1
      ⟨by decide, by decide⟩⟩

/-- C12: for a list `l` at `k`, `listSetAt(k, i, v)` succeeds exactly when
`listGetAt(k, i)` succeeds. On success the list at `k` has the same length, holds `v` at
the position `p` that `listGetAt(k, i)` read, is unchanged at every other position, and
`listGetAt(k, i)` now returns `v`; every other key and map is unchanged. On failure, and
on an absent key, the store is unchanged, and `LSET` then replies
`-ERR Index out of range\r\n`. -/
theorem C12_listSetAt (s : KVStore) (k v : Str) (i : Int) :
    (∀ l, UMap.find s.listData_ k = some l →
      ((∃ r, listGetAt k i s = .ok (some r)) ↔ (∃ s', listSetAt k i v s = .ok (true, s')))
      ∧ (∀ s', listSetAt k i v s = .ok (true, s') →
          ∃ p l', p < l.length ∧ listGetAt k i s = .ok (l.get? p)
            ∧ UMap.find s'.listData_ k = some l'
            ∧ l'.length = l.length ∧ l'.get? p = some v
            ∧ (∀ j, j ≠ p → l'.get? j = l.get? j)
            ∧ listGetAt k i s' = .ok (some v)
            ∧ (∀ k', k ≠ k' → UMap.find s'.listData_ k' = UMap.find s.listData_ k')
            ∧ s'.stringData_ = s.stringData_ ∧ s'.hashData_ = s.hashData_
            ∧ s'.expiryTimes_ = s.expiryTimes_)
      ∧ ((¬ ∃ s', listSetAt k i v s = .ok (true, s')) → listSetAt k i v s = .ok (false, s)))
    ∧ (UMap.find s.listData_ k = none → listSetAt k i v s = .ok (false, s))
    ∧ (∀ now text, stoi text = .ok i → listSetAt k i v s = .ok (false, s) →
        dispatch now ["LSET".toList, k, text, v] s
          = .ok ("-ERR Index out of range\r\n".toList, s)) := by
  refine ⟨?_, ?_, ?_⟩
  · intro l hl
    rw [listGetAt_eq s k l i hl, listSetAt_eq s k v l i hl]
    cases hr : resolveIndex l.length i with
    | none => simp
    | some p =>
      have hp := (resolveIndex_lt _ _ _ hr).2
      refine ⟨?_, ?_, ?_⟩
      · simp only [List.get?_eq_get hp]
        simp
      · intro s' hs'
        simp only [Except.ok.injEq, Prod.mk.injEq, true_and] at hs'
        subst hs'
        have hfind : UMap.find (UMap.assign s.listData_ k (l.set p.toNat v)) k
            = some (l.set p.toNat v) := UMap.find_assign_self _ _ _
        refine ⟨p.toNat, l.set p.toNat v, hp, rfl, hfind, by simp, ?_, ?_, ?_, ?_, rfl, rfl,
          rfl⟩
        · rw [List.get?_eq_getElem?, List.getElem?_set_self hp]
        · intro j hj
          rw [List.get?_eq_getElem?, List.get?_eq_getElem?, List.getElem?_set_ne (Ne.symm hj)]
        · rw [listGetAt_eq _ k (l.set p.toNat v) i hfind]
          simp only [List.length_set, hr]
          rw [List.get?_eq_getElem?, List.getElem?_set_self hp]
        · intro k' hk
          exact UMap.find_assign_ne _ _ _ _ hk
      · intro hno
        exact absurd ⟨_, rfl⟩ hno
  · intro hl
    simp [listSetAt, hl]
  · intro now text ht hg
    show cmdLset ["LSET".toList, k, text, v] s = _
    simp only [cmdLset, ht, hg]

/-- C12, witness: `LSET k -1 z` on the list `[a, b]`. -/
theorem C12_listSetAt_witness :
    UMap.find (⟨[], [("k".toList, ["a".toList, "b".toList])], [], []⟩ : KVStore).listData_
        "k".toList = some ["a".toList, "b".toList]
    ∧ ((∃ r, listGetAt "k".toList (-1)
          ⟨[], [("k".toList, ["a".toList, "b".toList])], [], []⟩ = .ok (some r))
      ↔ (∃ s', listSetAt "k".toList (-1) "z".toList
          ⟨[], [("k".toList, ["a".toList, "b".toList])], [], []⟩ = .ok (true, s'))) :=
  ⟨rfl,
    ((C12_listSetAt ⟨[], [("k".toList, ["a".toList, "b".toList])], [], []⟩ "k".toList
      "z".toList (-1)).1 ["a".toList, "b".toList] rfl).1⟩

/-! ## C13, C14: pushes and pops -/

theorem getList_listPushBack (k v : Str) (s : KVStore) :
    getList k (listPushBack k v s) = getList k s ++ [v] := by
  simp only [getList, listPushBack, UMap.find_assign_self]
  cases UMap.find s.listData_ k <;> rfl

theorem getList_listPushFront (k v : Str) (s : KVStore) :
    getList k (listPushFront k v s) = v :: getList k s := by
  simp only [getList, listPushFront, UMap.find_assign_self]
  cases UMap.find s.listData_ k <;> rfl

theorem getList_pushBackAll (k : Str) (vs : List Str) (s : KVStore) :
    getList k (pushBackAll k vs s) = getList k s ++ vs := by
  induction vs generalizing s with
  | nil => simp [pushBackAll]
  | cons v vs ih =>
    have := ih (listPushBack k v s)
    simp only [pushBackAll, List.foldl_cons] at this ⊢
    rw [this, getList_listPushBack]
    simp

theorem getList_pushFrontAll (k : Str) (vs : List Str) (s : KVStore) :
    getList k (pushFrontAll k vs s) = vs.reverse ++ getList k s := by
  induction vs generalizing s with
  | nil => simp [pushFrontAll]
  | cons v vs ih =>
    have := ih (listPushFront k v s)
    simp only [pushFrontAll, List.foldl_cons] at this ⊢
    rw [this, getList_listPushFront]
    simp

theorem find_of_getList_cons (k x : Str) (rest : List Str) (s : KVStore)
    (h : getList k s = x :: rest) : UMap.find s.listData_ k = some (x :: rest) := by
  unfold getList at h
  cases hf : UMap.find s.listData_ k with
  | none => simp [hf] at h
  | some items =>
    simp only [hf] at h
    rw [h]

theorem listPopFront_cons (k x : Str) (rest : List Str) (s : KVStore)
    (h : getList k s = x :: rest) :
    (listPopFront k s).1 = some x ∧ getList k (listPopFront k s).2 = rest := by
  have hf := find_of_getList_cons k x rest s h
  simp only [listPopFront, hf, getList, UMap.find_assign_self, and_self]

theorem listPopBack_snoc (k x : Str) (front : List Str) (s : KVStore)
    (h : getList k s = front ++ [x]) :
    (listPopBack k s).1 = some x ∧ getList k (listPopBack k s).2 = front := by
  obtain ⟨y, ys, hy⟩ : ∃ y ys, front ++ [x] = y :: ys := by
    cases front with
    | nil => exact ⟨x, [], rfl⟩
    | cons a as => exact ⟨a, as ++ [x], rfl⟩
  have hf := find_of_getList_cons k y ys s (h.trans hy)
  simp only [listPopBack, hf, getList, UMap.find_assign_self]
  constructor
  · congr 1
    simp only [← hy]
    simp
  · simp only [← hy]
    simp

theorem listPop_empty (k : Str) (s : KVStore) (h : getList k s = []) :
    listPopFront k s = (none, s) ∧ listPopBack k s = (none, s) := by
  unfold getList at h
  cases hf : UMap.find s.listData_ k with
  | none => simp [listPopFront, listPopBack, hf]
  | some items =>
    simp only [hf] at h
    subst h
    simp [listPopFront, listPopBack, hf]

theorem popFrontTimes_spec (k : Str) (ws l : List Str) (s : KVStore)
    (h : getList k s = ws ++ l) :
    (popFrontTimes k ws.length s).1 = ws.map some
    ∧ getList k (popFrontTimes k ws.length s).2 = l := by
  induction ws generalizing s with
  | nil => exact ⟨rfl, h⟩
  | cons w ws ih =>
    have hp := listPopFront_cons k w (ws ++ l) s h
    have := ih (listPopFront k s).2 hp.2
    simp only [List.length_cons, popFrontTimes, hp.1, this.1, this.2, List.map_cons, and_self]

theorem popBackTimes_spec (k : Str) (ws l : List Str) (s : KVStore)
    (h : getList k s = l ++ ws.reverse) :
    (popBackTimes k ws.length s).1 = ws.map some
    ∧ getList k (popBackTimes k ws.length s).2 = l := by
  induction ws generalizing s with
  | nil => exact ⟨rfl, by simpa using h⟩
  | cons w ws ih =>
    have h' : getList k s = (l ++ ws.reverse) ++ [w] := by
      rw [h]
      simp
    have hp := listPopBack_snoc k w (l ++ ws.reverse) s h'
    have := ih (listPopBack k s).2 hp.2
    simp only [List.length_cons, popBackTimes, hp.1, this.1, this.2, List.map_cons, and_self]

/-- C13: with `l` the list at `k` (empty when `k` has no list): after `listPushBack` of
`v1, ..., vn` in that order, `n` successive `listPopBack` calls all succeed, return
`vn, ..., v1` and leave the list equal to `l`; the same holds for `listPushFront` and
`listPopFront`; and a pop on an empty or absent list returns not-found and leaves the
store as it is. -/
theorem C13_push_then_pop (s : KVStore) (k : Str) (vs : List Str) :
    ((popBackTimes k vs.length (pushBackAll k vs s)).1 = vs.reverse.map some
      ∧ getList k (popBackTimes k vs.length (pushBackAll k vs s)).2 = getList k s)
    ∧ ((popFrontTimes k vs.length (pushFrontAll k vs s)).1 = vs.reverse.map some
      ∧ getList k (popFrontTimes k vs.length (pushFrontAll k vs s)).2 = getList k s)
    ∧ (getList k s = [] → listPopFront k s = (none, s) ∧ listPopBack k s = (none, s)) := by
  refine ⟨?_, ?_, listPop_empty k s⟩
  · have h := popBackTimes_spec k vs.reverse (getList k s) (pushBackAll k vs s)
      (by rw [getList_pushBackAll, List.reverse_reverse])
    rw [List.length_reverse] at h
    exact h
  · have h := popFrontTimes_spec k vs.reverse (getList k s) (pushFrontAll k vs s)
      (getList_pushFrontAll k vs s)
    rw [List.length_reverse] at h
    exact h

/-- C13, witness: a key without a list has the empty list, and a pop on it returns
not-found. -/
theorem C13_push_then_pop_witness :
    getList "k".toList KVStore.empty = []
    ∧ listPopFront "k".toList KVStore.empty = (none, KVStore.empty)
    ∧ (popBackTimes "k".toList 2
        (pushBackAll "k".toList ["a".toList, "b".toList]
          ⟨[], [("k".toList, ["x".toList])], [], []⟩)).1
      = [some "b".toList, some "a".toList] :=
  ⟨rfl, ((C13_push_then_pop KVStore.empty "k".toList []).2.2 rfl).1,
    (C13_push_then_pop ⟨[], [("k".toList, ["x".toList])], [], []⟩ "k".toList
      ["a".toList, "b".toList]).1.1⟩

theorem listSize_eq (k : Str) (s : KVStore) : listSize k s = (getList k s).length := by
  unfold listSize getList
  cases UMap.find s.listData_ k <;> rfl

theorem intReply_nat (n : Nat) : intReply (n : Int) = ':' :: natToString n ++ "\r\n".toList := by
  have : ¬ ((n : Int) < 0) := by omega
  simp only [intReply, to_string, this, if_false, Int.natAbs_ofNat]
  rfl

/-- C14: with `l` the list at `k` (empty when `k` has no list) and `m ≥ 1` values:
`LPUSH k v1 ... vm` leaves the list `[vm, ..., v1]` followed by `l`, `RPUSH k v1 ... vm`
leaves `l` followed by `[v1, ..., vm]`, each replies the integer `length(l) + m`, and
`LLEN k`, executed next, replies the same integer. -/
theorem C14_lpush_rpush (s : KVStore) (k v : Str) (vs : List Str) (now t : Int) :
    (dispatch now ("LPUSH".toList :: k :: v :: vs) s
        = .ok (':' :: natToString ((getList k s).length + (v :: vs).length) ++ "\r\n".toList,
            pushFrontAll k (v :: vs) s)
      ∧ getList k (pushFrontAll k (v :: vs) s) = (v :: vs).reverse ++ getList k s
      ∧ dispatch t ["LLEN".toList, k] (pushFrontAll k (v :: vs) s)
        = .ok (':' :: natToString ((getList k s).length + (v :: vs).length) ++ "\r\n".toList,
            pushFrontAll k (v :: vs) s))
    ∧ (dispatch now ("RPUSH".toList :: k :: v :: vs) s
        = .ok (':' :: natToString ((getList k s).length + (v :: vs).length) ++ "\r\n".toList,
            pushBackAll k (v :: vs) s)
      ∧ getList k (pushBackAll k (v :: vs) s) = getList k s ++ (v :: vs)
      ∧ dispatch t ["LLEN".toList, k] (pushBackAll k (v :: vs) s)
        = .ok (':' :: natToString ((getList k s).length + (v :: vs).length) ++ "\r\n".toList,
            pushBackAll k (v :: vs) s)) := by
  have hf := getList_pushFrontAll k (v :: vs) s
  have hb := getList_pushBackAll k (v :: vs) s
  have hlf : listSize k (pushFrontAll k (v :: vs) s)
      = (((getList k s).length + (v :: vs).length : Nat) : Int) := by
    rw [listSize_eq, hf]
    simp only [List.length_append, List.length_reverse]
    omega
  have hlb : listSize k (pushBackAll k (v :: vs) s)
      = (((getList k s).length + (v :: vs).length : Nat) : Int) := by
    rw [listSize_eq, hb]
    simp only [List.length_append]
  refine ⟨⟨?_, hf, ?_⟩, ⟨?_, hb, ?_⟩⟩
  · show Except.ok (cmdLpush ("LPUSH".toList :: k :: v :: vs) s) = _
    have : cmdLpush ("LPUSH".toList :: k :: v :: vs) s
        = (intReply (listSize k (pushFrontAll k (v :: vs) s)), pushFrontAll k (v :: vs) s) := rfl
    rw [this, hlf, intReply_nat]
  · show Except.ok (cmdLlen ["LLEN".toList, k] (pushFrontAll k (v :: vs) s)) = _
    have : cmdLlen ["LLEN".toList, k] (pushFrontAll k (v :: vs) s)
        = (intReply (listSize k (pushFrontAll k (v :: vs) s)), pushFrontAll k (v :: vs) s) := rfl
    rw [this, hlf, intReply_nat]
  · show Except.ok (cmdRpush ("RPUSH".toList :: k :: v :: vs) s) = _
    have : cmdRpush ("RPUSH".toList :: k :: v :: vs) s
        = (intReply (listSize k (pushBackAll k (v :: vs) s)), pushBackAll k (v :: vs) s) := rfl
    rw [this, hlb, intReply_nat]
  · show Except.ok (cmdLlen ["LLEN".toList, k] (pushBackAll k (v :: vs) s)) = _
    have : cmdLlen ["LLEN".toList, k] (pushBackAll k (v :: vs) s)
        = (intReply (listSize k (pushBackAll k (v :: vs) s)), pushBackAll k (v :: vs) s) := rfl
    rw [this, hlb, intReply_nat]

/-! ## C15: DEL -/

theorem contains_eq_true_iff {V : Type} (m : UMap V) (k : Str) :
    UMap.contains m k = true ↔ UMap.find m k ≠ none := by
  unfold UMap.contains
  cases UMap.find m k <;> simp

theorem getString_of_absent (t : Int) (k : Str) (s : KVStore)
    (h : UMap.find s.stringData_ k = none) :
    dispatch t ["GET".toList, k] s = .ok ("$-1\r\n".toList, cleanupExpired t s) := by
  show Except.ok (cmdGet t ["GET".toList, k] s) = _
  have hf := (cleanupExpired_find t k s).1
  rw [h] at hf
  simp only [ite_self] at hf
  simp only [cmdGet, getString, hf]
  rfl

theorem getKeyType_of_absent (t : Int) (k : Str) (s : KVStore)
    (h1 : UMap.find s.stringData_ k = none) (h2 : UMap.find s.listData_ k = none)
    (h3 : UMap.find s.hashData_ k = none) :
    dispatch t ["TYPE".toList, k] s = .ok ("+none\r\n".toList, cleanupExpired t s) := by
  show Except.ok (cmdType t ["TYPE".toList, k] s) = _
  obtain ⟨f1, f2, f3, _⟩ := cleanupExpired_find t k s
  rw [h1] at f1
  rw [h2] at f2
  rw [h3] at f3
  simp only [ite_self] at f1 f2 f3
  simp only [cmdType, getKeyType, UMap.contains, f1, f2, f3]
  rfl

/-- C15: `removeKey(k)` returns true exactly when `k` is in at least one of the three
value maps after the expiry sweep; afterwards `k` is in none of the three value maps and
has no expiry entry, `GET k` replies `$-1\r\n` and `TYPE k` replies `+none\r\n`; every
other key has the values and the expiry the sweep left it (those it had before the
call, when none of its expiry entries has passed); and `DEL` and `UNLINK` reply
`:1\r\n` when `removeKey` returns true and `:0\r\n` when it returns false. -/
theorem C15_removeKey (now t : Int) (k : Str) (s : KVStore) :
    ((removeKey now k s).1 = true ↔
      (UMap.find (cleanupExpired now s).stringData_ k ≠ none
        ∨ UMap.find (cleanupExpired now s).listData_ k ≠ none
        ∨ UMap.find (cleanupExpired now s).hashData_ k ≠ none))
    ∧ (UMap.find (removeKey now k s).2.stringData_ k = none
      ∧ UMap.find (removeKey now k s).2.listData_ k = none
      ∧ UMap.find (removeKey now k s).2.hashData_ k = none
      ∧ UMap.find (removeKey now k s).2.expiryTimes_ k = none)
    ∧ dispatch t ["GET".toList, k] (removeKey now k s).2
        = .ok ("$-1\r\n".toList, cleanupExpired t (removeKey now k s).2)
    ∧ dispatch t ["TYPE".toList, k] (removeKey now k s).2
        = .ok ("+none\r\n".toList, cleanupExpired t (removeKey now k s).2)
    ∧ (∀ k', k ≠ k' →
        UMap.find (removeKey now k s).2.stringData_ k'
          = UMap.find (cleanupExpired now s).stringData_ k'
        ∧ UMap.find (removeKey now k s).2.listData_ k'
          = UMap.find (cleanupExpired now s).listData_ k'
        ∧ UMap.find (removeKey now k s).2.hashData_ k'
          = UMap.find (cleanupExpired now s).hashData_ k'
        ∧ UMap.find (removeKey now k s).2.expiryTimes_ k'
          = UMap.find (cleanupExpired now s).expiryTimes_ k')
    ∧ (∀ k', k ≠ k' → (∀ t', (k', t') ∈ s.expiryTimes_ → now ≤ t') →
        UMap.find (removeKey now k s).2.stringData_ k' = UMap.find s.stringData_ k'
        ∧ UMap.find (removeKey now k s).2.listData_ k' = UMap.find s.listData_ k'
        ∧ UMap.find (removeKey now k s).2.hashData_ k' = UMap.find s.hashData_ k'
        ∧ UMap.find (removeKey now k s).2.expiryTimes_ k' = UMap.find s.expiryTimes_ k')
    ∧ dispatch now ["DEL".toList, k] s
        = .ok (if (removeKey now k s).1 then ":1\r\n".toList else ":0\r\n".toList,
            (removeKey now k s).2)
    ∧ dispatch now ["UNLINK".toList, k] s
        = .ok (if (removeKey now k s).1 then ":1\r\n".toList else ":0\r\n".toList,
            (removeKey now k s).2) := by
  have hgone : UMap.find (removeKey now k s).2.stringData_ k = none
      ∧ UMap.find (removeKey now k s).2.listData_ k = none
      ∧ UMap.find (removeKey now k s).2.hashData_ k = none
      ∧ UMap.find (removeKey now k s).2.expiryTimes_ k = none :=
    ⟨UMap.find_erase_self _ _, UMap.find_erase_self _ _, UMap.find_erase_self _ _,
      UMap.find_erase_self _ _⟩
  have hframe : ∀ k', k ≠ k' →
      UMap.find (removeKey now k s).2.stringData_ k'
        = UMap.find (cleanupExpired now s).stringData_ k'
      ∧ UMap.find (removeKey now k s).2.listData_ k'
        = UMap.find (cleanupExpired now s).listData_ k'
      ∧ UMap.find (removeKey now k s).2.hashData_ k'
        = UMap.find (cleanupExpired now s).hashData_ k'
      ∧ UMap.find (removeKey now k s).2.expiryTimes_ k'
        = UMap.find (cleanupExpired now s).expiryTimes_ k' :=
    fun k' hk => ⟨UMap.find_erase_ne _ _ _ hk, UMap.find_erase_ne _ _ _ hk,
      UMap.find_erase_ne _ _ _ hk, UMap.find_erase_ne _ _ _ hk⟩
  have hdel : cmdDel now ["DEL".toList, k] s
      = (if (removeKey now k s).1 then ":1\r\n".toList else ":0\r\n".toList,
          (removeKey now k s).2) := by
    simp only [cmdDel]
    cases (removeKey now k s).1 <;> rfl
  refine ⟨?_, hgone, getString_of_absent t k _ hgone.1,
    getKeyType_of_absent t k _ hgone.1 hgone.2.1 hgone.2.2.1, hframe, ?_, ?_, ?_⟩
  · simp only [removeKey, Bool.or_eq_true, contains_eq_true_iff, or_assoc]
  · intro k' hk hexp
    obtain ⟨f1, f2, f3, f4⟩ := hframe k' hk
    obtain ⟨c1, c2, c3, c4⟩ := cleanupExpired_find now k' s
    rw [expiredIn_eq_false now _ k' hexp] at c1 c2 c3 c4
    exact ⟨f1.trans c1, f2.trans c2, f3.trans c3, f4.trans c4⟩
  · show Except.ok (cmdDel now ["DEL".toList, k] s) = _
    rw [hdel]
  · show Except.ok (cmdDel now ["UNLINK".toList, k] s) = _
    have : cmdDel now ["UNLINK".toList, k] s = cmdDel now ["DEL".toList, k] s := rfl
    rw [this, hdel]

/-! ## C18: the expiry sweep -/

theorem mem_of_find {V : Type} (m : UMap V) (k : Str) (v : V) (h : UMap.find m k = some v) :
    (k, v) ∈ m := by
  induction m with
  | nil => simp [UMap.find] at h
  | cons e m ih =>
    obtain ⟨k0, v0⟩ := e
    by_cases hk : k0 = k
    · simp only [UMap.find, hk, if_true, Option.some.injEq] at h
      simp [hk, h]
    · simp only [UMap.find, hk, if_false] at h
      exact List.mem_cons_of_mem _ (ih h)

theorem not_mem_of_find_none {V : Type} (m : UMap V) (k : Str) (v : V)
    (h : UMap.find m k = none) : (k, v) ∉ m := by
  induction m with
  | nil => simp
  | cons e m ih =>
    obtain ⟨k0, v0⟩ := e
    by_cases hk : k0 = k
    · simp [UMap.find, hk] at h
    · simp only [UMap.find, hk, if_false] at h
      simp only [List.mem_cons, Prod.mk.injEq, not_or, not_and]
      exact ⟨fun e => absurd e.symm hk, ih h⟩

theorem eq_of_mem_of_find {V : Type} (m : UMap V) (k : Str) (v w : V)
    (hn : (UMap.keys m).Nodup) (h : UMap.find m k = some v) (hw : (k, w) ∈ m) : w = v := by
  induction m with
  | nil => simp at hw
  | cons e m ih =>
    obtain ⟨k0, v0⟩ := e
    simp only [UMap.keys, List.map_cons, List.nodup_cons] at hn
    by_cases hk : k0 = k
    · subst hk
      simp only [UMap.find, if_true, Option.some.injEq] at h
      rcases List.mem_cons.1 hw with hw | hw
      · simp only [Prod.mk.injEq, true_and] at hw
        rw [hw, h]
      · exact absurd (List.mem_map_of_mem Prod.fst hw) hn.1
    · simp only [UMap.find, hk, if_false] at h
      rcases List.mem_cons.1 hw with hw | hw
      · simp only [Prod.mk.injEq] at hw
        exact absurd hw.1.symm hk
      · exact ih hn.2 h hw

theorem expiredIn_of_mem (now : Int) (todo : UMap Int) (k : Str) (t : Int)
    (hm : (k, t) ∈ todo) (ht : t < now) : expiredIn now todo k = true := by
  simp only [expiredIn, List.any_eq_true]
  exact ⟨(k, t), hm, by simp [ht]⟩

/-- C18: `cleanupExpired` run at clock reading `now` removes from the three value maps
and from the expiry map every key whose expiry instant is strictly earlier than `now`,
and leaves every key none of whose expiry entries has passed (a key with no expiry
entry, or with its expiry instant at `now` or later) with its values and its expiry
entry unchanged. -/
theorem C18_cleanupExpired (now : Int) (k : Str) (s : KVStore) :
    (∀ t, UMap.find s.expiryTimes_ k = some t → t < now →
      UMap.find (cleanupExpired now s).stringData_ k = none
      ∧ UMap.find (cleanupExpired now s).listData_ k = none
      ∧ UMap.find (cleanupExpired now s).hashData_ k = none
      ∧ UMap.find (cleanupExpired now s).expiryTimes_ k = none)
    ∧ ((∀ t, (k, t) ∈ s.expiryTimes_ → now ≤ t) →
      UMap.find (cleanupExpired now s).stringData_ k = UMap.find s.stringData_ k
      ∧ UMap.find (cleanupExpired now s).listData_ k = UMap.find s.listData_ k
      ∧ UMap.find (cleanupExpired now s).hashData_ k = UMap.find s.hashData_ k
      ∧ UMap.find (cleanupExpired now s).expiryTimes_ k = UMap.find s.expiryTimes_ k)
    ∧ (UMap.find s.expiryTimes_ k = none → ∀ t, (k, t) ∈ s.expiryTimes_ → now ≤ t)
    ∧ ((UMap.keys s.expiryTimes_).Nodup → ∀ t0, UMap.find s.expiryTimes_ k = some t0 →
        now ≤ t0 → ∀ t, (k, t) ∈ s.expiryTimes_ → now ≤ t) := by
  obtain ⟨c1, c2, c3, c4⟩ := cleanupExpired_find now k s
  refine ⟨?_, ?_, ?_, ?_⟩
  · intro t hf ht
    have he := expiredIn_of_mem now _ k t (mem_of_find _ _ _ hf) ht
    rw [he] at c1 c2 c3 c4
    exact ⟨c1, c2, c3, c4⟩
  · intro h
    rw [expiredIn_eq_false now _ k h] at c1 c2 c3 c4
    exact ⟨c1, c2, c3, c4⟩
  · intro hf t hm
    exact absurd hm (not_mem_of_find_none _ _ _ hf)
  · intro hn t0 hf h0 t hm
    rw [eq_of_mem_of_find _ k t0 t hn hf hm]
    exact h0

/-- C18, witness: at clock reading 10, `a` (expiry 5) is purged, `b` (expiry 10) and
`c` (no expiry) are kept. -/
theorem C18_cleanupExpired_witness :
    UMap.find (⟨[("a".toList, "1".toList), ("b".toList, "2".toList), ("c".toList, "3".toList)],
        [], [], [("a".toList, 5), ("b".toList, 10)]⟩ : KVStore).expiryTimes_ "a".toList = some 5
    ∧ (5 : Int) < 10
    ∧ UMap.find (cleanupExpired 10
        ⟨[("a".toList, "1".toList), ("b".toList, "2".toList), ("c".toList, "3".toList)],
          [], [], [("a".toList, 5), ("b".toList, 10)]⟩).stringData_ "a".toList = none
    ∧ cleanupExpired 10
        ⟨[("a".toList, "1".toList), ("b".toList, "2".toList), ("c".toList, "3".toList)],
          [], [], [("a".toList, 5), ("b".toList, 10)]⟩
      = ⟨[("b".toList, "2".toList), ("c".toList, "3".toList)], [], [], [("b".toList, 10)]⟩ :=
  ⟨rfl, by decide,
    ((C18_cleanupExpired 10 "a".toList
      ⟨[("a".toList, "1".toList), ("b".toList, "2".toList), ("c".toList, "3".toList)],
        [], [], [("a".toList, 5), ("b".toList, 10)]⟩).1 5 rfl (by decide)).1, rfl⟩

/-! ## C19: numeric arguments -/

theorem stoi_no_digit (c : Char) (cs : Str) (h1 : isspace c = false) (h2 : c ≠ '-')
    (h3 : c ≠ '+') (h4 : isdigit c = false) : stoi (c :: cs) = .error .invalid_argument := by
  have hd : List.dropWhile isspace (c :: cs) = c :: cs := by
    simp [List.dropWhile_cons, h1]
  have ht : List.takeWhile isdigit (c :: cs) = [] := by
    simp [List.takeWhile_cons, h4]
  simp only [stoi, hd, List.head?_cons, Option.some.injEq, h2, h3, or_self, if_false, ht,
    if_true]

theorem stoi_number_then_text (n : Nat) (rest : Str) (hn : n ≤ 2147483647)
    (hr : rest = [] ∨ ∃ c r, rest = c :: r ∧ isdigit c = false) :
    stoi (natToString n ++ rest) = .ok (n : Int) := by
  obtain ⟨h1, h2, h3, _⟩ := natToString_spec n
  obtain ⟨c, cs, hcs⟩ := List.exists_cons_of_ne_nil h1
  have hc := isdigit_not_special c (h2 c (by rw [hcs]; exact List.mem_cons_self _ _))
  have hd : List.dropWhile isspace (natToString n ++ rest) = natToString n ++ rest := by
    rw [hcs]
    simp [List.dropWhile_cons, hc.1]
  have hhead : (natToString n ++ rest).head? = some c := by
    rw [hcs]
    rfl
  have ht := (takeWhile_dropWhile_append isdigit (natToString n) rest h2 hr).1
  have hnn : ¬ ((n : Int) < -2147483648 ∨ (n : Int) > 2147483647) := by omega
  simp only [stoi, hd, hhead, Option.some.injEq, hc.2.1, hc.2.2.1, or_self, if_false, ht, h1,
    h3, hnn]

/-- C19 (amended): for `EXPIRE`, `LINDEX`, `LSET` and `LREM` requests that have enough
arguments, whenever `std::stoi` cannot read the numeric argument the reply is the
parse-error reply of the command and the store is unchanged. `std::stoi` cannot read an
empty text, a text that starts with a byte that is neither white space, a sign nor a
digit, and a decimal number above `2^31 - 1`; it does read a number followed by other
characters. -/
theorem C19_parse_errors :
    (∀ (now : Int) (k text v : Str) (rest : List Str) (s : KVStore) (e : Fault),
      stoi text = .error e →
      dispatch now ("EXPIRE".toList :: k :: text :: rest) s
        = .ok ("-ERR Invalid expiration time\r\n".toList, s)
      ∧ dispatch now ("LINDEX".toList :: k :: text :: rest) s
        = .ok ("-ERR Invalid index\r\n".toList, s)
      ∧ dispatch now ("LSET".toList :: k :: text :: v :: rest) s
        = .ok ("-ERR Invalid index\r\n".toList, s)
      ∧ dispatch now ("LREM".toList :: k :: text :: v :: rest) s
        = .ok ("-ERR Invalid count\r\n".toList, s))
    ∧ stoi [] = .error .invalid_argument
    ∧ (∀ c cs, isspace c = false → c ≠ '-' → c ≠ '+' → isdigit c = false →
        stoi (c :: cs) = .error .invalid_argument)
    ∧ (∀ n : Nat, n > 2147483647 → stoi (natToString n) = .error .out_of_range)
    ∧ (∀ (n : Nat) (c : Char) (cs : Str), n ≤ 2147483647 → isdigit c = false →
        stoi (natToString n ++ c :: cs) = .ok (n : Int)) := by
  refine ⟨?_, rfl, stoi_no_digit, ?_, ?_⟩
  · intro now k text v rest s e he
    refine ⟨?_, ?_, ?_, ?_⟩
    · show Except.ok (cmdExpire now ("EXPIRE".toList :: k :: text :: rest) s) = _
      simp only [cmdExpire, he]
    · show cmdLindex ("LINDEX".toList :: k :: text :: rest) s = _
      simp only [cmdLindex, he]
    · show cmdLset ("LSET".toList :: k :: text :: v :: rest) s = _
      simp only [cmdLset, he]
    · show Except.ok (cmdLrem ("LREM".toList :: k :: text :: v :: rest) s) = _
      simp only [cmdLrem, he]
  · intro n hn
    rw [stoi_natToString]
    simp [hn]
  · intro n c cs hn hc
    exact stoi_number_then_text n (c :: cs) hn (Or.inr ⟨c, cs, rfl, hc⟩)

/-- C19, witness: `EXPIRE k abc`. -/
theorem C19_parse_errors_witness :
    stoi "abc".toList = .error .invalid_argument
    ∧ dispatch 0 ["EXPIRE".toList, "k".toList, "abc".toList]
        ⟨[("k".toList, "v".toList)], [], [], []⟩
      = .ok ("-ERR Invalid expiration time\r\n".toList,
          ⟨[("k".toList, "v".toList)], [], [], []⟩) :=
  ⟨rfl, (C19_parse_errors.1 0 "k".toList "abc".toList [] []
      ⟨[("k".toList, "v".toList)], [], [], []⟩ .invalid_argument rfl).1⟩

/-- C19, counterexample: the numeric argument is a number followed by other characters.
`EXPIRE k 10abc` replies `+OK\r\n` and sets the expiry ten seconds ahead,
`LINDEX l 0abc` replies the first element, `LSET l 0abc z` replies `+OK\r\n` and
writes `z`, and `LREM l 1abc a` replies `:1\r\n` and removes `a`. -/
theorem C19_counterexample :
    dispatch 0 ["EXPIRE".toList, "k".toList, "10abc".toList]
        ⟨[("k".toList, "v".toList)], [], [], []⟩
      = .ok ("+OK\r\n".toList, ⟨[("k".toList, "v".toList)], [], [], [("k".toList, 10000000000)]⟩)
    ∧ dispatch 0 ["LINDEX".toList, "l".toList, "0abc".toList]
        ⟨[], [("l".toList, ["a".toList])], [], []⟩
      = .ok ("$1\r\na\r\n".toList, ⟨[], [("l".toList, ["a".toList])], [], []⟩)
    ∧ dispatch 0 ["LSET".toList, "l".toList, "0abc".toList, "z".toList]
        ⟨[], [("l".toList, ["a".toList])], [], []⟩
      = .ok ("+OK\r\n".toList, ⟨[], [("l".toList, ["z".toList])], [], []⟩)
    ∧ dispatch 0 ["LREM".toList, "l".toList, "1abc".toList, "a".toList]
        ⟨[], [("l".toList, ["a".toList])], [], []⟩
      = .ok (":1\r\n".toList, ⟨[], [("l".toList, [])], [], []⟩) :=
  ⟨rfl, rfl, rfl, rfl⟩

/-! ## C20: arity errors -/

theorem arity_ECHO (now : Int) (name : Str) (rest : List Str) (s : KVStore)
    (h : name.map toupper = "ECHO".toList) (hl : (name :: rest).length < 2) :
    ∃ msg, dispatch now (name :: rest) s
      = .ok ("-ERR ".toList ++ errorName (name.map toupper) ++ ' ' :: msg, s) := by
  refine ⟨"requires a message\r\n".toList, ?_⟩
  simp only [dispatch, h]
  rcases rest with _ | ⟨a, _ | ⟨b, _ | ⟨c, rest⟩⟩⟩ <;>
    first
    | rfl
    | (exfalso; simp only [List.length_cons, List.length_nil] at hl; omega)

theorem arity_SET (now : Int) (name : Str) (rest : List Str) (s : KVStore)
    (h : name.map toupper = "SET".toList) (hl : (name :: rest).length < 3) :
    ∃ msg, dispatch now (name :: rest) s
      = .ok ("-ERR ".toList ++ errorName (name.map toupper) ++ ' ' :: msg, s) := by
  refine ⟨"requires key and value\r\n".toList, ?_⟩
  simp only [dispatch, h]
  rcases rest with _ | ⟨a, _ | ⟨b, _ | ⟨c, rest⟩⟩⟩ <;>
    first
    | rfl
    | (exfalso; simp only [List.length_cons, List.length_nil] at hl; omega)

theorem arity_GET (now : Int) (name : Str) (rest : List Str) (s : KVStore)
    (h : name.map toupper = "GET".toList) (hl : (name :: rest).length < 2) :
    ∃ msg, dispatch now (name :: rest) s
      = .ok ("-ERR ".toList ++ errorName (name.map toupper) ++ ' ' :: msg, s) := by
  refine ⟨"requires key\r\n".toList, ?_⟩
  simp only [dispatch, h]
  rcases rest with _ | ⟨a, _ | ⟨b, _ | ⟨c, rest⟩⟩⟩ <;>
    first
    | rfl
    | (exfalso; simp only [List.length_cons, List.length_nil] at hl; omega)

theorem arity_TYPE (now : Int) (name : Str) (rest : List Str) (s : KVStore)
    (h : name.map toupper = "TYPE".toList) (hl : (name :: rest).length < 2) :
    ∃ msg, dispatch now (name :: rest) s
      = .ok ("-ERR ".toList ++ errorName (name.map toupper) ++ ' ' :: msg, s) := by
  refine ⟨"requires key\r\n".toList, ?_⟩
  simp only [dispatch, h]
  rcases rest with _ | ⟨a, _ | ⟨b, _ | ⟨c, rest⟩⟩⟩ <;>
    first
    | rfl
    | (exfalso; simp only [List.length_cons, List.length_nil] at hl; omega)

theorem arity_DEL (now : Int) (name : Str) (rest : List Str) (s : KVStore)
    (h : name.map toupper = "DEL".toList) (hl : (name :: rest).length < 2) :
    ∃ msg, dispatch now (name :: rest) s
      = .ok ("-ERR ".toList ++ errorName (name.map toupper) ++ ' ' :: msg, s) := by
  refine ⟨"requires key\r\n".toList, ?_⟩
  simp only [dispatch, h]
  rcases rest with _ | ⟨a, _ | ⟨b, _ | ⟨c, rest⟩⟩⟩ <;>
    first
    | rfl
    | (exfalso; simp only [List.length_cons, List.length_nil] at hl; omega)

theorem arity_UNLINK (now : Int) (name : Str) (rest : List Str) (s : KVStore)
    (h : name.map toupper = "UNLINK".toList) (hl : (name :: rest).length < 2) :
    ∃ msg, dispatch now (name :: rest) s
      = .ok ("-ERR ".toList ++ errorName (name.map toupper) ++ ' ' :: msg, s) := by
  refine ⟨"requires key\r\n".toList, ?_⟩
  simp only [dispatch, h]
  rcases rest with _ | ⟨a, _ | ⟨b, _ | ⟨c, rest⟩⟩⟩ <;>
    first
    | rfl
    | (exfalso; simp only [List.length_cons, List.length_nil] at hl; omega)

theorem arity_EXPIRE (now : Int) (name : Str) (rest : List Str) (s : KVStore)
    (h : name.map toupper = "EXPIRE".toList) (hl : (name :: rest).length < 3) :
    ∃ msg, dispatch now (name :: rest) s
      = .ok ("-ERR ".toList ++ errorName (name.map toupper) ++ ' ' :: msg, s) := by
  refine ⟨"requires key and seconds\r\n".toList, ?_⟩
  simp only [dispatch, h]
  rcases rest with _ | ⟨a, _ | ⟨b, _ | ⟨c, rest⟩⟩⟩ <;>
    first
    | rfl
    | (exfalso; simp only [List.length_cons, List.length_nil] at hl; omega)

theorem arity_RENAME (now : Int) (name : Str) (rest : List Str) (s : KVStore)
    (h : name.map toupper = "RENAME".toList) (hl : (name :: rest).length < 3) :
    ∃ msg, dispatch now (name :: rest) s
      = .ok ("-ERR ".toList ++ errorName (name.map toupper) ++ ' ' :: msg, s) := by
  refine ⟨"requires old key and new key\r\n".toList, ?_⟩
  simp only [dispatch, h]
  rcases rest with _ | ⟨a, _ | ⟨b, _ | ⟨c, rest⟩⟩⟩ <;>
    first
    | rfl
    | (exfalso; simp only [List.length_cons, List.length_nil] at hl; omega)

theorem arity_LGET (now : Int) (name : Str) (rest : List Str) (s : KVStore)
    (h : name.map toupper = "LGET".toList) (hl : (name :: rest).length < 2) :
    ∃ msg, dispatch now (name :: rest) s
      = .ok ("-ERR ".toList ++ errorName (name.map toupper) ++ ' ' :: msg, s) := by
  refine ⟨"requires a key\r\n".toList, ?_⟩
  simp only [dispatch, h]
  rcases rest with _ | ⟨a, _ | ⟨b, _ | ⟨c, rest⟩⟩⟩ <;>
    first
    | rfl
    | (exfalso; simp only [List.length_cons, List.length_nil] at hl; omega)

theorem arity_LLEN (now : Int) (name : Str) (rest : List Str) (s : KVStore)
    (h : name.map toupper = "LLEN".toList) (hl : (name :: rest).length < 2) :
    ∃ msg, dispatch now (name :: rest) s
      = .ok ("-ERR ".toList ++ errorName (name.map toupper) ++ ' ' :: msg, s) := by
  refine ⟨"requires key\r\n".toList, ?_⟩
  simp only [dispatch, h]
  rcases rest with _ | ⟨a, _ | ⟨b, _ | ⟨c, rest⟩⟩⟩ <;>
    first
    | rfl
    | (exfalso; simp only [List.length_cons, List.length_nil] at hl; omega)

theorem arity_LPUSH (now : Int) (name : Str) (rest : List Str) (s : KVStore)
    (h : name.map toupper = "LPUSH".toList) (hl : (name :: rest).length < 3) :
    ∃ msg, dispatch now (name :: rest) s
      = .ok ("-ERR ".toList ++ errorName (name.map toupper) ++ ' ' :: msg, s) := by
  refine ⟨"requires key and value\r\n".toList, ?_⟩
  simp only [dispatch, h]
  rcases rest with _ | ⟨a, _ | ⟨b, _ | ⟨c, rest⟩⟩⟩ <;>
    first
    | rfl
    | (exfalso; simp only [List.length_cons, List.length_nil] at hl; omega)

theorem arity_RPUSH (now : Int) (name : Str) (rest : List Str) (s : KVStore)
    (h : name.map toupper = "RPUSH".toList) (hl : (name :: rest).length < 3) :
    ∃ msg, dispatch now (name :: rest) s
      = .ok ("-ERR ".toList ++ errorName (name.map toupper) ++ ' ' :: msg, s) := by
  refine ⟨"requires key and value\r\n".toList, ?_⟩
  simp only [dispatch, h]
  rcases rest with _ | ⟨a, _ | ⟨b, _ | ⟨c, rest⟩⟩⟩ <;>
    first
    | rfl
    | (exfalso; simp only [List.length_cons, List.length_nil] at hl; omega)

theorem arity_LPOP (now : Int) (name : Str) (rest : List Str) (s : KVStore)
    (h : name.map toupper = "LPOP".toList) (hl : (name :: rest).length < 2) :
    ∃ msg, dispatch now (name :: rest) s
      = .ok ("-ERR ".toList ++ errorName (name.map toupper) ++ ' ' :: msg, s) := by
  refine ⟨"requires key\r\n".toList, ?_⟩
  simp only [dispatch, h]
  rcases rest with _ | ⟨a, _ | ⟨b, _ | ⟨c, rest⟩⟩⟩ <;>
    first
    | rfl
    | (exfalso; simp only [List.length_cons, List.length_nil] at hl; omega)

theorem arity_RPOP (now : Int) (name : Str) (rest : List Str) (s : KVStore)
    (h : name.map toupper = "RPOP".toList) (hl : (name :: rest).length < 2) :
    ∃ msg, dispatch now (name :: rest) s
      = .ok ("-ERR ".toList ++ errorName (name.map toupper) ++ ' ' :: msg, s) := by
  refine ⟨"requires key\r\n".toList, ?_⟩
  simp only [dispatch, h]
  rcases rest with _ | ⟨a, _ | ⟨b, _ | ⟨c, rest⟩⟩⟩ <;>
    first
    | rfl
    | (exfalso; simp only [List.length_cons, List.length_nil] at hl; omega)

theorem arity_LREM (now : Int) (name : Str) (rest : List Str) (s : KVStore)
    (h : name.map toupper = "LREM".toList) (hl : (name :: rest).length < 4) :
    ∃ msg, dispatch now (name :: rest) s
      = .ok ("-ERR ".toList ++ errorName (name.map toupper) ++ ' ' :: msg, s) := by
  refine ⟨"requires key, count and value\r\n".toList, ?_⟩
  simp only [dispatch, h]
  rcases rest with _ | ⟨a, _ | ⟨b, _ | ⟨c, rest⟩⟩⟩ <;>
    first
    | rfl
    | (exfalso; simp only [List.length_cons, List.length_nil] at hl; omega)

theorem arity_LINDEX (now : Int) (name : Str) (rest : List Str) (s : KVStore)
    (h : name.map toupper = "LINDEX".toList) (hl : (name :: rest).length < 3) :
    ∃ msg, dispatch now (name :: rest) s
      = .ok ("-ERR ".toList ++ errorName (name.map toupper) ++ ' ' :: msg, s) := by
  refine ⟨"requires key and index\r\n".toList, ?_⟩
  simp only [dispatch, h]
  rcases rest with _ | ⟨a, _ | ⟨b, _ | ⟨c, rest⟩⟩⟩ <;>
    first
    | rfl
    | (exfalso; simp only [List.length_cons, List.length_nil] at hl; omega)

theorem arity_LSET (now : Int) (name : Str) (rest : List Str) (s : KVStore)
    (h : name.map toupper = "LSET".toList) (hl : (name :: rest).length < 4) :
    ∃ msg, dispatch now (name :: rest) s
      = .ok ("-ERR ".toList ++ errorName (name.map toupper) ++ ' ' :: msg, s) := by
  refine ⟨"requires key, index and value\r\n".toList, ?_⟩
  simp only [dispatch, h]
  rcases rest with _ | ⟨a, _ | ⟨b, _ | ⟨c, rest⟩⟩⟩ <;>
    first
    | rfl
    | (exfalso; simp only [List.length_cons, List.length_nil] at hl; omega)

theorem arity_HSET (now : Int) (name : Str) (rest : List Str) (s : KVStore)
    (h : name.map toupper = "HSET".toList) (hl : (name :: rest).length < 4) :
    ∃ msg, dispatch now (name :: rest) s
      = .ok ("-ERR ".toList ++ errorName (name.map toupper) ++ ' ' :: msg, s) := by
  refine ⟨"requires key, field and value\r\n".toList, ?_⟩
  simp only [dispatch, h]
  rcases rest with _ | ⟨a, _ | ⟨b, _ | ⟨c, rest⟩⟩⟩ <;>
    first
    | rfl
    | (exfalso; simp only [List.length_cons, List.length_nil] at hl; omega)

theorem arity_HGET (now : Int) (name : Str) (rest : List Str) (s : KVStore)
    (h : name.map toupper = "HGET".toList) (hl : (name :: rest).length < 3) :
    ∃ msg, dispatch now (name :: rest) s
      = .ok ("-ERR ".toList ++ errorName (name.map toupper) ++ ' ' :: msg, s) := by
  refine ⟨"requires key and field\r\n".toList, ?_⟩
  simp only [dispatch, h]
  rcases rest with _ | ⟨a, _ | ⟨b, _ | ⟨c, rest⟩⟩⟩ <;>
    first
    | rfl
    | (exfalso; simp only [List.length_cons, List.length_nil] at hl; omega)

theorem arity_HEXISTS (now : Int) (name : Str) (rest : List Str) (s : KVStore)
    (h : name.map toupper = "HEXISTS".toList) (hl : (name :: rest).length < 3) :
    ∃ msg, dispatch now (name :: rest) s
      = .ok ("-ERR ".toList ++ errorName (name.map toupper) ++ ' ' :: msg, s) := by
  refine ⟨"requires key and field\r\n".toList, ?_⟩
  simp only [dispatch, h]
  rcases rest with _ | ⟨a, _ | ⟨b, _ | ⟨c, rest⟩⟩⟩ <;>
    first
    | rfl
    | (exfalso; simp only [List.length_cons, List.length_nil] at hl; omega)

theorem arity_HDEL (now : Int) (name : Str) (rest : List Str) (s : KVStore)
    (h : name.map toupper = "HDEL".toList) (hl : (name :: rest).length < 3) :
    ∃ msg, dispatch now (name :: rest) s
      = .ok ("-ERR ".toList ++ errorName (name.map toupper) ++ ' ' :: msg, s) := by
  refine ⟨"requires key and field\r\n".toList, ?_⟩
  simp only [dispatch, h]
  rcases rest with _ | ⟨a, _ | ⟨b, _ | ⟨c, rest⟩⟩⟩ <;>
    first
    | rfl
    | (exfalso; simp only [List.length_cons, List.length_nil] at hl; omega)

theorem arity_HGETALL (now : Int) (name : Str) (rest : List Str) (s : KVStore)
    (h : name.map toupper = "HGETALL".toList) (hl : (name :: rest).length < 2) :
    ∃ msg, dispatch now (name :: rest) s
      = .ok ("-ERR ".toList ++ errorName (name.map toupper) ++ ' ' :: msg, s) := by
  refine ⟨"requires key\r\n".toList, ?_⟩
  simp only [dispatch, h]
  rcases rest with _ | ⟨a, _ | ⟨b, _ | ⟨c, rest⟩⟩⟩ <;>
    first
    | rfl
    | (exfalso; simp only [List.length_cons, List.length_nil] at hl; omega)

theorem arity_HKEYS (now : Int) (name : Str) (rest : List Str) (s : KVStore)
    (h : name.map toupper = "HKEYS".toList) (hl : (name :: rest).length < 2) :
    ∃ msg, dispatch now (name :: rest) s
      = .ok ("-ERR ".toList ++ errorName (name.map toupper) ++ ' ' :: msg, s) := by
  refine ⟨"requires key\r\n".toList, ?_⟩
  simp only [dispatch, h]
  rcases rest with _ | ⟨a, _ | ⟨b, _ | ⟨c, rest⟩⟩⟩ <;>
    first
    | rfl
    | (exfalso; simp only [List.length_cons, List.length_nil] at hl; omega)

theorem arity_HVALS (now : Int) (name : Str) (rest : List Str) (s : KVStore)
    (h : name.map toupper = "HVALS".toList) (hl : (name :: rest).length < 2) :
    ∃ msg, dispatch now (name :: rest) s
      = .ok ("-ERR ".toList ++ errorName (name.map toupper) ++ ' ' :: msg, s) := by
  refine ⟨"requires key\r\n".toList, ?_⟩
  simp only [dispatch, h]
  rcases rest with _ | ⟨a, _ | ⟨b, _ | ⟨c, rest⟩⟩⟩ <;>
    first
    | rfl
    | (exfalso; simp only [List.length_cons, List.length_nil] at hl; omega)

theorem arity_HLEN (now : Int) (name : Str) (rest : List Str) (s : KVStore)
    (h : name.map toupper = "HLEN".toList) (hl : (name :: rest).length < 2) :
    ∃ msg, dispatch now (name :: rest) s
      = .ok ("-ERR ".toList ++ errorName (name.map toupper) ++ ' ' :: msg, s) := by
  refine ⟨"requires key\r\n".toList, ?_⟩
  simp only [dispatch, h]
  rcases rest with _ | ⟨a, _ | ⟨b, _ | ⟨c, rest⟩⟩⟩ <;>
    first
    | rfl
    | (exfalso; simp only [List.length_cons, List.length_nil] at hl; omega)

theorem arity_HMSET (now : Int) (name : Str) (rest : List Str) (s : KVStore)
    (h : name.map toupper = "HMSET".toList) (hl : (name :: rest).length < 4) :
    ∃ msg, dispatch now (name :: rest) s
      = .ok ("-ERR ".toList ++ errorName (name.map toupper) ++ ' ' :: msg, s) := by
  refine ⟨"requires key followed by field value pairs\r\n".toList, ?_⟩
  simp only [dispatch, h]
  rcases rest with _ | ⟨a, _ | ⟨b, _ | ⟨c, rest⟩⟩⟩ <;>
    first
    | rfl
    | (exfalso; simp only [List.length_cons, List.length_nil] at hl; omega)

theorem hmset_odd (now : Int) (name key : Str) (fvs : List Str) (s : KVStore)
    (h : name.map toupper = "HMSET".toList) (hodd : fvs.length = 0 ∨ fvs.length % 2 = 1) :
    ∃ msg, dispatch now (name :: key :: fvs) s
      = .ok ("-ERR ".toList ++ errorName (name.map toupper) ++ ' ' :: msg, s) := by
  refine ⟨"requires key followed by field value pairs\r\n".toList, ?_⟩
  have hc : (name :: key :: fvs).length < 4 ∨ (name :: key :: fvs).length % 2 = 1 := by
    simp only [List.length_cons]
    omega
  have hd : dispatch now (name :: key :: fvs) s = .ok (cmdHmset (name :: key :: fvs) s) := by
    simp only [dispatch, h]
    rfl
  rw [hd, cmdHmset, if_pos hc]
  simp only [h]
  rfl

/-- C20: when the uppercased first token names a command and the list has fewer tokens
than the minimum of that command (for `HMSET` also when the tokens after the key are
none or an odd number), `execute` returns one reply, which begins with `-ERR ` followed
by the command name (`DEL` for its alias `UNLINK`), and leaves the store unchanged; no
fault is raised. -/
theorem C20_arity_errors (now : Int) (name : Str) (rest : List Str) (s : KVStore) (n : Nat)
    (hn : minTokens (name.map toupper) = some n)
    (hshort : (name :: rest).length < n
      ∨ (name.map toupper = "HMSET".toList
          ∧ ∃ key fvs, rest = key :: fvs ∧ (fvs.length = 0 ∨ fvs.length % 2 = 1))) :
    ∃ msg, dispatch now (name :: rest) s
      = .ok ("-ERR ".toList ++ errorName (name.map toupper) ++ ' ' :: msg, s) := by
  rcases hshort with hl | ⟨hm, key, fvs, rfl, hodd⟩
  · unfold minTokens at hn
    split_ifs at hn with h1 h2 h3 h4
    · cases hn
      simp only [List.length_cons] at hl
      omega
    · cases hn
      simp only [List.mem_cons, List.mem_singleton, List.not_mem_nil, or_false] at h2
      rcases h2 with h | h | h | h | h | h | h | h | h | h | h | h | h
      · exact arity_ECHO now name rest s h hl
      · exact arity_GET now name rest s h hl
      · exact arity_TYPE now name rest s h hl
      · exact arity_DEL now name rest s h hl
      · exact arity_UNLINK now name rest s h hl
      · exact arity_LGET now name rest s h hl
      · exact arity_LLEN now name rest s h hl
      · exact arity_LPOP now name rest s h hl
      · exact arity_RPOP now name rest s h hl
      · exact arity_HGETALL now name rest s h hl
      · exact arity_HKEYS now name rest s h hl
      · exact arity_HVALS now name rest s h hl
      · exact arity_HLEN now name rest s h hl
    · cases hn
      simp only [List.mem_cons, List.mem_singleton, List.not_mem_nil, or_false] at h3
      rcases h3 with h | h | h | h | h | h | h | h | h
      · exact arity_SET now name rest s h hl
      · exact arity_EXPIRE now name rest s h hl
      · exact arity_RENAME now name rest s h hl
      · exact arity_LPUSH now name rest s h hl
      · exact arity_RPUSH now name rest s h hl
      · exact arity_LINDEX now name rest s h hl
      · exact arity_HGET now name rest s h hl
      · exact arity_HEXISTS now name rest s h hl
      · exact arity_HDEL now name rest s h hl
    · cases hn
      simp only [List.mem_cons, List.mem_singleton, List.not_mem_nil, or_false] at h4
      rcases h4 with h | h | h | h
      · exact arity_LREM now name rest s h hl
      · exact arity_LSET now name rest s h hl
      · exact arity_HSET now name rest s h hl
      · exact arity_HMSET now name rest s h hl
  · exact hmset_odd now name key fvs s hm hodd

/-- C20, witness: the request `get` alone. -/
theorem C20_arity_errors_witness :
    minTokens ("get".toList.map toupper) = some 2
    ∧ ["get".toList].length < 2
    ∧ ∃ msg, dispatch 0 ["get".toList] KVStore.empty
      = .ok ("-ERR ".toList ++ "GET".toList ++ ' ' :: msg, KVStore.empty) :=
  ⟨rfl, by decide,
    C20_arity_errors 0 "get".toList [] KVStore.empty 2 rfl (Or.inl (by decide))⟩

/-! ## The effect of a command on the store -/

theorem cmdGet_effect (now : Int) (args : List Str) (s : KVStore) :
    CommandEffect now args s (cmdGet now args s).2 := by
  unfold cmdGet
  split
  · rename_i key _
    simp only [getString]
    cases UMap.find (cleanupExpired now s).stringData_ key <;> exact .sweep
  · exact .same

theorem cmdType_effect (now : Int) (args : List Str) (s : KVStore) :
    CommandEffect now args s (cmdType now args s).2 := by
  unfold cmdType
  split
  · exact .sweep
  · exact .same

theorem cmdSet_effect (now : Int) (name : Str) (rest : List Str) (s : KVStore)
    (h : name.map toupper = "SET".toList) :
    CommandEffect now (name :: rest) s (cmdSet (name :: rest) s).2 := by
  rcases rest with _ | ⟨k, _ | ⟨v, rest⟩⟩
  · exact .same
  · exact .same
  · exact .set name k v rest rfl h

theorem cmdDel_effect (now : Int) (args : List Str) (s : KVStore) :
    CommandEffect now args s (cmdDel now args s).2 := by
  unfold cmdDel
  split
  · exact .del _
  · exact .same

theorem cmdExpire_effect (now : Int) (args : List Str) (s : KVStore) :
    CommandEffect now args s (cmdExpire now args s).2 := by
  unfold cmdExpire
  split
  · rename_i key secs _
    cases stoi secs with
    | error e => exact .same
    | ok ttl =>
      simp only []
      split <;> exact .expire key ttl
  · exact .same

theorem cmdRename_effect (now : Int) (name : Str) (rest : List Str) (s : KVStore)
    (h : name.map toupper = "RENAME".toList) :
    CommandEffect now (name :: rest) s (cmdRename now (name :: rest) s).2 := by
  rcases rest with _ | ⟨o, _ | ⟨n, rest⟩⟩
  · exact .same
  · exact .same
  · simp only [cmdRename]
    split <;> exact .rename name o n rest rfl h

theorem cmdLpush_effect (now : Int) (name : Str) (rest : List Str) (s : KVStore)
    (h : name.map toupper = "LPUSH".toList) :
    CommandEffect now (name :: rest) s (cmdLpush (name :: rest) s).2 := by
  rcases rest with _ | ⟨k, _ | ⟨v, vs⟩⟩
  · exact .same
  · exact .same
  · exact .lpush name k (v :: vs) rfl h

theorem cmdRpush_effect (now : Int) (name : Str) (rest : List Str) (s : KVStore)
    (h : name.map toupper = "RPUSH".toList) :
    CommandEffect now (name :: rest) s (cmdRpush (name :: rest) s).2 := by
  rcases rest with _ | ⟨k, _ | ⟨v, vs⟩⟩
  · exact .same
  · exact .same
  · exact .rpush name k (v :: vs) rfl h

theorem cmdLpop_effect (now : Int) (args : List Str) (s : KVStore) :
    CommandEffect now args s (cmdLpop args s).2 := by
  rcases args with _ | ⟨n, _ | ⟨key, rest⟩⟩
  · exact .same
  · exact .same
  · have h := @CommandEffect.lpop now (n :: key :: rest) s key
    simp only [cmdLpop]
    revert h
    cases listPopFront key s with
    | mk r s1 => cases r <;> exact fun h => h

theorem cmdRpop_effect (now : Int) (args : List Str) (s : KVStore) :
    CommandEffect now args s (cmdRpop args s).2 := by
  rcases args with _ | ⟨n, _ | ⟨key, rest⟩⟩
  · exact .same
  · exact .same
  · have h := @CommandEffect.rpop now (n :: key :: rest) s key
    simp only [cmdRpop]
    revert h
    cases listPopBack key s with
    | mk r s1 => cases r <;> exact fun h => h

theorem cmdLrem_effect (now : Int) (args : List Str) (s : KVStore) :
    CommandEffect now args s (cmdLrem args s).2 := by
  unfold cmdLrem
  split
  · rename_i key cnt val _
    cases stoi cnt with
    | error e => exact .same
    | ok count => exact .lrem key count val
  · exact .same

theorem cmdLindex_effect (now : Int) (args : List Str) (s : KVStore) (r : Str)
    (s' : KVStore) (h : cmdLindex args s = .ok (r, s')) : CommandEffect now args s s' := by
  unfold cmdLindex at h
  split at h
  · rename_i key index _
    cases hs : stoi index with
    | error e =>
      simp only [hs, Except.ok.injEq, Prod.mk.injEq] at h
      rw [← h.2]
      exact .same
    | ok idx =>
      simp only [hs] at h
      cases hg : listGetAt key idx s with
      | error e => simp [hg] at h
      | ok o =>
        cases o <;>
        · simp only [hg, Except.ok.injEq, Prod.mk.injEq] at h
          rw [← h.2]
          exact .same
  · simp only [Except.ok.injEq, Prod.mk.injEq] at h
    rw [← h.2]
    exact .same

theorem cmdLset_effect (now : Int) (args : List Str) (s : KVStore) (r : Str)
    (s' : KVStore) (h : cmdLset args s = .ok (r, s')) : CommandEffect now args s s' := by
  unfold cmdLset at h
  split at h
  · rename_i key index val _
    cases hs : stoi index with
    | error e =>
      simp only [hs, Except.ok.injEq, Prod.mk.injEq] at h
      rw [← h.2]
      exact .same
    | ok idx =>
      simp only [hs] at h
      cases hg : listSetAt key idx val s with
      | error e => simp [hg] at h
      | ok o =>
        obtain ⟨b, s1⟩ := o
        cases b <;>
        · simp only [hg, Except.ok.injEq, Prod.mk.injEq] at h
          rw [← h.2]
          exact .lset key idx val _ s1 hg
  · simp only [Except.ok.injEq, Prod.mk.injEq] at h
    rw [← h.2]
    exact .same

theorem cmdHset_effect (now : Int) (name : Str) (rest : List Str) (s : KVStore)
    (h : name.map toupper = "HSET".toList) :
    CommandEffect now (name :: rest) s (cmdHset (name :: rest) s).2 := by
  rcases rest with _ | ⟨k, _ | ⟨f, _ | ⟨v, rest⟩⟩⟩
  · exact .same
  · exact .same
  · exact .same
  · exact .hset name k f v rest rfl h

theorem cmdHget_effect (now : Int) (args : List Str) (s : KVStore) :
    CommandEffect now args s (cmdHget args s).2 := by
  unfold cmdHget
  split
  · split <;> exact .same
  · exact .same

theorem cmdHdel_effect (now : Int) (args : List Str) (s : KVStore) :
    CommandEffect now args s (cmdHdel args s).2 := by
  unfold cmdHdel
  split
  · exact .hdel _ _
  · exact .same

theorem cmdHmset_effect (now : Int) (name : Str) (rest : List Str) (s : KVStore)
    (h : name.map toupper = "HMSET".toList) :
    CommandEffect now (name :: rest) s (cmdHmset (name :: rest) s).2 := by
  unfold cmdHmset
  split
  · exact .same
  · rcases rest with _ | ⟨k, rest⟩
    · exact .same
    · exact .hmset name k rest rfl h

theorem cmdPing_effect (now : Int) (args : List Str) (s : KVStore) :
    CommandEffect now args s (cmdPing args s).2 := by
  exact .same

theorem cmdEcho_effect (now : Int) (args : List Str) (s : KVStore) :
    CommandEffect now args s (cmdEcho args s).2 := by
  unfold cmdEcho
  split <;> exact .same

theorem cmdFlushAll_effect (now : Int) (args : List Str) (s : KVStore) :
    CommandEffect now args s (cmdFlushAll args s).2 := by
  exact .clear

theorem cmdKeys_effect (now : Int) (args : List Str) (s : KVStore) :
    CommandEffect now args s (cmdKeys now args s).2 := by
  exact .sweep

theorem cmdLget_effect (now : Int) (args : List Str) (s : KVStore) :
    CommandEffect now args s (cmdLget args s).2 := by
  unfold cmdLget
  split <;> exact .same

theorem cmdLlen_effect (now : Int) (args : List Str) (s : KVStore) :
    CommandEffect now args s (cmdLlen args s).2 := by
  unfold cmdLlen
  split <;> exact .same

theorem cmdHexists_effect (now : Int) (args : List Str) (s : KVStore) :
    CommandEffect now args s (cmdHexists args s).2 := by
  unfold cmdHexists
  split <;> exact .same

theorem cmdHgetall_effect (now : Int) (args : List Str) (s : KVStore) :
    CommandEffect now args s (cmdHgetall args s).2 := by
  unfold cmdHgetall
  split <;> exact .same

theorem cmdHkeys_effect (now : Int) (args : List Str) (s : KVStore) :
    CommandEffect now args s (cmdHkeys args s).2 := by
  unfold cmdHkeys
  split <;> exact .same

theorem cmdHvals_effect (now : Int) (args : List Str) (s : KVStore) :
    CommandEffect now args s (cmdHvals args s).2 := by
  unfold cmdHvals
  split <;> exact .same

theorem cmdHlen_effect (now : Int) (args : List Str) (s : KVStore) :
    CommandEffect now args s (cmdHlen args s).2 := by
  unfold cmdHlen
  split <;> exact .same

theorem effect_of_ok (now : Int) (args : List Str) (s : KVStore) (r : Str) (s' : KVStore)
    (x : Str × KVStore) (hx : CommandEffect now args s x.2)
    (h : (Except.ok x : Except Fault (Str × KVStore)) = .ok (r, s')) :
    CommandEffect now args s s' := by
  cases h
  exact hx

theorem dispatch_effect (now : Int) (args : List Str) (s : KVStore) (r : Str) (s' : KVStore)
    (h : dispatch now args s = .ok (r, s')) : CommandEffect now args s s' := by
  rcases args with _ | ⟨name, rest⟩
  · exact effect_of_ok now [] s r s' _ .same h
  unfold dispatch at h
  dsimp only at h
  by_cases hc : name.map toupper = "PING".toList
  · rw [if_pos hc] at h
    exact effect_of_ok now _ s r s' _ (cmdPing_effect now _ s) h
  rw [if_neg hc] at h
  clear hc
  by_cases hc : name.map toupper = "ECHO".toList
  · rw [if_pos hc] at h
    exact effect_of_ok now _ s r s' _ (cmdEcho_effect now _ s) h
  rw [if_neg hc] at h
  clear hc
  by_cases hc : name.map toupper = "FLUSHALL".toList
  · rw [if_pos hc] at h
    exact effect_of_ok now _ s r s' _ (cmdFlushAll_effect now _ s) h
  rw [if_neg hc] at h
  clear hc
  by_cases hc : name.map toupper = "SET".toList
  · rw [if_pos hc] at h
    exact effect_of_ok now _ s r s' _ (cmdSet_effect now name rest s hc) h
  rw [if_neg hc] at h
  clear hc
  by_cases hc : name.map toupper = "GET".toList
  · rw [if_pos hc] at h
    exact effect_of_ok now _ s r s' _ (cmdGet_effect now _ s) h
  rw [if_neg hc] at h
  clear hc
  by_cases hc : name.map toupper = "KEYS".toList
  · rw [if_pos hc] at h
    exact effect_of_ok now _ s r s' _ (cmdKeys_effect now _ s) h
  rw [if_neg hc] at h
  clear hc
  by_cases hc : name.map toupper = "TYPE".toList
  · rw [if_pos hc] at h
    exact effect_of_ok now _ s r s' _ (cmdType_effect now _ s) h
  rw [if_neg hc] at h
  clear hc
  by_cases hc : name.map toupper = "DEL".toList ∨ name.map toupper = "UNLINK".toList
  · rw [if_pos hc] at h
    exact effect_of_ok now _ s r s' _ (cmdDel_effect now _ s) h
  rw [if_neg hc] at h
  clear hc
  by_cases hc : name.map toupper = "EXPIRE".toList
  · rw [if_pos hc] at h
    exact effect_of_ok now _ s r s' _ (cmdExpire_effect now _ s) h
  rw [if_neg hc] at h
  clear hc
  by_cases hc : name.map toupper = "RENAME".toList
  · rw [if_pos hc] at h
    exact effect_of_ok now _ s r s' _ (cmdRename_effect now name rest s hc) h
  rw [if_neg hc] at h
  clear hc
  by_cases hc : name.map toupper = "LGET".toList
  · rw [if_pos hc] at h
    exact effect_of_ok now _ s r s' _ (cmdLget_effect now _ s) h
  rw [if_neg hc] at h
  clear hc
  by_cases hc : name.map toupper = "LLEN".toList
  · rw [if_pos hc] at h
    exact effect_of_ok now _ s r s' _ (cmdLlen_effect now _ s) h
  rw [if_neg hc] at h
  clear hc
  by_cases hc : name.map toupper = "LPUSH".toList
  · rw [if_pos hc] at h
    exact effect_of_ok now _ s r s' _ (cmdLpush_effect now name rest s hc) h
  rw [if_neg hc] at h
  clear hc
  by_cases hc : name.map toupper = "RPUSH".toList
  · rw [if_pos hc] at h
    exact effect_of_ok now _ s r s' _ (cmdRpush_effect now name rest s hc) h
  rw [if_neg hc] at h
  clear hc
  by_cases hc : name.map toupper = "LPOP".toList
  · rw [if_pos hc] at h
    exact effect_of_ok now _ s r s' _ (cmdLpop_effect now _ s) h
  rw [if_neg hc] at h
  clear hc
  by_cases hc : name.map toupper = "RPOP".toList
  · rw [if_pos hc] at h
    exact effect_of_ok now _ s r s' _ (cmdRpop_effect now _ s) h
  rw [if_neg hc] at h
  clear hc
  by_cases hc : name.map toupper = "LREM".toList
  · rw [if_pos hc] at h
    exact effect_of_ok now _ s r s' _ (cmdLrem_effect now _ s) h
  rw [if_neg hc] at h
  clear hc
  by_cases hc : name.map toupper = "LINDEX".toList
  · rw [if_pos hc] at h
    exact cmdLindex_effect now _ s r s' h
  rw [if_neg hc] at h
  clear hc
  by_cases hc : name.map toupper = "LSET".toList
  · rw [if_pos hc] at h
    exact cmdLset_effect now _ s r s' h
  rw [if_neg hc] at h
  clear hc
  by_cases hc : name.map toupper = "HSET".toList
  · rw [if_pos hc] at h
    exact effect_of_ok now _ s r s' _ (cmdHset_effect now name rest s hc) h
  rw [if_neg hc] at h
  clear hc
  by_cases hc : name.map toupper = "HGET".toList
  · rw [if_pos hc] at h
    exact effect_of_ok now _ s r s' _ (cmdHget_effect now _ s) h
  rw [if_neg hc] at h
  clear hc
  by_cases hc : name.map toupper = "HEXISTS".toList
  · rw [if_pos hc] at h
    exact effect_of_ok now _ s r s' _ (cmdHexists_effect now _ s) h
  rw [if_neg hc] at h
  clear hc
  by_cases hc : name.map toupper = "HDEL".toList
  · rw [if_pos hc] at h
    exact effect_of_ok now _ s r s' _ (cmdHdel_effect now _ s) h
  rw [if_neg hc] at h
  clear hc
  by_cases hc : name.map toupper = "HGETALL".toList
  · rw [if_pos hc] at h
    exact effect_of_ok now _ s r s' _ (cmdHgetall_effect now _ s) h
  rw [if_neg hc] at h
  clear hc
  by_cases hc : name.map toupper = "HKEYS".toList
  · rw [if_pos hc] at h
    exact effect_of_ok now _ s r s' _ (cmdHkeys_effect now _ s) h
  rw [if_neg hc] at h
  clear hc
  by_cases hc : name.map toupper = "HVALS".toList
  · rw [if_pos hc] at h
    exact effect_of_ok now _ s r s' _ (cmdHvals_effect now _ s) h
  rw [if_neg hc] at h
  clear hc
  by_cases hc : name.map toupper = "HLEN".toList
  · rw [if_pos hc] at h
    exact effect_of_ok now _ s r s' _ (cmdHlen_effect now _ s) h
  rw [if_neg hc] at h
  clear hc
  by_cases hc : name.map toupper = "HMSET".toList
  · rw [if_pos hc] at h
    exact effect_of_ok now _ s r s' _ (cmdHmset_effect now name rest s hc) h
  rw [if_neg hc] at h
  clear hc
  exact effect_of_ok now _ s r s' _ .same h

/-! ## C17: one kind per key -/

theorem contains_assign {V : Type} (m : UMap V) (k k' : Str) (v : V) :
    UMap.contains (UMap.assign m k v) k' = (decide (k = k') || UMap.contains m k') := by
  unfold UMap.contains
  by_cases h : k = k'
  · subst h
    simp [UMap.find_assign_self]
  · simp [UMap.find_assign_ne m k k' v h, h]

theorem contains_erase {V : Type} (m : UMap V) (k k' : Str) :
    UMap.contains (UMap.erase m k) k' = (!decide (k = k') && UMap.contains m k') := by
  unfold UMap.contains
  rw [UMap.find_erase]
  by_cases h : k = k' <;> simp [h]

theorem contains_assign_of_contains {V : Type} (m : UMap V) (k k' : Str) (v : V)
    (h : UMap.contains m k = true) :
    UMap.contains (UMap.assign m k v) k' = UMap.contains m k' := by
  rw [contains_assign]
  by_cases hk : k = k'
  · subst hk
    simp [h]
  · simp [hk]

theorem contains_cleanupExpired (now : Int) (k : Str) (s : KVStore) :
    UMap.contains (cleanupExpired now s).stringData_ k
        = (!expiredIn now s.expiryTimes_ k && UMap.contains s.stringData_ k)
    ∧ UMap.contains (cleanupExpired now s).listData_ k
        = (!expiredIn now s.expiryTimes_ k && UMap.contains s.listData_ k)
    ∧ UMap.contains (cleanupExpired now s).hashData_ k
        = (!expiredIn now s.expiryTimes_ k && UMap.contains s.hashData_ k)
    ∧ UMap.contains (cleanupExpired now s).expiryTimes_ k
        = (!expiredIn now s.expiryTimes_ k && UMap.contains s.expiryTimes_ k) := by
  obtain ⟨c1, c2, c3, c4⟩ := cleanupExpired_find now k s
  unfold UMap.contains
  rw [c1, c2, c3, c4]
  cases expiredIn now s.expiryTimes_ k <;> simp

/-- No key of `s'` is in a value map it was not in already in `s`. -/
theorem oneKind_of_noGain (s s' : KVStore) (h : OneKind s)
    (hg : ∀ k, (UMap.contains s'.stringData_ k = true → UMap.contains s.stringData_ k = true)
      ∧ (UMap.contains s'.listData_ k = true → UMap.contains s.listData_ k = true)
      ∧ (UMap.contains s'.hashData_ k = true → UMap.contains s.hashData_ k = true)) :
    OneKind s' := by
  intro k
  obtain ⟨g1, g2, g3⟩ := hg k
  obtain ⟨h1, h2, h3⟩ := h k
  exact ⟨fun c => h1 ⟨g1 c.1, g2 c.2⟩, fun c => h2 ⟨g1 c.1, g3 c.2⟩,
    fun c => h3 ⟨g2 c.1, g3 c.2⟩⟩

theorem oneKind_cleanupExpired (now : Int) (s : KVStore) (h : OneKind s) :
    OneKind (cleanupExpired now s) := by
  apply oneKind_of_noGain s _ h
  intro k
  obtain ⟨c1, c2, c3, _⟩ := contains_cleanupExpired now k s
  rw [c1, c2, c3]
  simp only [Bool.and_eq_true]
  exact ⟨fun c => c.2, fun c => c.2, fun c => c.2⟩

theorem oneKind_removeKey (now : Int) (k : Str) (s : KVStore) (h : OneKind s) :
    OneKind (removeKey now k s).2 := by
  apply oneKind_of_noGain _ _ (oneKind_cleanupExpired now s h)
  intro k'
  simp only [removeKey, contains_erase, Bool.and_eq_true]
  exact ⟨fun c => c.2, fun c => c.2, fun c => c.2⟩

theorem oneKind_setExpiry (now : Int) (k : Str) (ttl : Int) (s : KVStore) (h : OneKind s) :
    OneKind (setExpiry now k ttl s).2 := by
  apply oneKind_of_noGain _ _ (oneKind_cleanupExpired now s h)
  intro k'
  simp only [setExpiry]
  split <;> exact ⟨id, id, id⟩

theorem oneKind_listWrite (s : KVStore) (k : Str) (items : List Str) (h : OneKind s)
    (hk : UMap.contains s.listData_ k = true) :
    OneKind { s with listData_ := UMap.assign s.listData_ k items } := by
  apply oneKind_of_noGain s _ h
  intro k'
  simp only [contains_assign_of_contains _ k k' items hk]
  exact ⟨id, id, id⟩

theorem contains_of_find {V : Type} (m : UMap V) (k : Str) (v : V)
    (h : UMap.find m k = some v) : UMap.contains m k = true := by
  simp [UMap.contains, h]

theorem oneKind_listPopFront (k : Str) (s : KVStore) (h : OneKind s) :
    OneKind (listPopFront k s).2 := by
  unfold listPopFront
  split
  · rename_i x rest hf
    exact oneKind_listWrite s k rest h (contains_of_find _ _ _ hf)
  · exact h

theorem oneKind_listPopBack (k : Str) (s : KVStore) (h : OneKind s) :
    OneKind (listPopBack k s).2 := by
  unfold listPopBack
  split
  · rename_i x rest hf
    exact oneKind_listWrite s k _ h (contains_of_find _ _ _ hf)
  · exact h

theorem oneKind_listRemove (k : Str) (c : Int) (v : Str) (s : KVStore) (h : OneKind s) :
    OneKind (listRemove k c v s).2 := by
  unfold listRemove
  split
  · exact h
  · rename_i items hf
    exact oneKind_listWrite s k _ h (contains_of_find _ _ _ hf)

theorem oneKind_listSetAt (k : Str) (i : Int) (v : Str) (s : KVStore) (b : Bool)
    (s' : KVStore) (hs : listSetAt k i v s = .ok (b, s')) (h : OneKind s) : OneKind s' := by
  cases hf : UMap.find s.listData_ k with
  | none =>
    simp only [listSetAt, hf, Except.ok.injEq, Prod.mk.injEq] at hs
    rw [← hs.2]
    exact h
  | some l =>
    rw [listSetAt_eq s k v l i hf] at hs
    cases hr : resolveIndex l.length i with
    | none =>
      simp only [hr, Except.ok.injEq, Prod.mk.injEq] at hs
      rw [← hs.2]
      exact h
    | some p =>
      simp only [hr, Except.ok.injEq, Prod.mk.injEq] at hs
      rw [← hs.2]
      exact oneKind_listWrite s k _ h (contains_of_find _ _ _ hf)

theorem oneKind_hashDeleteField (k f : Str) (s : KVStore) (h : OneKind s) :
    OneKind (hashDeleteField k f s).2 := by
  unfold hashDeleteField
  split
  · rename_i hm hf
    apply oneKind_of_noGain s _ h
    intro k'
    simp only [contains_assign_of_contains _ k k' _ (contains_of_find _ _ _ hf)]
    exact ⟨id, id, id⟩
  · exact h

theorem oneKind_clearAll (s : KVStore) : OneKind (clearAll s).2 := by
  intro k
  simp [clearAll, UMap.contains, UMap.find]

theorem oneKind_setString (k v : Str) (s : KVStore) (h : OneKind s)
    (hg : (UMap.contains s.listData_ k || UMap.contains s.hashData_ k) = false) :
    OneKind (setString k v s) := by
  intro k'
  obtain ⟨h1, h2, h3⟩ := h k'
  simp only [Bool.or_eq_false_iff] at hg
  simp only [setString, contains_assign]
  by_cases hk : k = k'
  · subst hk
    simp [hg.1, hg.2]
  · simp only [hk, decide_False, Bool.false_or]
    exact ⟨h1, h2, h3⟩

theorem oneKind_listAssign (k : Str) (items : List Str) (s : KVStore) (h : OneKind s)
    (hg : (UMap.contains s.stringData_ k || UMap.contains s.hashData_ k) = false) :
    OneKind { s with listData_ := UMap.assign s.listData_ k items } := by
  intro k'
  obtain ⟨h1, h2, h3⟩ := h k'
  simp only [Bool.or_eq_false_iff] at hg
  simp only [contains_assign]
  by_cases hk : k = k'
  · subst hk
    simp [hg.1, hg.2]
  · simp only [hk, decide_False, Bool.false_or]
    exact ⟨h1, h2, h3⟩

theorem oneKind_hashAssign (k : Str) (fields : UMap Str) (s : KVStore) (h : OneKind s)
    (hg : (UMap.contains s.stringData_ k || UMap.contains s.listData_ k) = false) :
    OneKind { s with hashData_ := UMap.assign s.hashData_ k fields } := by
  intro k'
  obtain ⟨h1, h2, h3⟩ := h k'
  simp only [Bool.or_eq_false_iff] at hg
  simp only [contains_assign]
  by_cases hk : k = k'
  · subst hk
    simp [hg.1, hg.2]
  · simp only [hk, decide_False, Bool.false_or]
    exact ⟨h1, h2, h3⟩

theorem oneKind_pushFrontAll (k : Str) (vs : List Str) (s : KVStore) (h : OneKind s)
    (hg : (UMap.contains s.stringData_ k || UMap.contains s.hashData_ k) = false) :
    OneKind (pushFrontAll k vs s) := by
  induction vs generalizing s with
  | nil => exact h
  | cons v vs ih =>
    exact ih (listPushFront k v s) (oneKind_listAssign k _ s h hg) hg

theorem oneKind_pushBackAll (k : Str) (vs : List Str) (s : KVStore) (h : OneKind s)
    (hg : (UMap.contains s.stringData_ k || UMap.contains s.hashData_ k) = false) :
    OneKind (pushBackAll k vs s) := by
  induction vs generalizing s with
  | nil => exact h
  | cons v vs ih =>
    exact ih (listPushBack k v s) (oneKind_listAssign k _ s h hg) hg

theorem oneKind_hashSet (k f v : Str) (s : KVStore) (h : OneKind s)
    (hg : (UMap.contains s.stringData_ k || UMap.contains s.listData_ k) = false) :
    OneKind (hashSet k f v s).2 :=
  oneKind_hashAssign k _ s h hg

theorem oneKind_hashSetMultiple (k : Str) (pairs : List (Str × Str)) (s : KVStore)
    (h : OneKind s)
    (hg : (UMap.contains s.stringData_ k || UMap.contains s.listData_ k) = false) :
    OneKind (hashSetMultiple k pairs s) := by
  induction pairs generalizing s with
  | nil => exact h
  | cons p pairs ih =>
    exact ih (hashSet k p.1 p.2 s).2 (oneKind_hashSet k p.1 p.2 s h hg) hg

theorem contains_renameIn {V : Type} (m : UMap V) (old new k' : Str) :
    UMap.contains (renameIn m old new) k'
      = if UMap.contains m old = true then
          (!decide (old = k') && (decide (new = k') || UMap.contains m k'))
        else UMap.contains m k' := by
  unfold renameIn
  cases hf : UMap.find m old with
  | none =>
    have : UMap.contains m old = false := by simp [UMap.contains, hf]
    simp [this]
  | some v =>
    have : UMap.contains m old = true := contains_of_find _ _ _ hf
    simp only [this, if_true, contains_erase, contains_assign]

theorem oneKind_renameKey (now : Int) (old new : Str) (s : KVStore) (h : OneKind s)
    (hg : renameConflict (cleanupExpired now s) old new = false) :
    OneKind (renameKey now old new s).2 := by
  have hs := oneKind_cleanupExpired now s h
  intro k'
  simp only [renameKey, contains_renameIn]
  generalize cleanupExpired now s = s1 at hs hg ⊢
  have ho := hs old
  have hn := hs new
  have hk := hs k'
  unfold renameConflict at hg
  by_cases e1 : old = k'
  · subst e1
    cases UMap.contains s1.stringData_ old <;> cases UMap.contains s1.listData_ old <;>
      cases UMap.contains s1.hashData_ old <;> simp_all
  · by_cases e2 : new = k'
    · subst e2
      revert ho hn hg
      cases UMap.contains s1.stringData_ old <;> cases UMap.contains s1.listData_ old <;>
        cases UMap.contains s1.hashData_ old <;>
        cases UMap.contains s1.stringData_ new <;> cases UMap.contains s1.listData_ new <;>
        cases UMap.contains s1.hashData_ new <;> simp [e1]
    · revert hk
      cases UMap.contains s1.stringData_ old <;> cases UMap.contains s1.listData_ old <;>
        cases UMap.contains s1.hashData_ old <;> simp [e1, e2]

theorem guard_set (now : Int) (name k : Str) (rest : List Str) (s : KVStore)
    (h : writesOtherKind now (name :: k :: rest) s = false)
    (hn : name.map toupper = "SET".toList) :
    (UMap.contains s.listData_ k || UMap.contains s.hashData_ k) = false := by
  simp only [writesOtherKind, Bool.or_eq_false_iff] at h
  obtain ⟨⟨⟨h1, _⟩, _⟩, _⟩ := h
  rw [decide_eq_true hn, Bool.true_and] at h1
  exact h1

theorem guard_push (now : Int) (name k : Str) (rest : List Str) (s : KVStore)
    (h : writesOtherKind now (name :: k :: rest) s = false)
    (hn : name.map toupper = "LPUSH".toList ∨ name.map toupper = "RPUSH".toList) :
    (UMap.contains s.stringData_ k || UMap.contains s.hashData_ k) = false := by
  simp only [writesOtherKind, Bool.or_eq_false_iff] at h
  obtain ⟨⟨⟨_, h2⟩, _⟩, _⟩ := h
  rw [decide_eq_true hn, Bool.true_and] at h2
  exact h2

theorem guard_hash (now : Int) (name k : Str) (rest : List Str) (s : KVStore)
    (h : writesOtherKind now (name :: k :: rest) s = false)
    (hn : name.map toupper = "HSET".toList ∨ name.map toupper = "HMSET".toList) :
    (UMap.contains s.stringData_ k || UMap.contains s.listData_ k) = false := by
  simp only [writesOtherKind, Bool.or_eq_false_iff] at h
  obtain ⟨⟨_, h3⟩, _⟩ := h
  rw [decide_eq_true hn, Bool.true_and] at h3
  exact h3

theorem guard_rename (now : Int) (name o n : Str) (rest : List Str) (s : KVStore)
    (h : writesOtherKind now (name :: o :: n :: rest) s = false)
    (hn : name.map toupper = "RENAME".toList) :
    renameConflict (cleanupExpired now s) o n = false := by
  simp only [writesOtherKind, Bool.or_eq_false_iff] at h
  obtain ⟨_, h4⟩ := h
  rw [decide_eq_true hn, Bool.true_and] at h4
  exact h4

theorem effect_preserves_oneKind (now : Int) (args : List Str) (s s' : KVStore)
    (he : CommandEffect now args s s') (h : OneKind s)
    (hg : writesOtherKind now args s = false) : OneKind s' := by
  cases he with
  | same => exact h
  | sweep => exact oneKind_cleanupExpired now s h
  | clear => exact oneKind_clearAll s
  | set name k v rest ha hn =>
    subst ha
    exact oneKind_setString k v s h (guard_set now name k _ s hg hn)
  | del k => exact oneKind_removeKey now k s h
  | expire k ttl => exact oneKind_setExpiry now k ttl s h
  | rename name o n rest ha hn =>
    subst ha
    exact oneKind_renameKey now o n s h (guard_rename now name o n rest s hg hn)
  | lpush name k vs ha hn =>
    subst ha
    exact oneKind_pushFrontAll k vs s h (guard_push now name k vs s hg (Or.inl hn))
  | rpush name k vs ha hn =>
    subst ha
    exact oneKind_pushBackAll k vs s h (guard_push now name k vs s hg (Or.inr hn))
  | lpop k => exact oneKind_listPopFront k s h
  | rpop k => exact oneKind_listPopBack k s h
  | lrem k c v => exact oneKind_listRemove k c v s h
  | lset k i v b s1 hs => exact oneKind_listSetAt k i v s b _ hs h
  | hset name k f v rest ha hn =>
    subst ha
    exact oneKind_hashSet k f v s h (guard_hash now name k _ s hg (Or.inl hn))
  | hdel k f => exact oneKind_hashDeleteField k f s h
  | hmset name k rest ha hn =>
    subst ha
    exact oneKind_hashSetMultiple k _ s h (guard_hash now name k rest s hg (Or.inr hn))

theorem listGetAt_ok (k : Str) (i : Int) (s : KVStore) : ∃ o, listGetAt k i s = .ok o := by
  cases hf : UMap.find s.listData_ k with
  | none => exact ⟨none, by simp [listGetAt, hf]⟩
  | some l =>
    rw [listGetAt_eq s k l i hf]
    cases resolveIndex l.length i <;> exact ⟨_, rfl⟩

theorem listSetAt_ok (k : Str) (i : Int) (v : Str) (s : KVStore) :
    ∃ b s', listSetAt k i v s = .ok (b, s') := by
  cases hf : UMap.find s.listData_ k with
  | none => exact ⟨false, s, by simp [listSetAt, hf]⟩
  | some l =>
    rw [listSetAt_eq s k v l i hf]
    cases resolveIndex l.length i <;> exact ⟨_, _, rfl⟩

theorem cmdLindex_ok (args : List Str) (s : KVStore) :
    ∃ r s', cmdLindex args s = .ok (r, s') := by
  unfold cmdLindex
  split
  · rename_i key index _
    cases stoi index with
    | error e => exact ⟨_, _, rfl⟩
    | ok idx =>
      obtain ⟨o, ho⟩ := listGetAt_ok key idx s
      simp only [ho]
      cases o <;> exact ⟨_, _, rfl⟩
  · exact ⟨_, _, rfl⟩

theorem cmdLset_ok (args : List Str) (s : KVStore) :
    ∃ r s', cmdLset args s = .ok (r, s') := by
  unfold cmdLset
  split
  · rename_i key index val _
    cases stoi index with
    | error e => exact ⟨_, _, rfl⟩
    | ok idx =>
      obtain ⟨b, s1, ho⟩ := listSetAt_ok key idx val s
      simp only [ho]
      cases b <;> exact ⟨_, _, rfl⟩
  · exact ⟨_, _, rfl⟩

theorem dispatch_total (now : Int) (args : List Str) (s : KVStore) :
    ∃ r s', dispatch now args s = .ok (r, s') := by
  rcases args with _ | ⟨name, rest⟩
  · exact ⟨_, _, rfl⟩
  unfold dispatch
  dsimp only
  by_cases hc : name.map toupper = "PING".toList
  · rw [if_pos hc]
    exact ⟨_, _, rfl⟩
  rw [if_neg hc]
  clear hc
  by_cases hc : name.map toupper = "ECHO".toList
  · rw [if_pos hc]
    exact ⟨_, _, rfl⟩
  rw [if_neg hc]
  clear hc
  by_cases hc : name.map toupper = "FLUSHALL".toList
  · rw [if_pos hc]
    exact ⟨_, _, rfl⟩
  rw [if_neg hc]
  clear hc
  by_cases hc : name.map toupper = "SET".toList
  · rw [if_pos hc]
    exact ⟨_, _, rfl⟩
  rw [if_neg hc]
  clear hc
  by_cases hc : name.map toupper = "GET".toList
  · rw [if_pos hc]
    exact ⟨_, _, rfl⟩
  rw [if_neg hc]
  clear hc
  by_cases hc : name.map toupper = "KEYS".toList
  · rw [if_pos hc]
    exact ⟨_, _, rfl⟩
  rw [if_neg hc]
  clear hc
  by_cases hc : name.map toupper = "TYPE".toList
  · rw [if_pos hc]
    exact ⟨_, _, rfl⟩
  rw [if_neg hc]
  clear hc
  by_cases hc : name.map toupper = "DEL".toList ∨ name.map toupper = "UNLINK".toList
  · rw [if_pos hc]
    exact ⟨_, _, rfl⟩
  rw [if_neg hc]
  clear hc
  by_cases hc : name.map toupper = "EXPIRE".toList
  · rw [if_pos hc]
    exact ⟨_, _, rfl⟩
  rw [if_neg hc]
  clear hc
  by_cases hc : name.map toupper = "RENAME".toList
  · rw [if_pos hc]
    exact ⟨_, _, rfl⟩
  rw [if_neg hc]
  clear hc
  by_cases hc : name.map toupper = "LGET".toList
  · rw [if_pos hc]
    exact ⟨_, _, rfl⟩
  rw [if_neg hc]
  clear hc
  by_cases hc : name.map toupper = "LLEN".toList
  · rw [if_pos hc]
    exact ⟨_, _, rfl⟩
  rw [if_neg hc]
  clear hc
  by_cases hc : name.map toupper = "LPUSH".toList
  · rw [if_pos hc]
    exact ⟨_, _, rfl⟩
  rw [if_neg hc]
  clear hc
  by_cases hc : name.map toupper = "RPUSH".toList
  · rw [if_pos hc]
    exact ⟨_, _, rfl⟩
  rw [if_neg hc]
  clear hc
  by_cases hc : name.map toupper = "LPOP".toList
  · rw [if_pos hc]
    exact ⟨_, _, rfl⟩
  rw [if_neg hc]
  clear hc
  by_cases hc : name.map toupper = "RPOP".toList
  · rw [if_pos hc]
    exact ⟨_, _, rfl⟩
  rw [if_neg hc]
  clear hc
  by_cases hc : name.map toupper = "LREM".toList
  · rw [if_pos hc]
    exact ⟨_, _, rfl⟩
  rw [if_neg hc]
  clear hc
  by_cases hc : name.map toupper = "LINDEX".toList
  · rw [if_pos hc]
    exact cmdLindex_ok _ s
  rw [if_neg hc]
  clear hc
  by_cases hc : name.map toupper = "LSET".toList
  · rw [if_pos hc]
    exact cmdLset_ok _ s
  rw [if_neg hc]
  clear hc
  by_cases hc : name.map toupper = "HSET".toList
  · rw [if_pos hc]
    exact ⟨_, _, rfl⟩
  rw [if_neg hc]
  clear hc
  by_cases hc : name.map toupper = "HGET".toList
  · rw [if_pos hc]
    exact ⟨_, _, rfl⟩
  rw [if_neg hc]
  clear hc
  by_cases hc : name.map toupper = "HEXISTS".toList
  · rw [if_pos hc]
    exact ⟨_, _, rfl⟩
  rw [if_neg hc]
  clear hc
  by_cases hc : name.map toupper = "HDEL".toList
  · rw [if_pos hc]
    exact ⟨_, _, rfl⟩
  rw [if_neg hc]
  clear hc
  by_cases hc : name.map toupper = "HGETALL".toList
  · rw [if_pos hc]
    exact ⟨_, _, rfl⟩
  rw [if_neg hc]
  clear hc
  by_cases hc : name.map toupper = "HKEYS".toList
  · rw [if_pos hc]
    exact ⟨_, _, rfl⟩
  rw [if_neg hc]
  clear hc
  by_cases hc : name.map toupper = "HVALS".toList
  · rw [if_pos hc]
    exact ⟨_, _, rfl⟩
  rw [if_neg hc]
  clear hc
  by_cases hc : name.map toupper = "HLEN".toList
  · rw [if_pos hc]
    exact ⟨_, _, rfl⟩
  rw [if_neg hc]
  clear hc
  by_cases hc : name.map toupper = "HMSET".toList
  · rw [if_pos hc]
    exact ⟨_, _, rfl⟩
  rw [if_neg hc]
  clear hc
  exact ⟨_, _, rfl⟩

theorem run_keeps_oneKind (cmds : List (Int × List Str)) (s : KVStore) (h : OneKind s)
    (hk : keepsKinds cmds s = true) : ∃ s', runCommands cmds s = .ok s' ∧ OneKind s' := by
  induction cmds generalizing s with
  | nil => exact ⟨s, rfl, h⟩
  | cons c cmds ih =>
    obtain ⟨now, args⟩ := c
    obtain ⟨r, s1, hd⟩ := dispatch_total now args s
    simp only [keepsKinds, hd, Bool.and_eq_true, Bool.not_eq_true'] at hk
    have h1 : OneKind s1 :=
      effect_preserves_oneKind now args s s1 (dispatch_effect now args s r s1 hd) h hk.1
    obtain ⟨s', hr, ho⟩ := ih s1 h1 hk.2
    exact ⟨s', by simp only [runCommands, hd, hr], ho⟩

theorem oneKind_empty : OneKind KVStore.empty := by
  intro k
  simp [KVStore.empty, UMap.contains, UMap.find]

/-- C17 (amended): in every state reached from the empty store by a sequence of commands
none of which writes a value of one kind to a key that is in the map of another kind
(`SET`, `LPUSH`, `RPUSH`, `HSET`, `HMSET` on such a key, or `RENAME` from a key of one
kind onto a key of another), the sequence runs to the end and no key is present in more
than one of the three value maps. -/
theorem C17_one_kind_per_key (cmds : List (Int × List Str))
    (hk : keepsKinds cmds KVStore.empty = true) :
    ∃ s, runCommands cmds KVStore.empty = .ok s ∧ OneKind s :=
  run_keeps_oneKind cmds KVStore.empty oneKind_empty hk

/-- C17, witness: `SET a 1`, `LPUSH b x`, `HSET c f v`, `RENAME a d`, `DEL b`,
`RPUSH b y`. -/
theorem C17_one_kind_per_key_witness :
    keepsKinds
        [(0, ["SET".toList, "a".toList, "1".toList]),
          (1, ["LPUSH".toList, "b".toList, "x".toList]),
          (2, ["HSET".toList, "c".toList, "f".toList, "v".toList]),
          (3, ["RENAME".toList, "a".toList, "d".toList]),
          (4, ["DEL".toList, "b".toList]),
          (5, ["RPUSH".toList, "b".toList, "y".toList])] KVStore.empty = true
    ∧ ∃ s, runCommands
        [(0, ["SET".toList, "a".toList, "1".toList]),
          (1, ["LPUSH".toList, "b".toList, "x".toList]),
          (2, ["HSET".toList, "c".toList, "f".toList, "v".toList]),
          (3, ["RENAME".toList, "a".toList, "d".toList]),
          (4, ["DEL".toList, "b".toList]),
          (5, ["RPUSH".toList, "b".toList, "y".toList])] KVStore.empty = .ok s
      ∧ OneKind s :=
  ⟨rfl, C17_one_kind_per_key _ rfl⟩

/-- C17, counterexample: `SET a 1` then `LPUSH a x` from the empty store leaves `a` in
the string map and in the list map. -/
theorem C17_counterexample :
    runCommands
        [(0, ["SET".toList, "a".toList, "1".toList]),
          (0, ["LPUSH".toList, "a".toList, "x".toList])] KVStore.empty
      = .ok ⟨[("a".toList, "1".toList)], [("a".toList, ["x".toList])], [], []⟩
    ∧ UMap.contains
        (⟨[("a".toList, "1".toList)], [("a".toList, ["x".toList])], [], []⟩
          : KVStore).stringData_ "a".toList = true
    ∧ UMap.contains
        (⟨[("a".toList, "1".toList)], [("a".toList, ["x".toList])], [], []⟩
          : KVStore).listData_ "a".toList = true
    ∧ ¬ OneKind ⟨[("a".toList, "1".toList)], [("a".toList, ["x".toList])], [], []⟩ :=
  ⟨rfl, rfl, rfl, fun h => (h "a".toList).1 ⟨rfl, rfl⟩⟩

/-! ## C16: expiry entries and values -/

theorem expiryRef_of_kept (s s' : KVStore) (h : ExpiryRef s)
    (hg : ∀ k, (UMap.contains s.stringData_ k = true → UMap.contains s'.stringData_ k = true)
      ∧ (UMap.contains s.listData_ k = true → UMap.contains s'.listData_ k = true)
      ∧ (UMap.contains s.hashData_ k = true → UMap.contains s'.hashData_ k = true)
      ∧ (UMap.contains s'.expiryTimes_ k = true → UMap.contains s.expiryTimes_ k = true)) :
    ExpiryRef s' := by
  intro k hk
  obtain ⟨g1, g2, g3, g4⟩ := hg k
  rcases h k (g4 hk) with c | c | c
  · exact Or.inl (g1 c)
  · exact Or.inr (Or.inl (g2 c))
  · exact Or.inr (Or.inr (g3 c))

theorem expiryRef_cleanupExpired (now : Int) (s : KVStore) (h : ExpiryRef s) :
    ExpiryRef (cleanupExpired now s) := by
  intro k
  obtain ⟨c1, c2, c3, c4⟩ := contains_cleanupExpired now k s
  rw [c1, c2, c3, c4]
  have hk := h k
  cases expiredIn now s.expiryTimes_ k <;> simp
  exact hk

theorem expiryRef_removeKey (now : Int) (k : Str) (s : KVStore) (h : ExpiryRef s) :
    ExpiryRef (removeKey now k s).2 := by
  have hs := expiryRef_cleanupExpired now s h
  intro k'
  simp only [removeKey, contains_erase]
  have hk := hs k'
  by_cases e : k = k'
  · simp [e]
  · simpa [e] using hk

theorem expiryRef_setExpiry (now : Int) (k : Str) (ttl : Int) (s : KVStore)
    (h : ExpiryRef s) : ExpiryRef (setExpiry now k ttl s).2 := by
  have hs := expiryRef_cleanupExpired now s h
  simp only [setExpiry]
  split
  · exact hs
  · rename_i hex
    intro k'
    simp only [contains_assign]
    by_cases e : k = k'
    · subst e
      intro _
      simp only [Bool.not_eq_true', Bool.or_eq_false_iff, not_and, Bool.not_eq_false] at hex
      revert hex
      cases UMap.contains (cleanupExpired now s).stringData_ k <;>
        cases UMap.contains (cleanupExpired now s).listData_ k <;>
        cases UMap.contains (cleanupExpired now s).hashData_ k <;> simp
    · simpa [e] using hs k'

theorem expiryRef_renameKey (now : Int) (old new : Str) (s : KVStore) (h : ExpiryRef s) :
    ExpiryRef (renameKey now old new s).2 := by
  have hs := expiryRef_cleanupExpired now s h
  intro k'
  simp only [renameKey, contains_renameIn]
  generalize cleanupExpired now s = s1 at hs ⊢
  have ho := hs old
  have hn := hs new
  have hk := hs k'
  by_cases e1 : old = k'
  · subst e1
    cases UMap.contains s1.expiryTimes_ old <;> simp
  · by_cases e2 : new = k'
    · subst e2
      revert ho hn
      cases UMap.contains s1.stringData_ old <;> cases UMap.contains s1.listData_ old <;>
        cases UMap.contains s1.hashData_ old <;> cases UMap.contains s1.expiryTimes_ old <;>
        simp [e1]
    · revert hk
      cases UMap.contains s1.stringData_ old <;> cases UMap.contains s1.listData_ old <;>
        cases UMap.contains s1.hashData_ old <;> cases UMap.contains s1.expiryTimes_ old <;>
        simp [e1, e2]

theorem contains_assign_of_contains' {V : Type} (m : UMap V) (k k' : Str) (v : V)
    (h : UMap.contains m k' = true) : UMap.contains (UMap.assign m k v) k' = true := by
  rw [contains_assign, h, Bool.or_true]

theorem expiryRef_strAssign (k v : Str) (s : KVStore) (h : ExpiryRef s) :
    ExpiryRef { s with stringData_ := UMap.assign s.stringData_ k v } :=
  expiryRef_of_kept s _ h
    (fun k' => ⟨contains_assign_of_contains' _ k k' v, id, id, id⟩)

theorem expiryRef_listAssign (k : Str) (items : List Str) (s : KVStore) (h : ExpiryRef s) :
    ExpiryRef { s with listData_ := UMap.assign s.listData_ k items } :=
  expiryRef_of_kept s _ h
    (fun k' => ⟨id, contains_assign_of_contains' _ k k' items, id, id⟩)

theorem expiryRef_hashAssign (k : Str) (fields : UMap Str) (s : KVStore) (h : ExpiryRef s) :
    ExpiryRef { s with hashData_ := UMap.assign s.hashData_ k fields } :=
  expiryRef_of_kept s _ h
    (fun k' => ⟨id, id, contains_assign_of_contains' _ k k' fields, id⟩)

theorem expiryRef_pushFrontAll (k : Str) (vs : List Str) (s : KVStore) (h : ExpiryRef s) :
    ExpiryRef (pushFrontAll k vs s) := by
  induction vs generalizing s with
  | nil => exact h
  | cons v vs ih => exact ih (listPushFront k v s) (expiryRef_listAssign k _ s h)

theorem expiryRef_pushBackAll (k : Str) (vs : List Str) (s : KVStore) (h : ExpiryRef s) :
    ExpiryRef (pushBackAll k vs s) := by
  induction vs generalizing s with
  | nil => exact h
  | cons v vs ih => exact ih (listPushBack k v s) (expiryRef_listAssign k _ s h)

theorem expiryRef_hashSetMultiple (k : Str) (pairs : List (Str × Str)) (s : KVStore)
    (h : ExpiryRef s) : ExpiryRef (hashSetMultiple k pairs s) := by
  induction pairs generalizing s with
  | nil => exact h
  | cons p pairs ih => exact ih (hashSet k p.1 p.2 s).2 (expiryRef_hashAssign k _ s h)

theorem expiryRef_listPopFront (k : Str) (s : KVStore) (h : ExpiryRef s) :
    ExpiryRef (listPopFront k s).2 := by
  unfold listPopFront
  split
  · exact expiryRef_listAssign k _ s h
  · exact h

theorem expiryRef_listPopBack (k : Str) (s : KVStore) (h : ExpiryRef s) :
    ExpiryRef (listPopBack k s).2 := by
  unfold listPopBack
  split
  · exact expiryRef_listAssign k _ s h
  · exact h

theorem expiryRef_listRemove (k : Str) (c : Int) (v : Str) (s : KVStore) (h : ExpiryRef s) :
    ExpiryRef (listRemove k c v s).2 := by
  unfold listRemove
  split
  · exact h
  · exact expiryRef_listAssign k _ s h

theorem expiryRef_listSetAt (k : Str) (i : Int) (v : Str) (s : KVStore) (b : Bool)
    (s' : KVStore) (hs : listSetAt k i v s = .ok (b, s')) (h : ExpiryRef s) :
    ExpiryRef s' := by
  cases hf : UMap.find s.listData_ k with
  | none =>
    simp only [listSetAt, hf, Except.ok.injEq, Prod.mk.injEq] at hs
    rw [← hs.2]
    exact h
  | some l =>
    rw [listSetAt_eq s k v l i hf] at hs
    cases hr : resolveIndex l.length i with
    | none =>
      simp only [hr, Except.ok.injEq, Prod.mk.injEq] at hs
      rw [← hs.2]
      exact h
    | some p =>
      simp only [hr, Except.ok.injEq, Prod.mk.injEq] at hs
      rw [← hs.2]
      exact expiryRef_listAssign k _ s h

theorem expiryRef_hashDeleteField (k f : Str) (s : KVStore) (h : ExpiryRef s) :
    ExpiryRef (hashDeleteField k f s).2 := by
  unfold hashDeleteField
  split
  · exact expiryRef_hashAssign k _ s h
  · exact h

theorem expiryRef_clearAll (s : KVStore) : ExpiryRef (clearAll s).2 := by
  intro k
  simp [clearAll, UMap.contains, UMap.find]

theorem effect_preserves_expiryRef (now : Int) (args : List Str) (s s' : KVStore)
    (he : CommandEffect now args s s') (h : ExpiryRef s) : ExpiryRef s' := by
  cases he with
  | same => exact h
  | sweep => exact expiryRef_cleanupExpired now s h
  | clear => exact expiryRef_clearAll s
  | set name k v rest ha hn => exact expiryRef_strAssign k v s h
  | del k => exact expiryRef_removeKey now k s h
  | expire k ttl => exact expiryRef_setExpiry now k ttl s h
  | rename name o n rest ha hn => exact expiryRef_renameKey now o n s h
  | lpush name k vs ha hn => exact expiryRef_pushFrontAll k vs s h
  | rpush name k vs ha hn => exact expiryRef_pushBackAll k vs s h
  | lpop k => exact expiryRef_listPopFront k s h
  | rpop k => exact expiryRef_listPopBack k s h
  | lrem k c v => exact expiryRef_listRemove k c v s h
  | lset k i v b s1 hs => exact expiryRef_listSetAt k i v s b _ hs h
  | hset name k f v rest ha hn => exact expiryRef_hashAssign k _ s h
  | hdel k f => exact expiryRef_hashDeleteField k f s h
  | hmset name k rest ha hn => exact expiryRef_hashSetMultiple k _ s h

/-- Every state reached from the empty store by commands alone (none of which calls
`loadFromDisk`) keeps every expiry entry on a key that has a value. -/
theorem commands_keep_expiryRef (cmds : List (Int × List Str)) (s : KVStore)
    (h : ExpiryRef s) : ∃ s', runCommands cmds s = .ok s' ∧ ExpiryRef s' := by
  induction cmds generalizing s with
  | nil => exact ⟨s, rfl, h⟩
  | cons c cmds ih =>
    obtain ⟨now, args⟩ := c
    obtain ⟨r, s1, hd⟩ := dispatch_total now args s
    have h1 : ExpiryRef s1 :=
      effect_preserves_expiryRef now args s s1 (dispatch_effect now args s r s1 hd) h
    obtain ⟨s', hr, ho⟩ := ih s1 h1
    exact ⟨s', by simp only [runCommands, hd, hr], ho⟩

/-- C16, failing input: from the empty store, `setString(a, 1)`, then `setExpiry(a, 100)`
at clock reading 0, then `loadFromDisk` of a snapshot that holds only the string `b`.
`loadFromDisk` clears the three value maps and not the expiry map: afterwards `a` has an
expiry entry and is in none of the three value maps. -/
theorem C16_load_leaves_expiry :
    setExpiry 0 "a".toList 100 (setString "a".toList "1".toList KVStore.empty)
      = (true, ⟨[("a".toList, "1".toList)], [], [], [("a".toList, 100000000000)]⟩)
    ∧ loadFromDisk 'x' (some "S b 2\n".toList)
        ⟨[("a".toList, "1".toList)], [], [], [("a".toList, 100000000000)]⟩
      = (true, ⟨[("b".toList, "2".toList)], [], [], [("a".toList, 100000000000)]⟩)
    ∧ UMap.contains (⟨[("b".toList, "2".toList)], [], [], [("a".toList, 100000000000)]⟩
        : KVStore).expiryTimes_ "a".toList = true
    ∧ ¬ ExpiryRef ⟨[("b".toList, "2".toList)], [], [], [("a".toList, 100000000000)]⟩ :=
  ⟨rfl, rfl, rfl, fun h => by
    have := h "a".toList rfl
    revert this
    decide⟩

/-! ## C21: ECHO -/

/-- A status line `+m\r\n` is never the bulk encoding of `m`: the first bytes differ. -/
theorem status_ne_bulk (m : Str) : '+' :: m ++ crlf ≠ bulk m := by
  intro h
  simp only [bulk, List.cons_append, List.cons.injEq] at h
  exact absurd h.1 (by decide)

/-- C21 (amended): for every message `m` (and whatever tokens follow it), the request
`ECHO m`, the command name in any letter case, is answered with the status line
`"+" + m + "\r\n"` and leaves the store as it is; that reply is not the bulk encoding of
`m`. -/
theorem C21_echo (now : Int) (name m : Str) (rest : List Str) (s : KVStore)
    (h : name.map toupper = "ECHO".toList) :
    dispatch now (name :: m :: rest) s = .ok ('+' :: m ++ "\r\n".toList, s)
    ∧ '+' :: m ++ "\r\n".toList ≠ '$' :: natToString m.length ++ "\r\n".toList ++ m ++ "\r\n".toList := by
  refine ⟨?_, status_ne_bulk m⟩
  simp only [dispatch, h]
  rfl

/-- C21, witness: `echo hello` is answered `+hello\r\n`. -/
theorem C21_echo_witness :
    "echo".toList.map toupper = "ECHO".toList
    ∧ dispatch 0 ["echo".toList, "hello".toList] KVStore.empty
        = .ok ("+hello\r\n".toList, KVStore.empty) :=
  ⟨by decide, (C21_echo 0 "echo".toList "hello".toList [] KVStore.empty (by decide)).1⟩

/-- C21, counterexample: the request `ECHO hello`, sent as an array of bulk strings, is
answered `+hello\r\n`; the bulk encoding of `hello` is `$5\r\nhello\r\n`. -/
theorem C21_counterexample :
    execute 0 "*2\r\n$4\r\nECHO\r\n$5\r\nhello\r\n".toList KVStore.empty
        = .ok ("+hello\r\n".toList, KVStore.empty)
    ∧ bulk "hello".toList = "$5\r\nhello\r\n".toList
    ∧ "+hello\r\n".toList ≠ "$5\r\nhello\r\n".toList :=
  ⟨rfl, rfl, by decide⟩

/-! ## C22: HMSET -/

theorem pairUp_fieldValueTokens (pairs : List (Str × Str)) :
    pairUp (fieldValueTokens pairs) = pairs := by
  induction pairs with
  | nil => rfl
  | cons p pairs ih => simp only [fieldValueTokens, pairUp, ih]

theorem length_fieldValueTokens (pairs : List (Str × Str)) :
    (fieldValueTokens pairs).length = 2 * pairs.length := by
  induction pairs with
  | nil => rfl
  | cons p pairs ih =>
    simp only [fieldValueTokens, List.length_cons, ih]
    omega

theorem dispatch_hmset (now : Int) (name k : Str) (pairs : List (Str × Str)) (s : KVStore)
    (hname : name.map toupper = "HMSET".toList) (hne : pairs ≠ []) :
    dispatch now (name :: k :: fieldValueTokens pairs) s
      = .ok (okReply, hashSetMultiple k pairs s) := by
  have hd : dispatch now (name :: k :: fieldValueTokens pairs) s
      = .ok (cmdHmset (name :: k :: fieldValueTokens pairs) s) := by
    simp only [dispatch, hname]
    rfl
  have hlen : 0 < pairs.length := List.length_pos.mpr hne
  have hc : ¬ ((name :: k :: fieldValueTokens pairs).length < 4
      ∨ (name :: k :: fieldValueTokens pairs).length % 2 = 1) := by
    simp only [List.length_cons, length_fieldValueTokens]
    omega
  rw [hd, cmdHmset, if_neg hc]
  simp only [pairUp_fieldValueTokens]

theorem run_hsetRequests (k : Str) (tp : List (Int × Str × Str)) (s : KVStore) :
    runCommands (hsetRequests k tp) s = .ok (hashSetMultiple k (tp.map Prod.snd) s) := by
  induction tp generalizing s with
  | nil => rfl
  | cons t tp ih =>
    have hd : dispatch t.1 ["HSET".toList, k, t.2.1, t.2.2] s
        = .ok (":1\r\n".toList, (hashSet k t.2.1 t.2.2 s).2) := rfl
    simp only [hsetRequests, List.map_cons, runCommands, hd]
    exact ih _

/-- The hash stored at `k` after `hashSetMultiple`: the pairs are assigned one by one to
the hash `k` had, an empty one when `k` had none. -/
theorem find_hashSetMultiple (k : Str) (pairs : List (Str × Str)) (s : KVStore)
    (hne : pairs ≠ []) :
    UMap.find (hashSetMultiple k pairs s).hashData_ k
      = some (pairs.foldl (fun h p => UMap.assign h p.1 p.2)
          ((UMap.find s.hashData_ k).getD [])) := by
  induction pairs generalizing s with
  | nil => exact absurd rfl hne
  | cons p pairs ih =>
    by_cases hp : pairs = []
    · subst hp
      simp only [hashSetMultiple, hashSet, List.foldl_cons, List.foldl_nil,
        UMap.find_assign_self]
    · rw [hashSetMultiple, ih _ hp]
      simp only [hashSet, UMap.find_assign_self, Option.getD_some, List.foldl_cons]

theorem lastValue_cons (p : Str × Str) (pairs : List (Str × Str)) (f : Str) :
    lastValue (p :: pairs) f
      = match lastValue pairs f with
        | some v => some v
        | none => if p.1 = f then some p.2 else none := by
  unfold lastValue
  by_cases hp : p.1 = f
  · simp only [List.filter_cons, hp, decide_True, if_true]
    cases hq : pairs.filter (fun p => decide (p.1 = f)) with
    | nil => rfl
    | cons q qs =>
      rw [List.getLast?_cons_cons, List.getLast?_eq_getLast _ (List.cons_ne_nil q qs)]
      rfl
  · simp only [List.filter_cons, hp, decide_False, Bool.false_eq_true, if_false]
    generalize Option.map Prod.snd (pairs.filter (fun p => decide (p.1 = f))).getLast? = o
    cases o <;> rfl

theorem find_foldl_assign (pairs : List (Str × Str)) (h : UMap Str) (f : Str) :
    UMap.find (pairs.foldl (fun h p => UMap.assign h p.1 p.2) h) f
      = match lastValue pairs f with
        | some v => some v
        | none => UMap.find h f := by
  induction pairs generalizing h with
  | nil => rfl
  | cons p pairs ih =>
    rw [List.foldl_cons, ih, lastValue_cons]
    cases lastValue pairs f with
    | some v => rfl
    | none =>
      by_cases hp : p.1 = f
      · simp only [hp, if_true, UMap.find_assign_self]
      · simp only [hp, if_false, UMap.find_assign_ne _ _ _ _ hp]

theorem lastValue_eq_none (pairs : List (Str × Str)) (f : Str) :
    lastValue pairs f = none ↔ ∀ p ∈ pairs, p.1 ≠ f := by
  induction pairs with
  | nil => simp [lastValue]
  | cons p pairs ih =>
    rw [lastValue_cons]
    cases hl : lastValue pairs f with
    | some v =>
      simp only [false_iff, reduceCtorEq]
      intro hall
      have := ih.mpr (fun q hq => hall q (List.mem_cons_of_mem _ hq))
      rw [hl] at this
      cases this
    | none =>
      have hall := ih.mp hl
      by_cases hp : p.1 = f
      · simp [hp]
      · simp only [hp, if_false, true_iff]
        intro q hq
        rcases List.mem_cons.mp hq with rfl | hq
        · exact hp
        · exact hall q hq

theorem keys_assign {V : Type} (m : UMap V) (k : Str) (v : V) :
    UMap.keys (UMap.assign m k v) = if k ∈ UMap.keys m then UMap.keys m else UMap.keys m ++ [k] := by
  induction m with
  | nil => rfl
  | cons e m ih =>
    obtain ⟨k', v'⟩ := e
    by_cases hk : k' = k
    · subst hk
      have hm : k' ∈ UMap.keys ((k', v') :: m) := List.mem_cons_self _ _
      rw [if_pos hm]
      simp only [UMap.assign, if_true, UMap.keys, List.map_cons]
    · have hk' : ¬ k = k' := fun h => hk h.symm
      simp only [UMap.keys] at ih
      simp only [UMap.assign, UMap.keys, hk, if_false, List.map_cons, List.mem_cons, hk',
        false_or, ih]
      split <;> rfl

theorem keys_foldl_assign (pairs : List (Str × Str)) (h : UMap Str)
    (hn : (UMap.keys h).Nodup) :
    (UMap.keys (pairs.foldl (fun h p => UMap.assign h p.1 p.2) h)).Nodup
    ∧ ∀ f, f ∈ UMap.keys (pairs.foldl (fun h p => UMap.assign h p.1 p.2) h)
        ↔ f ∈ UMap.keys h ∨ f ∈ pairs.map Prod.fst := by
  induction pairs generalizing h with
  | nil => simp [hn]
  | cons p pairs ih =>
    have hn1 : (UMap.keys (UMap.assign h p.1 p.2)).Nodup := by
      rw [keys_assign]
      split
      · exact hn
      · rename_i hp
        exact List.Nodup.append hn (List.nodup_singleton _) (by simpa using hp)
    have hm1 : ∀ f, f ∈ UMap.keys (UMap.assign h p.1 p.2) ↔ f ∈ UMap.keys h ∨ f = p.1 := by
      intro f
      rw [keys_assign]
      split
      · rename_i hp
        constructor
        · exact Or.inl
        · rintro (hf | rfl)
          · exact hf
          · exact hp
      · simp
    obtain ⟨h1, h2⟩ := ih _ hn1
    refine ⟨h1, fun f => ?_⟩
    rw [List.foldl_cons, h2, hm1]
    simp only [List.map_cons, List.mem_cons]
    tauto

/-- C22: for every key `k` and every non-empty sequence of pairs, `HMSET k f1 v1 ... fn vn`
(the command name in any letter case) replies `+OK\r\n` and leaves exactly the store that
`HSET k f1 v1`, ..., `HSET k fn vn`, executed in that order at any clock readings, leave;
afterwards `HGET k f` replies the bulk encoding of the last value paired with `f`, a
field that is not named has the value it had, and `HLEN k` replies the number of distinct
fields among those `k` had and those named. The hash stored at `k` has unique field names,
as every `std::unordered_map` has. -/
theorem C22_hmset (now : Int) (name k : Str) (tp : List (Int × Str × Str)) (s : KVStore)
    (hname : name.map toupper = "HMSET".toList) (hne : tp ≠ [])
    (hu : (hashGetFields k s).Nodup) :
    ∃ s', dispatch now (name :: k :: fieldValueTokens (tp.map Prod.snd)) s
        = .ok ("+OK\r\n".toList, s')
      ∧ runCommands (hsetRequests k tp) s = .ok s'
      ∧ (∀ (t : Int) (f v : Str), lastValue (tp.map Prod.snd) f = some v →
          dispatch t ["HGET".toList, k, f] s'
            = .ok ('$' :: natToString v.length ++ "\r\n".toList ++ v ++ "\r\n".toList, s'))
      ∧ (∀ f, (∀ p ∈ tp, p.2.1 ≠ f) → hashGet k f s' = hashGet k f s)
      ∧ (∀ t : Int, dispatch t ["HLEN".toList, k] s'
          = .ok (':' :: natToString
              (hashGetFields k s ++ tp.map (fun p => p.2.1)).toFinset.card ++ "\r\n".toList, s'))
      ∧ (hashGetFields k s').toFinset
          = (hashGetFields k s ++ tp.map (fun p => p.2.1)).toFinset := by
  have hne' : tp.map Prod.snd ≠ [] := by simpa using hne
  have hfind := find_hashSetMultiple k (tp.map Prod.snd) s hne'
  have hn0 : (UMap.keys ((UMap.find s.hashData_ k).getD [])).Nodup := by
    unfold hashGetFields at hu
    cases hf : UMap.find s.hashData_ k with
    | none => exact List.nodup_nil
    | some h =>
      rw [hf] at hu
      exact hu
  have hk0 : UMap.keys ((UMap.find s.hashData_ k).getD []) = hashGetFields k s := by
    unfold hashGetFields
    cases UMap.find s.hashData_ k <;> rfl
  obtain ⟨hnd, hmem⟩ := keys_foldl_assign (tp.map Prod.snd) _ hn0
  have hfields : hashGetFields k (hashSetMultiple k (tp.map Prod.snd) s)
      = UMap.keys ((tp.map Prod.snd).foldl (fun h p => UMap.assign h p.1 p.2)
          ((UMap.find s.hashData_ k).getD [])) := by
    simp only [hashGetFields, hfind]
    rfl
  have hset : (hashGetFields k (hashSetMultiple k (tp.map Prod.snd) s)).toFinset
      = (hashGetFields k s ++ tp.map (fun p => p.2.1)).toFinset := by
    ext f
    rw [hfields, List.mem_toFinset, List.mem_toFinset, hmem, hk0, List.mem_append]
    simp only [List.map_map]
    rfl
  refine ⟨hashSetMultiple k (tp.map Prod.snd) s, ?_, run_hsetRequests k tp s, ?_, ?_, ?_, hset⟩
  · exact dispatch_hmset now name k _ s hname hne'
  · intro t f v hv
    have hd : dispatch t ["HGET".toList, k, f] (hashSetMultiple k (tp.map Prod.snd) s)
        = .ok (cmdHget ["HGET".toList, k, f] (hashSetMultiple k (tp.map Prod.snd) s)) := rfl
    rw [hd]
    simp only [cmdHget, hashGet, hfind, find_foldl_assign, hv]
    rfl
  · intro f hf
    have hl : lastValue (tp.map Prod.snd) f = none := by
      rw [lastValue_eq_none]
      intro p hp
      obtain ⟨q, hq, rfl⟩ := List.mem_map.mp hp
      exact hf q hq
    simp only [hashGet, hfind, find_foldl_assign, hl]
    cases UMap.find s.hashData_ k <;> rfl
  · intro t
    have hd : dispatch t ["HLEN".toList, k] (hashSetMultiple k (tp.map Prod.snd) s)
        = .ok (cmdHlen ["HLEN".toList, k] (hashSetMultiple k (tp.map Prod.snd) s)) := rfl
    have hsize : hashSize k (hashSetMultiple k (tp.map Prod.snd) s)
        = ((hashGetFields k s ++ tp.map (fun p => p.2.1)).toFinset.card : Int) := by
      rw [← hset, hfields, List.toFinset_card_of_nodup hnd]
      simp only [hashSize, hfind, UMap.keys, List.length_map]
    rw [hd]
    simp only [cmdHlen, hsize, intReply_nat]

theorem hmset_example :
    dispatch 5 ["hmset".toList, "h".toList, "f".toList, "1".toList, "g".toList, "2".toList,
        "f".toList, "3".toList] KVStore.empty
      = .ok ("+OK\r\n".toList,
          ⟨[], [], [("h".toList, [("f".toList, "3".toList), ("g".toList, "2".toList)])], []⟩)
    ∧ dispatch 6 ["HGET".toList, "h".toList, "f".toList]
        ⟨[], [], [("h".toList, [("f".toList, "3".toList), ("g".toList, "2".toList)])], []⟩
      = .ok ("$1\r\n3\r\n".toList,
          ⟨[], [], [("h".toList, [("f".toList, "3".toList), ("g".toList, "2".toList)])], []⟩)
    ∧ dispatch 7 ["HLEN".toList, "h".toList]
        ⟨[], [], [("h".toList, [("f".toList, "3".toList), ("g".toList, "2".toList)])], []⟩
      = .ok (":2\r\n".toList,
          ⟨[], [], [("h".toList, [("f".toList, "3".toList), ("g".toList, "2".toList)])], []⟩) :=
  ⟨rfl, rfl, rfl⟩

/-- C22, witness: `hmset h f 1 g 2 f 3` on the empty store, against `HSET h f 1`,
`HSET h g 2`, `HSET h f 3` executed at the clock readings 1, 2 and 3. -/
theorem C22_hmset_witness :
    "hmset".toList.map toupper = "HMSET".toList
    ∧ [((1 : Int), "f".toList, "1".toList), (2, "g".toList, "2".toList),
        (3, "f".toList, "3".toList)] ≠ []
    ∧ (hashGetFields "h".toList KVStore.empty).Nodup
    ∧ ∃ s', dispatch 5 ["hmset".toList, "h".toList, "f".toList, "1".toList, "g".toList,
          "2".toList, "f".toList, "3".toList] KVStore.empty = .ok ("+OK\r\n".toList, s')
        ∧ runCommands [(1, ["HSET".toList, "h".toList, "f".toList, "1".toList]),
            (2, ["HSET".toList, "h".toList, "g".toList, "2".toList]),
            (3, ["HSET".toList, "h".toList, "f".toList, "3".toList])] KVStore.empty = .ok s' :=
  ⟨by decide, by simp, List.nodup_nil,
    let ⟨s', h1, h2, _⟩ := C22_hmset 5 "hmset".toList "h".toList
      [(1, "f".toList, "1".toList), (2, "g".toList, "2".toList), (3, "f".toList, "3".toList)]
      KVStore.empty (by decide) (by simp) List.nodup_nil
    ⟨s', h1, h2⟩⟩

/-! ## C23: KEYS -/

theorem mem_keys_iff {V : Type} (m : UMap V) (k : Str) :
    k ∈ UMap.keys m ↔ UMap.contains m k = true := by
  induction m with
  | nil => simp [UMap.keys, UMap.contains, UMap.find]
  | cons e m ih =>
    obtain ⟨k', v'⟩ := e
    simp only [UMap.keys, UMap.contains] at ih
    by_cases hk : k' = k
    · subst hk
      simp only [UMap.keys, UMap.contains, UMap.find, if_true, List.map_cons, List.mem_cons,
        true_or, Option.isSome_some]
    · have hk' : ¬ k = k' := fun h => hk h.symm
      simp only [UMap.keys, UMap.contains, UMap.find, hk, if_false, List.map_cons,
        List.mem_cons, hk', false_or, ih]

theorem keys_erase {V : Type} (m : UMap V) (k : Str) :
    UMap.keys (UMap.erase m k) = (UMap.keys m).filter (fun x => !decide (x = k)) := by
  induction m with
  | nil => rfl
  | cons e m ih =>
    obtain ⟨k', v'⟩ := e
    simp only [UMap.keys] at ih
    by_cases hk : k' = k
    · subst hk
      simp only [UMap.erase, UMap.keys, if_true, ih, List.map_cons, List.filter_cons,
        decide_True, Bool.not_true, Bool.false_eq_true, if_false]
    · simp only [UMap.erase, UMap.keys, hk, if_false, ih, List.map_cons, List.filter_cons,
        decide_False, Bool.not_false, if_true]

theorem nodup_keys_erase {V : Type} (m : UMap V) (k : Str) (h : (UMap.keys m).Nodup) :
    (UMap.keys (UMap.erase m k)).Nodup := by
  rw [keys_erase]
  exact h.filter _

theorem uniqueKeys_cleanupLoop (now : Int) (todo : UMap Int) (s : KVStore)
    (h : UniqueKeys s) : UniqueKeys (cleanupLoop now todo s) := by
  induction todo generalizing s with
  | nil => exact h
  | cons e todo ih =>
    obtain ⟨k, t⟩ := e
    unfold cleanupLoop
    split
    · exact ih _ ⟨nodup_keys_erase _ k h.1, nodup_keys_erase _ k h.2.1,
        nodup_keys_erase _ k h.2.2⟩
    · exact ih _ h

theorem uniqueKeys_cleanupExpired (now : Int) (s : KVStore) (h : UniqueKeys s) :
    UniqueKeys (cleanupExpired now s) :=
  uniqueKeys_cleanupLoop now _ s h

/-- A key is in the result of `getAllKeys` exactly when one of the three value maps holds
it after the sweep; the result has one entry per key of each map. -/
theorem getAllKeys_mem (now : Int) (s : KVStore) (k : Str) :
    k ∈ (getAllKeys now s).1
      ↔ (UMap.contains (cleanupExpired now s).stringData_ k = true
        ∨ UMap.contains (cleanupExpired now s).listData_ k = true
        ∨ UMap.contains (cleanupExpired now s).hashData_ k = true) := by
  simp only [getAllKeys, List.mem_append, mem_keys_iff, or_assoc]

theorem getAllKeys_length (now : Int) (s : KVStore) :
    (getAllKeys now s).1.length
      = (cleanupExpired now s).stringData_.length + (cleanupExpired now s).listData_.length
        + (cleanupExpired now s).hashData_.length := by
  simp only [getAllKeys, List.length_append, UMap.keys, List.length_map]

/-- With unique keys per map, the result of `getAllKeys` has no key twice exactly when no
key is in two value maps after the sweep. -/
theorem getAllKeys_nodup_iff (now : Int) (s : KVStore) (hu : UniqueKeys s) :
    (getAllKeys now s).1.Nodup ↔ OneKind (cleanupExpired now s) := by
  obtain ⟨u1, u2, u3⟩ := uniqueKeys_cleanupExpired now s hu
  simp only [getAllKeys, OneKind, List.nodup_append, u1, u2, u3, true_and, List.Disjoint,
    List.mem_append, ← mem_keys_iff]
  constructor
  · rintro ⟨h12, h3⟩ k
    exact ⟨fun c => h12 c.1 c.2, fun c => h3 (Or.inl c.1) c.2, fun c => h3 (Or.inr c.1) c.2⟩
  · intro h
    refine ⟨fun {k} a b => (h k).1 ⟨a, b⟩, fun {k} a b => ?_⟩
    rcases a with a | a
    · exact (h k).2.1 ⟨a, b⟩
    · exact (h k).2.2 ⟨a, b⟩

/-- C23 (amended): for every store state in which no key is in two value maps after the
expiry sweep (each map holding a key once), `getAllKeys` returns the union of the key sets
of the three value maps after the sweep: a key occurs in the result iff it is in at least
one value map, no key occurs twice, and the array count of the `KEYS` reply is the number
of distinct present keys. -/
theorem C23_getAllKeys (now : Int) (s : KVStore) (rest : List Str) (hu : UniqueKeys s)
    (h1 : OneKind (cleanupExpired now s)) :
    (∀ k, k ∈ (getAllKeys now s).1
      ↔ (UMap.contains (cleanupExpired now s).stringData_ k = true
        ∨ UMap.contains (cleanupExpired now s).listData_ k = true
        ∨ UMap.contains (cleanupExpired now s).hashData_ k = true))
    ∧ (getAllKeys now s).1.Nodup
    ∧ dispatch now ("KEYS".toList :: rest) s
      = .ok ('*' :: natToString
            (UMap.keys (cleanupExpired now s).stringData_
              ++ UMap.keys (cleanupExpired now s).listData_
              ++ UMap.keys (cleanupExpired now s).hashData_).toFinset.card
          ++ "\r\n".toList
          ++ ((getAllKeys now s).1.map
              (fun k => '$' :: natToString k.length ++ "\r\n".toList ++ k ++ "\r\n".toList)).flatten,
          cleanupExpired now s) := by
  have hn := (getAllKeys_nodup_iff now s hu).mpr h1
  refine ⟨getAllKeys_mem now s, hn, ?_⟩
  have hd : dispatch now ("KEYS".toList :: rest) s
      = .ok (cmdKeys now ("KEYS".toList :: rest) s) := rfl
  have hc : (UMap.keys (cleanupExpired now s).stringData_
        ++ UMap.keys (cleanupExpired now s).listData_
        ++ UMap.keys (cleanupExpired now s).hashData_).toFinset.card
      = (getAllKeys now s).1.length := List.toFinset_card_of_nodup hn
  rw [hd, hc]
  rfl

/-- C23, witness: a store with the string `a`, the list `b` and the hash `c`, none
expired at the clock reading 10. -/
theorem C23_getAllKeys_witness :
    UniqueKeys ⟨[("a".toList, "1".toList)], [("b".toList, ["x".toList])],
        [("c".toList, [("f".toList, "v".toList)])], [("a".toList, 20)]⟩
    ∧ OneKind (cleanupExpired 10 ⟨[("a".toList, "1".toList)], [("b".toList, ["x".toList])],
        [("c".toList, [("f".toList, "v".toList)])], [("a".toList, 20)]⟩)
    ∧ (getAllKeys 10 ⟨[("a".toList, "1".toList)], [("b".toList, ["x".toList])],
        [("c".toList, [("f".toList, "v".toList)])], [("a".toList, 20)]⟩).1.Nodup :=
  have hu : UniqueKeys ⟨[("a".toList, "1".toList)], [("b".toList, ["x".toList])],
      [("c".toList, [("f".toList, "v".toList)])], [("a".toList, 20)]⟩ := by
    simp [UniqueKeys, UMap.keys]
  have h1 : OneKind (cleanupExpired 10 ⟨[("a".toList, "1".toList)],
      [("b".toList, ["x".toList])], [("c".toList, [("f".toList, "v".toList)])],
      [("a".toList, 20)]⟩) :=
    (getAllKeys_nodup_iff 10 _ hu).mp (by decide)
  ⟨hu, h1, (C23_getAllKeys 10 _ [] hu h1).2.1⟩

/-- C23, counterexample: after `SET a 1` and `LPUSH a x` the key `a` is in the string map
and in the list map; `getAllKeys` returns it twice and `KEYS` replies an array of two
elements, for one present key. -/
theorem C23_counterexample :
    runCommands
        [(0, ["SET".toList, "a".toList, "1".toList]),
          (0, ["LPUSH".toList, "a".toList, "x".toList])] KVStore.empty
      = .ok ⟨[("a".toList, "1".toList)], [("a".toList, ["x".toList])], [], []⟩
    ∧ (getAllKeys 0 ⟨[("a".toList, "1".toList)], [("a".toList, ["x".toList])], [], []⟩).1
      = ["a".toList, "a".toList]
    ∧ ¬ (getAllKeys 0
        ⟨[("a".toList, "1".toList)], [("a".toList, ["x".toList])], [], []⟩).1.Nodup
    ∧ dispatch 0 ["KEYS".toList]
        ⟨[("a".toList, "1".toList)], [("a".toList, ["x".toList])], [], []⟩
      = .ok ("*2\r\n$1\r\na\r\n$1\r\na\r\n".toList,
          ⟨[("a".toList, "1".toList)], [("a".toList, ["x".toList])], [], []⟩) :=
  ⟨rfl, rfl, by decide, rfl⟩

/-! ## C24: plain-text requests -/

theorem splitOnP_run (p : Char → Bool) (s : Str) :
    s.splitOnP p
      = s.takeWhile (fun c => !p c)
        :: (match s.dropWhile (fun c => !p c) with
          | [] => []
          | _ :: r => r.splitOnP p) := by
  induction s with
  | nil => rfl
  | cons x xs ih =>
    rw [List.splitOnP_cons]
    by_cases hx : p x = true
    · simp only [hx, if_true, List.takeWhile_cons, List.dropWhile_cons, Bool.not_true,
        Bool.false_eq_true, if_false]
    · have hx' : p x = false := by simpa using hx
      simp only [hx', Bool.false_eq_true, if_false, List.takeWhile_cons, List.dropWhile_cons,
        Bool.not_false, if_true]
      rw [ih]
      rfl

theorem splitWhitespace_nil : splitWhitespace [] = [] := rfl

theorem splitWhitespace_space (c : Char) (r : Str) (hc : isspace c = true) :
    splitWhitespace (c :: r) = splitWhitespace r := by
  simp only [splitWhitespace, List.splitOnP_cons, hc, if_true]
  rfl

theorem splitWhitespace_dropWhile (s : Str) :
    splitWhitespace (s.dropWhile isspace) = splitWhitespace s := by
  induction s with
  | nil => rfl
  | cons c r ih =>
    by_cases hc : isspace c = true
    · rw [List.dropWhile_cons, if_pos hc, ih, splitWhitespace_space c r hc]
    · rw [List.dropWhile_cons, if_neg hc]

/-- A run that starts with a byte that is not white space is the first token; the tokens
after it are those of what follows the run. -/
theorem splitWhitespace_run (c : Char) (r : Str) (hc : isspace c = false) :
    splitWhitespace (c :: r)
      = (c :: r).takeWhile (fun c => !isspace c)
        :: splitWhitespace ((c :: r).dropWhile (fun c => !isspace c)) := by
  have hne : ((c :: r).takeWhile (fun c => !isspace c)).isEmpty = false := by
    simp only [List.takeWhile_cons, hc, Bool.not_false, if_true]
    rfl
  have h := splitOnP_run isspace (c :: r)
  unfold splitWhitespace
  rw [h, List.filter_cons, hne]
  simp only [Bool.not_false, if_true, List.cons.injEq, true_and]
  cases hd : (c :: r).dropWhile (fun c => !isspace c) with
  | nil => rfl
  | cons d r' =>
    have hsp : isspace d = true := by
      have := List.head_dropWhile_not (fun c => !isspace c) (c :: r) (by rw [hd]; simp)
      simpa [hd] using this
    simp only [List.splitOnP_cons, hsp, if_true]
    rfl

theorem length_dropWhile_le (p : Char → Bool) (s : Str) : (s.dropWhile p).length ≤ s.length := by
  induction s with
  | nil => exact le_refl _
  | cons c r ih =>
    rw [List.dropWhile_cons]
    split
    · exact Nat.le_succ_of_le ih
    · exact le_refl _

/-- The extraction loop with enough fuel (one unit per byte is enough) yields the split of
the specification. -/
theorem extractAll_eq_split (fuel : Nat) (s : Str) (h : s.length ≤ fuel) :
    extractAll fuel s = splitWhitespace s := by
  induction fuel generalizing s with
  | zero =>
    have : s = [] := List.length_eq_zero.mp (Nat.le_zero.mp h)
    subst this
    rfl
  | succ fuel ih =>
    rw [← splitWhitespace_dropWhile s]
    have hl := length_dropWhile_le isspace s
    cases hd : s.dropWhile isspace with
    | nil =>
      simp only [extractAll, extract, hd, List.takeWhile_nil, if_true]
      rfl
    | cons c r =>
      have hc : isspace c = false := by
        have := List.head_dropWhile_not isspace s (by rw [hd]; simp)
        simpa [hd] using this
      have htok : (c :: r).takeWhile (fun c => !isspace c) ≠ [] := by
        simp only [List.takeWhile_cons, hc, Bool.not_false, if_true]
        exact List.cons_ne_nil _ _
      rw [splitWhitespace_run c r hc]
      have hrest : ((c :: r).dropWhile (fun c => !isspace c)).length ≤ fuel := by
        have h1 : (c :: r).dropWhile (fun c => !isspace c)
            = r.dropWhile (fun c => !isspace c) := by
          simp only [List.dropWhile_cons, hc, Bool.not_false, if_true]
        have h2 := length_dropWhile_le (fun c => !isspace c) r
        rw [hd, List.length_cons] at hl
        rw [h1]
        omega
      simp only [extractAll, extract, hd, if_neg htok]
      rw [ih _ hrest]

theorem extract_some (s tok rest : Str) (h : extract s = (some tok, rest)) :
    tok ≠ [] ∧ (∀ c ∈ tok, isspace c = false) ∧ rest.length < s.length := by
  simp only [extract] at h
  split_ifs at h with he
  · simp only [Prod.mk.injEq, reduceCtorEq, false_and] at h
  simp only [Prod.mk.injEq, Option.some.injEq] at h
  obtain ⟨h1, h2⟩ := h
  refine ⟨h1 ▸ he, ?_, ?_⟩
  · intro c hc
    rw [← h1] at hc
    simpa using List.mem_takeWhile_imp hc
  · have hl := length_dropWhile_le isspace s
    have hsplit := List.takeWhile_append_dropWhile (fun c => !isspace c) (s.dropWhile isspace)
    have hlen := congrArg List.length hsplit
    rw [List.length_append] at hlen
    have hpos : 0 < (List.takeWhile (fun c => !isspace c) (s.dropWhile isspace)).length :=
      List.length_pos.mpr he
    rw [← h2]
    omega

theorem extractAll_tokens (fuel : Nat) (s : Str) :
    ∀ t ∈ extractAll fuel s, t ≠ [] ∧ ∀ c ∈ t, isspace c = false := by
  induction fuel generalizing s with
  | zero =>
    intro t ht
    simp [extractAll] at ht
  | succ fuel ih =>
    intro t ht
    rw [extractAll] at ht
    cases he : extract s with
    | mk o rest =>
      rw [he] at ht
      cases o with
      | none => simp at ht
      | some tok =>
        simp only [List.mem_cons] at ht
        rcases ht with rfl | ht
        · exact ⟨(extract_some s _ rest he).1, (extract_some s _ rest he).2.1⟩
        · exact ih rest t ht

theorem splitWhitespace_blank (s : Str) (h : ∀ c ∈ s, isspace c = true) :
    splitWhitespace s = [] := by
  induction s with
  | nil => rfl
  | cons c r ih =>
    rw [splitWhitespace_space c r (h c (List.mem_cons_self _ _))]
    exact ih (fun x hx => h x (List.mem_cons_of_mem _ hx))

/-- C24: for every non-empty input whose first byte is not `*`, `parseProtocol` returns
the input split on ASCII white space, that is its maximal runs of bytes that are not white
space, in order; every token is non-empty and has no white-space byte, and an input made
only of white space yields the empty list. -/
theorem C24_plain_text (input : Str) (hne : input ≠ []) (hstar : input.head? ≠ some '*') :
    parseProtocol input = .ok (splitWhitespace input)
    ∧ (∀ t ∈ splitWhitespace input, t ≠ [] ∧ ∀ c ∈ t, isspace c = false)
    ∧ ((∀ c ∈ input, isspace c = true) → parseProtocol input = .ok []) := by
  have hp : parseProtocol input = .ok (splitWhitespace input) := by
    rw [parseProtocol, if_neg hne, if_pos hstar, extractAll_eq_split _ _ (le_refl _)]
  refine ⟨hp, ?_, ?_⟩
  · rw [← extractAll_eq_split input.length input (le_refl _)]
    exact extractAll_tokens _ _
  · intro h
    rw [hp, splitWhitespace_blank input h]

/-- C24, witness: a request in plain text with runs of blanks, a tab and a final
`\r\n`. -/
theorem C24_plain_text_witness :
    "  SET  foo\tbar baz\r\n".toList ≠ []
    ∧ "  SET  foo\tbar baz\r\n".toList.head? ≠ some '*'
    ∧ splitWhitespace "  SET  foo\tbar baz\r\n".toList
      = ["SET".toList, "foo".toList, "bar".toList, "baz".toList]
    ∧ parseProtocol "  SET  foo\tbar baz\r\n".toList
      = .ok (splitWhitespace "  SET  foo\tbar baz\r\n".toList) :=
  ⟨by decide, by decide, by decide,
    (C24_plain_text "  SET  foo\tbar baz\r\n".toList (by decide) (by decide)).1⟩

theorem plain_text_examples :
    parseProtocol "  SET  foo\tbar baz\r\n".toList
      = .ok ["SET".toList, "foo".toList, "bar".toList, "baz".toList]
    ∧ parseProtocol " \t\r\n".toList = .ok []
    ∧ parseProtocol "PING".toList = .ok ["PING".toList] :=
  ⟨rfl, rfl, rfl⟩

/-! ## C25: lines of a snapshot that carry no record -/

theorem loadLine_other (uninit : Char) (line : Str) (st : KVStore) (c : Char)
    (hc : recordTypeOf line = some c) (hS : c ≠ 'S') (hL : c ≠ 'L') (hH : c ≠ 'H') :
    loadLine uninit line st = st := by
  unfold recordTypeOf at hc
  simp only [loadLine, hc, Option.getD_some, hS, hL, hH, if_false]

theorem loadLine_no_key (uninit : Char) (line : Str) (st : KVStore)
    (hk : keyTokenOf line = none) :
    (recordTypeOf line = some 'S' →
      loadLine uninit line st = { st with stringData_ := UMap.assign st.stringData_ [] [] })
    ∧ (recordTypeOf line = some 'L' →
      loadLine uninit line st = { st with listData_ := UMap.assign st.listData_ [] [] })
    ∧ (recordTypeOf line = some 'H' →
      loadLine uninit line st = { st with hashData_ := UMap.assign st.hashData_ [] [] }) := by
  unfold keyTokenOf at hk
  have hrest : (extract (line.dropWhile isspace).tail).2 = [] := by
    revert hk
    simp only [extract]
    split_ifs
    · intro _
      rfl
    · intro h
      cases h
  unfold recordTypeOf
  refine ⟨fun hc => ?_, fun hc => ?_, fun hc => ?_⟩
  · simp only [loadLine, hc, Option.getD_some, if_true, hk, hrest, Option.getD_none]
    rfl
  · have h1 : ('L' : Char) ≠ 'S' := by decide
    simp only [loadLine, hc, Option.getD_some, h1, if_false, if_true, hk, hrest,
      Option.getD_none]
    rfl
  · have h1 : ('H' : Char) ≠ 'S' := by decide
    have h2 : ('H' : Char) ≠ 'L' := by decide
    simp only [loadLine, hc, Option.getD_some, h1, h2, if_false, if_true, hk, hrest,
      Option.getD_none]
    rfl

/-- A key that is not empty was read from the line, and then the line has a record-type
character: the one the loop compares. -/
theorem key_of_line (uninit : Char) (line k : Str) (hk : k ≠ [])
    (h : (extract (line.dropWhile isspace).tail).1.getD [] = k) :
    keyTokenOf line = some k
    ∧ recordTypeOf line = some ((line.dropWhile isspace).head?.getD uninit) := by
  unfold keyTokenOf recordTypeOf
  constructor
  · cases he : (extract (line.dropWhile isspace).tail).1 with
    | none =>
      rw [he] at h
      exact absurd h.symm hk
    | some t =>
      rw [he] at h
      exact congrArg some h
  · cases hb : line.dropWhile isspace with
    | nil =>
      rw [hb] at h
      exact absurd h.symm hk
    | cons c rest => rfl

theorem loadLine_string_keys (uninit : Char) (line : Str) (st : KVStore) (k : Str)
    (hk : k ≠ []) (h : UMap.contains (loadLine uninit line st).stringData_ k = true) :
    UMap.contains st.stringData_ k = true
      ∨ (recordTypeOf line = some 'S' ∧ keyTokenOf line = some k) := by
  unfold loadLine at h
  simp only at h
  split_ifs at h with h1 h2 h3
  · simp only [contains_assign, Bool.or_eq_true, decide_eq_true_eq] at h
    rcases h with h | h
    · obtain ⟨a, b⟩ := key_of_line uninit line k hk h
      rw [h1] at b
      exact Or.inr ⟨b, a⟩
    · exact Or.inl h
  · exact Or.inl h
  · exact Or.inl h
  · exact Or.inl h

theorem loadLine_list_keys (uninit : Char) (line : Str) (st : KVStore) (k : Str)
    (hk : k ≠ []) (h : UMap.contains (loadLine uninit line st).listData_ k = true) :
    UMap.contains st.listData_ k = true
      ∨ (recordTypeOf line = some 'L' ∧ keyTokenOf line = some k) := by
  unfold loadLine at h
  simp only at h
  split_ifs at h with h1 h2 h3
  · exact Or.inl h
  · simp only [contains_assign, Bool.or_eq_true, decide_eq_true_eq] at h
    rcases h with h | h
    · obtain ⟨a, b⟩ := key_of_line uninit line k hk h
      rw [h2] at b
      exact Or.inr ⟨b, a⟩
    · exact Or.inl h
  · exact Or.inl h
  · exact Or.inl h

theorem loadLine_hash_keys (uninit : Char) (line : Str) (st : KVStore) (k : Str)
    (hk : k ≠ []) (h : UMap.contains (loadLine uninit line st).hashData_ k = true) :
    UMap.contains st.hashData_ k = true
      ∨ (recordTypeOf line = some 'H' ∧ keyTokenOf line = some k) := by
  unfold loadLine at h
  simp only at h
  split_ifs at h with h1 h2 h3
  · exact Or.inl h
  · exact Or.inl h
  · simp only [contains_assign, Bool.or_eq_true, decide_eq_true_eq] at h
    rcases h with h | h
    · obtain ⟨a, b⟩ := key_of_line uninit line k hk h
      rw [h3] at b
      exact Or.inr ⟨b, a⟩
    · exact Or.inl h
  · exact Or.inl h

/-- The keys of the three value maps after the loop of `loadFromDisk` over `ls`: a key
that is not empty was there before or is the key token of a line of its kind. -/
theorem load_keys (uninit : Char) (ls : List Str) (st : KVStore) (k : Str) (hk : k ≠ []) :
    (UMap.contains (ls.foldl (fun a line => loadLine uninit line a) st).stringData_ k = true →
      UMap.contains st.stringData_ k = true
        ∨ ∃ line ∈ ls, recordTypeOf line = some 'S' ∧ keyTokenOf line = some k)
    ∧ (UMap.contains (ls.foldl (fun a line => loadLine uninit line a) st).listData_ k = true →
      UMap.contains st.listData_ k = true
        ∨ ∃ line ∈ ls, recordTypeOf line = some 'L' ∧ keyTokenOf line = some k)
    ∧ (UMap.contains (ls.foldl (fun a line => loadLine uninit line a) st).hashData_ k = true →
      UMap.contains st.hashData_ k = true
        ∨ ∃ line ∈ ls, recordTypeOf line = some 'H' ∧ keyTokenOf line = some k) := by
  induction ls generalizing st with
  | nil => exact ⟨Or.inl, Or.inl, Or.inl⟩
  | cons l ls ih =>
    obtain ⟨i1, i2, i3⟩ := ih (loadLine uninit l st)
    simp only [List.foldl_cons, List.mem_cons, exists_eq_or_imp]
    refine ⟨fun h => ?_, fun h => ?_, fun h => ?_⟩
    · rcases i1 h with h | h
      · rcases loadLine_string_keys uninit l st k hk h with h | h
        · exact Or.inl h
        · exact Or.inr (Or.inl h)
      · exact Or.inr (Or.inr h)
    · rcases i2 h with h | h
      · rcases loadLine_list_keys uninit l st k hk h with h | h
        · exact Or.inl h
        · exact Or.inr (Or.inl h)
      · exact Or.inr (Or.inr h)
    · rcases i3 h with h | h
      · rcases loadLine_hash_keys uninit l st k hk h with h | h
        · exact Or.inl h
        · exact Or.inr (Or.inl h)
      · exact Or.inr (Or.inr h)

/-- C25 (amended): for every snapshot text, `loadFromDisk` adds no key for a line whose
record-type character is not `S`, `L` or `H`; a line whose record-type character is `S`,
`L` or `H` and that has no key token after it adds the empty key to the map of its kind
(with an empty string, list or hash); and every key of a value map after the load that
is not the empty key is the key token of an `S`, `L` or `H` line of the text, of the kind
of the map. -/
theorem C25_load_lines (uninit : Char) (text : Str) (s : KVStore) :
    (∀ (line : Str) (st : KVStore) (c : Char), recordTypeOf line = some c →
      c ≠ 'S' → c ≠ 'L' → c ≠ 'H' → loadLine uninit line st = st)
    ∧ (∀ (line : Str) (st : KVStore), keyTokenOf line = none →
      (recordTypeOf line = some 'S' →
        loadLine uninit line st = { st with stringData_ := UMap.assign st.stringData_ [] [] })
      ∧ (recordTypeOf line = some 'L' →
        loadLine uninit line st = { st with listData_ := UMap.assign st.listData_ [] [] })
      ∧ (recordTypeOf line = some 'H' →
        loadLine uninit line st = { st with hashData_ := UMap.assign st.hashData_ [] [] }))
    ∧ (∀ k : Str, k ≠ [] →
      (UMap.contains (loadFromDisk uninit (some text) s).2.stringData_ k = true →
        ∃ line ∈ getlines text [], recordTypeOf line = some 'S' ∧ keyTokenOf line = some k)
      ∧ (UMap.contains (loadFromDisk uninit (some text) s).2.listData_ k = true →
        ∃ line ∈ getlines text [], recordTypeOf line = some 'L' ∧ keyTokenOf line = some k)
      ∧ (UMap.contains (loadFromDisk uninit (some text) s).2.hashData_ k = true →
        ∃ line ∈ getlines text [], recordTypeOf line = some 'H' ∧ keyTokenOf line = some k)) := by
  refine ⟨fun line st c hc hS hL hH => loadLine_other uninit line st c hc hS hL hH,
    fun line st hk => loadLine_no_key uninit line st hk, fun k hk => ?_⟩
  obtain ⟨h1, h2, h3⟩ := load_keys uninit (getlines text [])
    { stringData_ := [], listData_ := [], hashData_ := [], expiryTimes_ := s.expiryTimes_ } k hk
  refine ⟨fun h => ?_, fun h => ?_, fun h => ?_⟩
  · rcases h1 h with h | h
    · cases h
    · exact h
  · rcases h2 h with h | h
    · cases h
    · exact h
  · rcases h3 h with h | h
    · cases h
    · exact h

/-- C25, counterexample: the snapshot of the three lines `S`, `L` and `H`. Each line has
a record-type character and no key token, and each adds the empty key to the map of its
kind. -/
theorem C25_counterexample :
    recordTypeOf "S".toList = some 'S' ∧ keyTokenOf "S".toList = none
    ∧ recordTypeOf "L".toList = some 'L' ∧ keyTokenOf "L".toList = none
    ∧ getlines "S\nL\nH\n".toList [] = ["S".toList, "L".toList, "H".toList]
    ∧ loadFromDisk 'x' (some "S\nL\nH\n".toList) KVStore.empty
      = (true, ⟨[([], [])], [([], [])], [([], [])], []⟩)
    ∧ UMap.contains (loadFromDisk 'x' (some "S\n".toList) KVStore.empty).2.stringData_ []
      = true :=
  ⟨rfl, rfl, rfl, rfl, rfl, rfl, rfl⟩

theorem load_examples :
    loadFromDisk 'x' (some "X a b\nS k v\n# note\n  L l 1 2\nHh f:1\n".toList) KVStore.empty
      = (true, ⟨[("k".toList, "v".toList)], [("l".toList, ["1".toList, "2".toList])],
          [("h".toList, [("f".toList, "1".toList)])], []⟩) := rfl

/-! ## C27: rename and expiry -/

/-- C27 (amended): for distinct keys `old` and `new`, after `renameKey(old, new)` the key
`old` has no expiry entry; when `old` had an expiry entry after the sweep (one that has not
passed), `new` has exactly that entry; when `old` had none, the expiry entry of `new` is
left as the sweep left it, so an expiry set on `new` before the call that has not passed
stays on `new`. -/
theorem C27_rename_expiry (now : Int) (old new : Str) (s : KVStore) (hne : old ≠ new) :
    UMap.find (renameKey now old new s).2.expiryTimes_ old = none
    ∧ (∀ e, UMap.find (cleanupExpired now s).expiryTimes_ old = some e →
        UMap.find (renameKey now old new s).2.expiryTimes_ new = some e)
    ∧ (UMap.find (cleanupExpired now s).expiryTimes_ old = none →
        UMap.find (renameKey now old new s).2.expiryTimes_ new
          = UMap.find (cleanupExpired now s).expiryTimes_ new)
    ∧ (∀ e, UMap.find s.expiryTimes_ old = some e →
        (∀ t, (old, t) ∈ s.expiryTimes_ → now ≤ t) →
        UMap.find (renameKey now old new s).2.expiryTimes_ new = some e)
    ∧ (∀ e, UMap.find s.expiryTimes_ old = none → UMap.find s.expiryTimes_ new = some e →
        (∀ t, (new, t) ∈ s.expiryTimes_ → now ≤ t) →
        UMap.find (renameKey now old new s).2.expiryTimes_ new = some e) := by
  have hexp : (renameKey now old new s).2.expiryTimes_
      = renameIn (cleanupExpired now s).expiryTimes_ old new := rfl
  have hsw := fun k => (cleanupExpired_find now k s).2.2.2
  have hold : ∀ e, UMap.find (cleanupExpired now s).expiryTimes_ old = some e →
      UMap.find (renameKey now old new s).2.expiryTimes_ new = some e := by
    intro e he
    rw [hexp]
    exact renameIn_find_new _ old new e hne he
  have hnone : UMap.find (cleanupExpired now s).expiryTimes_ old = none →
      UMap.find (renameKey now old new s).2.expiryTimes_ new
        = UMap.find (cleanupExpired now s).expiryTimes_ new := by
    intro h
    rw [hexp, renameIn_of_absent _ old new h]
  refine ⟨?_, hold, hnone, ?_, ?_⟩
  · rw [hexp]
    cases h : UMap.find (cleanupExpired now s).expiryTimes_ old with
    | none => rw [renameIn_of_absent _ old new h, h]
    | some e => exact renameIn_find_old _ old new e h
  · intro e he ht
    apply hold
    rw [hsw old, expiredIn_eq_false now _ old ht, he]
    rfl
  · intro e ho hn ht
    have h1 : UMap.find (cleanupExpired now s).expiryTimes_ old = none := by
      rw [hsw old, ho]
      simp
    rw [hnone h1, hsw new, expiredIn_eq_false now _ new ht, hn]
    rfl

/-- C27, witness: `a` expires at 50 and `b` at 100; renaming `a` to `b` at the clock
reading 10 leaves `a` without an expiry entry and `b` with the entry 50. -/
theorem C27_rename_expiry_witness :
    "a".toList ≠ "b".toList
    ∧ UMap.find (renameKey 10 "a".toList "b".toList
        ⟨[("a".toList, "1".toList), ("b".toList, "2".toList)], [], [],
          [("a".toList, 50), ("b".toList, 100)]⟩).2.expiryTimes_ "a".toList = none
    ∧ UMap.find (renameKey 10 "a".toList "b".toList
        ⟨[("a".toList, "1".toList), ("b".toList, "2".toList)], [], [],
          [("a".toList, 50), ("b".toList, 100)]⟩).2.expiryTimes_ "b".toList = some 50 :=
  have h := C27_rename_expiry 10 "a".toList "b".toList
    ⟨[("a".toList, "1".toList), ("b".toList, "2".toList)], [], [],
      [("a".toList, 50), ("b".toList, 100)]⟩ (by decide)
  ⟨by decide, h.1, h.2.1 50 rfl⟩

/-- C27, counterexample: `a` has no expiry entry and `b` expires at 100. Renaming `a` to
`b` at the clock reading 10 returns true and leaves the entry of `b`: the renamed value
expires at 100, and `GET b` at 200 replies nil. -/
theorem C27_counterexample :
    "a".toList ≠ "b".toList
    ∧ UMap.find (⟨[("a".toList, "1".toList), ("b".toList, "2".toList)], [], [],
        [("b".toList, 100)]⟩ : KVStore).expiryTimes_ "a".toList = none
    ∧ renameKey 10 "a".toList "b".toList
        ⟨[("a".toList, "1".toList), ("b".toList, "2".toList)], [], [], [("b".toList, 100)]⟩
      = (true, ⟨[("b".toList, "1".toList)], [], [], [("b".toList, 100)]⟩)
    ∧ UMap.find (renameKey 10 "a".toList "b".toList
        ⟨[("a".toList, "1".toList), ("b".toList, "2".toList)], [], [],
          [("b".toList, 100)]⟩).2.expiryTimes_ "b".toList = some 100
    ∧ dispatch 200 ["GET".toList, "b".toList]
        ⟨[("b".toList, "1".toList)], [], [], [("b".toList, 100)]⟩
      = .ok ("$-1\r\n".toList, ⟨[], [], [], []⟩) :=
  ⟨by decide, rfl, rfl, rfl, rfl⟩

/-! ## C28: the bulk strings of a request -/

theorem findCrlf_bound (s : Str) (n : Nat) (h : findCrlf s = some n) : n + 2 ≤ s.length := by
  induction s generalizing n with
  | nil => cases h
  | cons c rest ih =>
    rw [findCrlf] at h
    by_cases hc : c = '\r' ∧ rest.head? = some '\n'
    · rw [if_pos hc] at h
      cases h
      cases rest with
      | nil => cases hc.2
      | cons d r =>
        simp only [List.length_cons]
        omega
    · rw [if_neg hc] at h
      cases hf : findCrlf rest with
      | none =>
        rw [hf] at h
        cases h
      | some m =>
        rw [hf] at h
        cases h
        have := ih m hf
        simp only [List.length_cons]
        omega

theorem findFrom_bound (input : Str) (pos c : Nat) (h : findFrom input pos = some c) :
    pos ≤ c ∧ c + 2 ≤ input.length := by
  unfold findFrom at h
  cases hf : findCrlf (input.drop pos) with
  | none =>
    rw [hf] at h
    cases h
  | some m =>
    rw [hf] at h
    have hc : m + pos = c := by
      simpa using h
    have := findCrlf_bound _ m hf
    rw [List.length_drop] at this
    omega

theorem substr_ok (input : Str) (pos n : Nat) (t : Str) (h : substr input pos n = .ok t) :
    t = (input.drop pos).take n := by
  unfold substr at h
  split_ifs at h
  cases h
  rfl

theorem substr_of_le (input : Str) (pos n : Nat) (h : pos ≤ input.length) :
    substr input pos n = .ok ((input.drop pos).take n) := by
  unfold substr
  rw [if_neg (by omega)]

/-- One iteration of the loop of `parseProtocol` that finds a header `$<L>\r\n` at the
read position. -/
theorem parseElements_header (input : Str) (todo pos c : Nat) (tokens : List Str) (L : Int)
    (hb : ¬ (pos ≥ input.length ∨ input.get? pos ≠ some '$'))
    (hf : findFrom input (pos + 1) = some c)
    (hs : stoi ((input.drop (pos + 1)).take (c - (pos + 1))) = .ok L) :
    parseElements input (todo + 1) pos tokens
      = if wrap64 (((c + 2 : Nat) : Int) + L) > input.length then .ok tokens
        else parseElements input todo (wrap64 (((c + 2 : Nat) : Int) + wrap32 (L + 2)))
          (tokens ++ [(input.drop (c + 2)).take (wrap64 L)]) := by
  have hpos : pos + 1 ≤ input.length := by
    have : ¬ pos ≥ input.length := fun h => hb (Or.inl h)
    omega
  have hc := (findFrom_bound input (pos + 1) c hf).2
  rw [parseElements, if_neg hb]
  simp only [hf, substr_of_le input (pos + 1) _ hpos, hs,
    substr_of_le input (c + 2) _ hc]

theorem parseElements_no_header (input : Str) (todo pos : Nat) (tokens : List Str)
    (hb : ¬ (pos ≥ input.length ∨ input.get? pos ≠ some '$'))
    (hf : findFrom input (pos + 1) = none) :
    parseElements input (todo + 1) pos tokens = .ok tokens := by
  rw [parseElements, if_neg hb]
  simp only [hf]

theorem parseElements_bad_length (input : Str) (todo pos c : Nat) (tokens : List Str)
    (e : Fault) (hb : ¬ (pos ≥ input.length ∨ input.get? pos ≠ some '$'))
    (hf : findFrom input (pos + 1) = some c)
    (hs : stoi ((input.drop (pos + 1)).take (c - (pos + 1))) = .error e) :
    parseElements input (todo + 1) pos tokens = .error e := by
  have hpos : pos + 1 ≤ input.length := by
    have : ¬ pos ≥ input.length := fun h => hb (Or.inl h)
    omega
  rw [parseElements, if_neg hb]
  simp only [hf, substr_of_le input (pos + 1) _ hpos, hs]

/-- What the loop of `parseProtocol` returns: the tokens it had, then at most one token per
remaining iteration, each read after its header as `BulkFrames` says. A `std::string` is
shorter than `2^63` bytes. -/
theorem parseElements_framed (input : Str) (hlen : input.length < 9223372036854775808)
    (todo pos : Nat) (tokens out : List Str)
    (h : parseElements input todo pos tokens = .ok out) :
    ∃ new, out = tokens ++ new ∧ new.length ≤ todo ∧ BulkFrames input pos new := by
  induction todo generalizing pos tokens with
  | zero =>
    rw [parseElements] at h
    cases h
    exact ⟨[], by simp, le_refl _, .done pos⟩
  | succ todo ih =>
    have stop : parseElements input (todo + 1) pos tokens = .ok tokens →
        ∃ new, out = tokens ++ new ∧ new.length ≤ todo + 1 ∧ BulkFrames input pos new := by
      intro h'
      rw [h'] at h
      cases h
      exact ⟨[], by simp, Nat.zero_le _, .done pos⟩
    by_cases hb : pos ≥ input.length ∨ input.get? pos ≠ some '$'
    · exact stop (by rw [parseElements, if_pos hb])
    · have hget : input.get? pos = some '$' := by
        by_contra hne
        exact hb (Or.inr hne)
      cases hf : findFrom input (pos + 1) with
      | none => exact stop (parseElements_no_header input todo pos tokens hb hf)
      | some c =>
        obtain ⟨hc1, hc2⟩ := findFrom_bound input (pos + 1) c hf
        cases hs : stoi ((input.drop (pos + 1)).take (c - (pos + 1))) with
        | error e =>
          rw [parseElements_bad_length input todo pos c tokens e hb hf hs] at h
          cases h
        | ok L =>
          obtain ⟨hL0, hL1⟩ := stoi_range _ L hs
          have hstep := parseElements_header input todo pos c tokens L hb hf hs
          by_cases hg : wrap64 (((c + 2 : Nat) : Int) + L) > input.length
          · rw [if_pos hg] at hstep
            exact stop hstep
          · rw [if_neg hg] at hstep
            rw [hstep] at h
            obtain ⟨new, hout, hn, hfr⟩ := ih _ _ h
            refine ⟨(input.drop (c + 2)).take (wrap64 L) :: new, ?_, ?_, ?_⟩
            · rw [hout]
              simp
            · simp only [List.length_cons]
              omega
            · by_cases hneg : L < 0
              · have hw : input.length ≤ wrap64 L := by
                  unfold wrap64
                  omega
                have htake : (input.drop (c + 2)).take (wrap64 L) = input.drop (c + 2) := by
                  apply List.take_of_length_le
                  rw [List.length_drop]
                  omega
                rw [htake]
                exact .negative pos c L new hget hf hs hneg hfr
              · have hL : 0 ≤ L := by omega
                have hw : wrap64 L = L.toNat := wrap64_of_lt L hL (by omega)
                have hsum : wrap64 (((c + 2 : Nat) : Int) + L) = c + 2 + L.toNat := by
                  rw [wrap64_of_lt _ (by omega) (by omega)]
                  omega
                rw [hsum] at hg
                have hfit : c + 2 + L.toNat ≤ input.length := by omega
                rw [hw]
                refine .bulk pos c L new hget hf hs hL hfit ?_ hfr
                rw [List.length_take, List.length_drop]
                omega

/-- What `parseProtocol` returns on an input that begins with `*`: no token, or at most as
many tokens as the header `*<N>\r\n` declares (none when `N ≤ 0`), each read after its
header as `BulkFrames` says; in particular a token after a header with `0 ≤ L` is exactly
`L` bytes long. -/
theorem parseProtocol_framed (input : Str) (tokens : List Str)
    (hlen : input.length < 9223372036854775808) (hstar : input.head? = some '*')
    (h : parseProtocol input = .ok tokens) :
    tokens = []
    ∨ ∃ (c : Nat) (N : Int), findFrom input 1 = some c
        ∧ stoi ((input.drop 1).take (c - 1)) = .ok N
        ∧ tokens.length ≤ N.toNat ∧ (N ≤ 0 → tokens = [])
        ∧ BulkFrames input (c + 2) tokens := by
  have hne : input ≠ [] := by
    intro he
    rw [he] at hstar
    cases hstar
  have h1 : 1 ≤ input.length := by
    cases input with
    | nil => exact absurd rfl hne
    | cons a r => simp
  rw [parseProtocol, if_neg hne, if_neg (by simp [hstar])] at h
  cases hf : findFrom input 1 with
  | none =>
    simp only [hf] at h
    cases h
    exact Or.inl rfl
  | some c =>
    simp only [hf, substr_of_le input 1 _ h1] at h
    cases hs : stoi ((input.drop 1).take (c - 1)) with
    | error e =>
      simp only [hs] at h
      cases h
    | ok N =>
      simp only [hs] at h
      obtain ⟨new, hout, hn, hfr⟩ := parseElements_framed input hlen _ _ _ _ h
      rw [List.nil_append] at hout
      subst hout
      refine Or.inr ⟨c, N, rfl, hs, hn, fun h0 => ?_, hfr⟩
      have : N.toNat = 0 := by omega
      rw [this] at hn
      exact List.length_eq_zero.mp (Nat.le_zero.mp hn)

theorem bulk_examples :
    parseProtocol "*2\r\n$0\r\n\r\n$3\r\nabc\r\n".toList = .ok [[], "abc".toList]
    ∧ parseProtocol "*1\r\n$3\r\nabcdef".toList = .ok ["abc".toList]
    ∧ parseProtocol "*2\r\n$3\r\nabc\r\n".toList = .ok ["abc".toList]
    ∧ parseProtocol "*-1\r\n$3\r\nabc\r\n".toList = .ok []
    ∧ parseProtocol "*1\r\n$4\r\nabc".toList = .ok [] :=
  ⟨rfl, rfl, rfl, rfl, rfl⟩

/-- C28, failing input: on `*1\r\n$-1\r\nabc` the header `$-1\r\n` declares the length
`-1`; the bound check `pos + strLen > input.size()` is made on unsigned values and passes,
`substr(pos, strLen)` takes all that is left, and the token returned is `abc`, three bytes
long. On `*3\r\n$-7\r\nabc` the read position moves back onto the same header, which is
read three times. -/
theorem C28_negative_length :
    stoi "-1".toList = .ok (-1)
    ∧ parseProtocol "*1\r\n$-1\r\nabc".toList = .ok ["abc".toList]
    ∧ ("abc".toList.length : Int) ≠ -1
    ∧ parseProtocol "*2\r\n$-1\r\n$3\r\nabc\r\n".toList = .ok ["$3\r\nabc\r\n".toList]
    ∧ parseProtocol "*3\r\n$-7\r\nabc".toList
      = .ok ["abc".toList, "abc".toList, "abc".toList] :=
  ⟨rfl, rfl, by decide, rfl, rfl⟩

/-! ## Single-element pushes served one after another

The embedding is sequential: an operation of `KVStore` is a function on the store, which is
what the lock of the source makes of it. Requests of several connections appear here in
the order in which they are served. -/

/-- Single-element `RPUSH` requests on one key, served in any order, all succeed and leave
the list it had followed by the pushed elements in the order served: none is lost and
none is doubled. -/
theorem rpush_serial (k : Str) (reqs : List (Int × Str)) (s : KVStore) :
    ∃ s', runCommands (reqs.map (fun r => (r.1, ["RPUSH".toList, k, r.2]))) s = .ok s'
      ∧ getList k s' = getList k s ++ reqs.map Prod.snd
      ∧ (getList k s').length = (getList k s).length + reqs.length := by
  induction reqs generalizing s with
  | nil => exact ⟨s, rfl, by simp, by simp⟩
  | cons r reqs ih =>
    have hd : dispatch r.1 ["RPUSH".toList, k, r.2] s
        = .ok (intReply (listSize k (listPushBack k r.2 s)), listPushBack k r.2 s) := rfl
    obtain ⟨s', h1, h2, h3⟩ := ih (listPushBack k r.2 s)
    refine ⟨s', ?_, ?_, ?_⟩
    · simp only [List.map_cons, runCommands, hd]
      exact h1
    · rw [h2, getList_listPushBack]
      simp
    · rw [h3, getList_listPushBack]
      simp only [List.length_append, List.length_cons, List.length_nil]
      omega

end MiniRedis
